import Mathlib

/-!
# move_basic: footprint collision engine and motion controller

Shallow embedding of `src/collision_checker.cpp` and of the controller in
`src/move_smooth.cpp`.  The C++ `float`/`double` values are idealised as
elements of a linearly ordered field `α` (exact arithmetic, no rounding, no
NaN); the definitions are generic in `α`, so they run on `ℚ` and the
trigonometric statements are made on `ℝ`.  Visualisation calls
(`draw_line`, `clear_line`) do not influence any returned value and are left
out.  The obstacle snapshot delivered by `ob_points.get_lines` /
`ob_points.get_points` is passed in as two lists.
-/

namespace MoveBasic

/-- Three-component vector, as `tf2::Vector3`. -/
structure Vector3 (α : Type) where
  x : α
  y : α
  z : α
deriving DecidableEq, Repr

/-- The configuration fields of `CollisionChecker` that the distance and angle
queries read.  The squared lengths and the two diagonals are computed from
them in the constructor and appear below as functions. -/
structure CollisionChecker (α : Type) where
  no_obstacle_dist : α
  robot_width : α
  robot_front_length : α
  robot_back_length : α
deriving Repr

section Dist

variable {α : Type} [LinearOrderedField α]

/-- Constructor field `robot_width_sq`. -/
def CollisionChecker.robot_width_sq (cc : CollisionChecker α) : α :=
  cc.robot_width * cc.robot_width

/-- Constructor field `robot_front_length_sq`. -/
def CollisionChecker.robot_front_length_sq (cc : CollisionChecker α) : α :=
  cc.robot_front_length * cc.robot_front_length

/-- Constructor field `robot_back_length_sq`. -/
def CollisionChecker.robot_back_length_sq (cc : CollisionChecker α) : α :=
  cc.robot_back_length * cc.robot_back_length

/-- Constructor field `front_diag`. -/
def CollisionChecker.front_diag (cc : CollisionChecker α) : α :=
  cc.robot_width * cc.robot_width + cc.robot_front_length * cc.robot_front_length

/-- Constructor field `back_diag`. -/
def CollisionChecker.back_diag (cc : CollisionChecker α) : α :=
  cc.robot_width * cc.robot_width + cc.robot_back_length * cc.robot_back_length

/-- Embedding of `CollisionChecker::check_dist`: the reference parameter `min_dist` is
threaded through as argument and result. -/
def check_dist (cc : CollisionChecker α) (x : α) (forward : Bool) (min_dist : α) : α :=
  let m1 :=
    if forward = true ∧ x > cc.robot_front_length then
      (if x < min_dist then x else min_dist)
    else min_dist
  if forward = false ∧ -x > cc.robot_back_length then
    (if -x < m1 then -x else m1)
  else m1

/-- The x-values that the "Forward and rear limits" part of the segment loop
of `obstacle_dist` hands to `check_dist` for the segment `(x0,y0)-(x1,y1)`, in
call order. -/
def front_rear_candidates (cc : CollisionChecker α) (x0 y0 x1 y1 : α) : List α :=
  if y0 < -cc.robot_width ∧ cc.robot_width < y1 then
    let ylen := y1 - y0
    let a0 := (y0 - cc.robot_width) / ylen
    let a1 := (y1 - cc.robot_width - y0) / ylen
    [a0 * x0 + (1 - a0) * x1, a1 * x1 + (1 - a1) * x0]
  else if y1 < -cc.robot_width ∧ cc.robot_width < y0 then
    let ylen := y0 - y1
    let a0 := (y0 - cc.robot_width - y1) / ylen
    let a1 := (y1 - cc.robot_width) / ylen
    [a0 * x0 + (1 - a0) * x1, a1 * x1 + (1 - a1) * x0]
  else
    (if -cc.robot_width < y0 ∧ y0 < cc.robot_width then [x0] else []) ++
    (if -cc.robot_width < y1 ∧ y1 < cc.robot_width then [x1] else [])

/-- The lateral values `[yb, yf]` (or the endpoint y-values) that the "Sides"
part of the segment loop of `obstacle_dist` compares with the side minima, in
order. -/
def side_candidates (cc : CollisionChecker α) (x0 y0 x1 y1 : α) : List α :=
  if x0 < -cc.robot_back_length ∧ x1 > cc.robot_front_length then
    let xlen := x1 - x0
    let ab := (-x0 - cc.robot_back_length) / xlen
    let af := (x1 - cc.robot_front_length - x0) / xlen
    let yb := ab * y0 + (1 - ab) * y1
    let yf := af * y1 + (1 - af) * y0
    [yb, yf]
  else if x1 < -cc.robot_back_length ∧ x0 > cc.robot_front_length then
    let xlen := x0 - x1
    let ab := (-x1 - cc.robot_back_length) / xlen
    let af := (x0 - cc.robot_front_length - x1) / xlen
    let yb := ab * y1 + (1 - ab) * y0
    let yf := af * y0 + (1 - af) * y1
    [yb, yf]
  else
    (if x0 > -cc.robot_back_length ∧ x0 < cc.robot_front_length then [y0] else []) ++
    (if x1 > -cc.robot_back_length ∧ x1 < cc.robot_front_length then [y1] else [])

/-- The pair of tests the segment loop applies to each lateral value `y`:
`if (y > 0 && y < min_dist_left) min_dist_left = y;`
`if (y < 0 && -y < min_dist_right) min_dist_right = -y;`
The state is `(min_dist_left, min_dist_right)`. -/
def side_check (y : α) (lr : α × α) : α × α :=
  let l := if y > 0 ∧ y < lr.1 then y else lr.1
  let r := if y < 0 ∧ -y < lr.2 then -y else lr.2
  (l, r)

/-- The side test of the point loop, which uses `else if` for the right side. -/
def point_side_check (y : α) (lr : α × α) : α × α :=
  if y > 0 ∧ y < lr.1 then (y, lr.2)
  else if y < 0 ∧ -y < lr.2 then (lr.1, -y)
  else lr

/-- Loop state of `obstacle_dist`. -/
structure DistState (α : Type) where
  min_dist : α
  min_dist_left : α
  min_dist_right : α
deriving Repr

/-- One iteration of the segment loop of `obstacle_dist`. -/
def line_step (cc : CollisionChecker α) (forward : Bool) (s : DistState α)
    (l : Vector3 α × Vector3 α) : DistState α :=
  let x0 := l.1.x
  let y0 := l.1.y
  let x1 := l.2.x
  let y1 := l.2.y
  let md := (front_rear_candidates cc x0 y0 x1 y1).foldl
    (fun m x => check_dist cc x forward m) s.min_dist
  let lr := (side_candidates cc x0 y0 x1 y1).foldl
    (fun lr y => side_check y lr) (s.min_dist_left, s.min_dist_right)
  ⟨md, lr.1, lr.2⟩

/-- One iteration of the point loop of `obstacle_dist`. -/
def point_step (cc : CollisionChecker α) (forward : Bool) (s : DistState α)
    (p : Vector3 α) : DistState α :=
  let y := p.y
  let x := p.x
  let md := if -cc.robot_width < y ∧ y < cc.robot_width then
      check_dist cc x forward s.min_dist else s.min_dist
  let lr := if x > -cc.robot_back_length ∧ x < cc.robot_front_length then
      point_side_check y (s.min_dist_left, s.min_dist_right)
    else (s.min_dist_left, s.min_dist_right)
  ⟨md, lr.1, lr.2⟩

/-- What `obstacle_dist` hands back: the returned distance and the four
reference parameters. -/
structure DistResult (α : Type) where
  dist : α
  min_dist_left : α
  min_dist_right : α
  fl : Vector3 α
  fr : Vector3 α
deriving Repr

/-- Embedding of `CollisionChecker::obstacle_dist`.  `lines` and `pts` are the snapshots
returned by `get_lines` and `get_points`; `fl` and `fr` are the incoming values
of the two reference vectors (only their x and y are overwritten). -/
def obstacle_dist (cc : CollisionChecker α) (forward : Bool)
    (lines : List (Vector3 α × Vector3 α)) (pts : List (Vector3 α))
    (fl fr : Vector3 α) : DistResult α :=
  let s0 : DistState α := ⟨cc.no_obstacle_dist, cc.no_obstacle_dist, cc.no_obstacle_dist⟩
  let s1 := lines.foldl (line_step cc forward) s0
  let fl1 : Vector3 α := ⟨cc.robot_front_length, s1.min_dist_left, fl.z⟩
  let fr1 : Vector3 α := ⟨cc.robot_front_length, s1.min_dist_right, fr.z⟩
  let s2 := pts.foldl (point_step cc forward) s1
  let md := if forward = true then s2.min_dist - cc.robot_front_length
    else s2.min_dist - cc.robot_back_length
  ⟨md, s2.min_dist_left - cc.robot_width, s2.min_dist_right - cc.robot_width, fl1, fr1⟩

/-! ### Rotation margin -/

/-- The `<cmath>` items used by the angle query: `M_PI`, `std::atan2 (y, x)`
and `std::sqrt`. -/
structure FloatMath (α : Type) where
  pi : α
  atan2 : α → α → α
  sqrt : α → α

/-- The local `theta_int` of `check_angle` after its two wrap-around
adjustments: the rotation that takes a point at polar angle `theta` to the
footprint-edge point `(x, y)`. -/
def theta_int (fm : FloatMath α) (theta x y : α) : α :=
  let t0 := theta - fm.atan2 y x
  let t1 := if t0 < -fm.pi then t0 + 2 * fm.pi else t0
  if t1 > fm.pi then t1 - 2 * fm.pi else t1

/-- Embedding of `CollisionChecker::check_angle`; the reference parameter `min_dist` is
threaded through as argument and result. -/
def check_angle (fm : FloatMath α) (theta x y : α) (left : Bool) (min_dist : α) : α :=
  let ti := theta_int fm theta x y
  let m1 := if left = true ∧ ti > 0 ∧ ti < min_dist then ti else min_dist
  if left = false ∧ ti < 0 ∧ -ti < m1 then -ti else m1

/-- The "left line segment / right line segment" block of the point loop of
`obstacle_angle`: intersections of the circle of radius `√r_squared` with the
lines `y = ±robot_width`. -/
def side_edges_check (fm : FloatMath α) (cc : CollisionChecker α) (left : Bool)
    (theta r_squared min_angle : α) : α :=
  if cc.robot_width_sq ≤ r_squared then
    let xi := fm.sqrt (r_squared - cc.robot_width_sq)
    let a :=
      if -cc.robot_back_length ≤ xi ∧ xi ≤ cc.robot_front_length then
        check_angle fm theta xi (-cc.robot_width) left
          (check_angle fm theta xi cc.robot_width left min_angle)
      else min_angle
    if -cc.robot_back_length ≤ -xi ∧ -xi ≤ cc.robot_front_length then
      check_angle fm theta (-xi) (-cc.robot_width) left
        (check_angle fm theta (-xi) cc.robot_width left a)
    else a
  else min_angle

/-- The "back line segment" block of the point loop of `obstacle_angle`. -/
def back_edge_check (fm : FloatMath α) (cc : CollisionChecker α) (left : Bool)
    (theta x r_squared min_angle : α) : α :=
  if x < 0 ∧ cc.robot_back_length_sq ≤ r_squared then
    let yi := fm.sqrt (r_squared - cc.robot_back_length_sq)
    let a :=
      if -cc.robot_width ≤ yi ∧ yi ≤ cc.robot_width then
        check_angle fm theta (-cc.robot_back_length) yi left min_angle
      else min_angle
    if -cc.robot_width ≤ -yi ∧ -yi ≤ cc.robot_width then
      check_angle fm theta (-cc.robot_back_length) (-yi) left a
    else a
  else min_angle

/-- The "front line segment" block of the point loop of `obstacle_angle`. -/
def front_edge_check (fm : FloatMath α) (cc : CollisionChecker α) (left : Bool)
    (theta x r_squared min_angle : α) : α :=
  if x > 0 ∧ r_squared ≤ cc.front_diag ∧ cc.robot_front_length_sq ≤ r_squared then
    let yi := fm.sqrt (r_squared - cc.robot_front_length_sq)
    let a :=
      if -cc.robot_width ≤ yi ∧ yi ≤ cc.robot_width then
        check_angle fm theta cc.robot_front_length yi left min_angle
      else min_angle
    if -cc.robot_width ≤ -yi ∧ -yi ≤ cc.robot_width then
      check_angle fm theta cc.robot_front_length (-yi) left a
    else a
  else min_angle

/-- One iteration of the point loop of `obstacle_angle`: the three blocks run
in source order on points with `r_squared ≤ back_diag`. -/
def angle_step (fm : FloatMath α) (cc : CollisionChecker α) (left : Bool) (min_angle : α)
    (p : Vector3 α) : α :=
  let x := p.x
  let y := p.y
  let theta := fm.atan2 y x
  let r_squared := x * x + y * y
  if r_squared ≤ cc.back_diag then
    front_edge_check fm cc left theta x r_squared
      (back_edge_check fm cc left theta x r_squared
        (side_edges_check fm cc left theta r_squared min_angle))
  else min_angle

/-- Embedding of `CollisionChecker::obstacle_angle` on the point snapshot `pts`. -/
def obstacle_angle (fm : FloatMath α) (cc : CollisionChecker α) (left : Bool)
    (pts : List (Vector3 α)) : α :=
  pts.foldl (angle_step fm cc left) fm.pi

/-! ### Vocabulary of the statements -/

/-- The point `(x, y)` lies on the closed segment from `p0` to `p1`. -/
def OnSegment (p0 p1 : Vector3 α) (x y : α) : Prop :=
  ∃ t : α, 0 ≤ t ∧ t ≤ 1 ∧ x = t * p0.x + (1 - t) * p1.x ∧ y = t * p0.y + (1 - t) * p1.y

/-- The point `(x, y)` lies on the line through `p0` and `p1`. -/
def OnLine (p0 p1 : Vector3 α) (x y : α) : Prop :=
  ∃ t : α, x = t * p0.x + (1 - t) * p1.x ∧ y = t * p0.y + (1 - t) * p1.y

/-- The point `(x, y)` lies in the closed footprint rectangle
`[-robot_back_length, robot_front_length] × [-robot_width, robot_width]`. -/
def InFootprint (cc : CollisionChecker α) (x y : α) : Prop :=
  -cc.robot_back_length ≤ x ∧ x ≤ cc.robot_front_length ∧
    -cc.robot_width ≤ y ∧ y ≤ cc.robot_width

/-- The point `(x, y)` lies on the boundary of the footprint rectangle. -/
def OnFootprintBoundary (cc : CollisionChecker α) (x y : α) : Prop :=
  InFootprint cc x y ∧
    (x = -cc.robot_back_length ∨ x = cc.robot_front_length ∨
      y = -cc.robot_width ∨ y = cc.robot_width)

/-- Mirror image of a point in the x-axis. -/
def mirror (p : Vector3 α) : Vector3 α := ⟨p.x, -p.y, p.z⟩

end Dist

/-- The real-number reading of `<cmath>`: `π`, the two-argument arctangent
(the argument of `x + iy`, with `atan2 (0, 0) = 0` and values in `(-π, π]`)
and the square root.  It is exact: there is no rounding, `float` and `double`
share one value of `π`, and there is no signed zero, so `atan2 (-0.0, x)` with
`x < 0`, which is `-π` in the C library, is `π` here. -/
noncomputable def realMath : FloatMath ℝ :=
  ⟨Real.pi, fun y x => Complex.arg ⟨x, y⟩, Real.sqrt⟩

/-- The point `p` rotated about the origin (the z axis) by the angle `phi`. -/
noncomputable def rotate (phi : ℝ) (p : Vector3 ℝ) : Vector3 ℝ :=
  ⟨p.x * Real.cos phi - p.y * Real.sin phi, p.x * Real.sin phi + p.y * Real.cos phi, p.z⟩

/-- The running value `m` of the point loop of `obstacle_angle` is either
unconstrained (`m ≥ π`) or a turn that brings `p` onto the footprint boundary:
in the robot frame a left turn by `m` rotates the point by `-m`, a right turn
by `+m`. -/
def TouchesAfterTurn (cc : CollisionChecker ℝ) (p : Vector3 ℝ) (left : Bool) (m : ℝ) : Prop :=
  m < Real.pi →
    OnFootprintBoundary cc (rotate (if left = true then -m else m) p).x
      (rotate (if left = true then -m else m) p).y

/-! ## The motion controller (`src/move_smooth.cpp`)

The controller talks to three collaborators that are not part of the
repository's sources: the frame lookup (`tf2`), the action server and the
clock.  One loop iteration ("tick") therefore receives a record holding what
these collaborators answer during that tick, and a run of a loop is driven by a
list of such records.  What the controller does to the outside is collected as
a list of `Event`s in program order. -/

section Controller

variable {α : Type} [LinearOrderedField α]

/-- The configuration fields of class `MoveBasic` (the "Move Smooth" node) that
`rotate`, `smoothFollow` and `executeAction` read.  The methods of the class are
the functions `MoveSmooth.rotate`, `MoveSmooth.smoothFollow`, ... below. -/
structure MoveSmooth (α : Type) where
  maxAngularVelocity : α
  maxAngularAcceleration : α
  maxLinearVelocity : α
  maxLinearAcceleration : α
  angleTolerance : α
  maxIncline : α
  gravityConstant : α
  maxLateralDev : α
  lateralKp : α
  lateralKi : α
  lateralKd : α
  runawayTimeoutSecs : α
  forwardObstacleThreshold : α

/-- The values the constructor `MoveBasic::MoveBasic` installs when no
parameter is set. -/
def MoveSmooth.defaults : MoveSmooth α :=
  ⟨2, 5, 1 / 2, 11 / 10, 1 / 10, 1 / 100, 981 / 100, 1, 1 / 2, 0, 3, 1, 1 / 2⟩

/-- The messages handed to `abortGoal`. -/
inductive AbortMsg where
  | invalidOrientation
  | noRobotPoseInDrivingFrame
  | noRobotPoseInGoalFrame
  | noGoalPoseInDrivingFrame
  | alreadyCloseEnough
  | noRobotPoseForLinear
  | movingAwayFromGoal
  | noNextGoalPoseInDrivingFrame
deriving DecidableEq, Repr

/-- What the controller does to the outside: a published velocity command
(`angular.z`, `linear.x`) or a call on the action server. -/
inductive Event (α : Type) where
  | cmd (angular linear : α)
  | setAborted (msg : AbortMsg)
  | setPreempted
  | setSucceeded
deriving DecidableEq, Repr

/-- How a call ends: it returns a value, the process is stopped by a failed
`assert`, or the script of ticks ends while the loop is still running. -/
inductive Outcome (β : Type) where
  | returned (value : β)
  | assertFailed
  | running
deriving DecidableEq, Repr

/-- How one loop iteration ends: the loop goes on with a new state, the
function returns, or an `assert` fails. -/
inductive Step (σ : Type) where
  | next (s : σ)
  | ret (done : Bool)
  | assertFailed

/-- The value `normalizeAngle` leaves in `angle`: one wrap up if the input is
below `-π`, then one wrap down if the value is above `π`. -/
def normalizeAngle (fm : FloatMath α) (angle : α) : α :=
  let a1 := if angle < -fm.pi then angle + 2 * fm.pi else angle
  if a1 > fm.pi then a1 - 2 * fm.pi else a1

/-- The two `assert` statements of `normalizeAngle`.  Neither is guarded by
the preceding `if` (there are no braces), so both are evaluated on every call:
`angle > -M_PI` after the first adjustment and `angle < M_PI` after the
second.  The result is `true` when both hold. -/
def normalizeAngle_asserts (fm : FloatMath α) (angle : α) : Bool :=
  let a1 := if angle < -fm.pi then angle + 2 * fm.pi else angle
  let a2 := if a1 > fm.pi then a1 - 2 * fm.pi else a1
  decide (a1 > -fm.pi) && decide (a2 < fm.pi)

/-- Embedding of `sign`. -/
def sign (n : α) : Int := if n < 0 then -1 else 1

/-- Embedding of `MoveBasic::limitLinearVelocity`. -/
def MoveSmooth.limitLinearVelocity (mb : MoveSmooth α) (velocity : α) : α :=
  min mb.maxLinearVelocity velocity

/-- Embedding of `MoveBasic::limitAngularVelocity`. -/
def MoveSmooth.limitAngularVelocity (mb : MoveSmooth α) (velocity : α) : α :=
  max (-mb.maxAngularVelocity) (min mb.maxAngularVelocity velocity)

/-- Embedding of `MoveBasic::sendCmd`: the published command, given the value
of the force-stop flag `stop`. -/
def sendCmd (stop : Bool) (angular linear : α) : Event α :=
  Event.cmd (if stop = true then 0 else angular) (if stop = true then 0 else linear)

/-! ### `rotate` -/

/-- What the collaborators answer during one iteration of the loop of
`rotate`. -/
structure RotateTick (α : Type) where
  /-- Value of `ros::ok()` in the loop condition. -/
  ok : Bool
  /-- Whether `getTransform(drivingFrame, baseFrame, poseDriving)` succeeds. -/
  poseOk : Bool
  /-- The yaw `getPose` extracts from `poseDriving`. -/
  currentYawInDriving : α
  /-- The obstacle points `obstacle_angle` reads. -/
  points : List (Vector3 α)
  /-- Value of `actionServer->isNewGoalAvailable()`. -/
  newGoal : Bool
  /-- Value of `actionServer->isPreemptRequested()`. -/
  preempt : Bool
  /-- Value of the force-stop flag `stop`. -/
  stop : Bool

/-- The local variables of `rotate` that live across loop iterations. -/
structure RotateState (α : Type) where
  previousAngleRemaining : α
  previousAngularVelocity : α
  oscillations : Int
  done : Bool

/-- The `angleRemaining` of a tick of `rotate` before normalisation. -/
def RotateTick.rawAngle (finalOrientation : α) (t : RotateTick α) : α :=
  finalOrientation - (-t.currentYawInDriving)

/-- The `obstacleAngle` of a tick of `rotate`, for the normalised
`angleRemaining`. -/
def rotateObstacleAngle (fm : FloatMath α) (cc : CollisionChecker α)
    (angleRemaining : α) (points : List (Vector3 α)) : α :=
  min |angleRemaining| |obstacle_angle fm cc (decide (angleRemaining > 0)) points|

/-- The body of the `while` loop of `rotate` (one tick whose loop condition
held). -/
def MoveSmooth.rotateBody (mb : MoveSmooth α) (fm : FloatMath α) (cc : CollisionChecker α)
    (finalOrientation : α) (s : RotateState α) (t : RotateTick α) :
    List (Event α) × Step (RotateState α) :=
  if t.poseOk = false then ([], Step.ret false)
  else if normalizeAngle_asserts fm (t.rawAngle finalOrientation) = false then
    ([], Step.assertFailed)
  else
    let angleRemaining := normalizeAngle fm (t.rawAngle finalOrientation)
    let obstacleAngle := rotateObstacleAngle fm cc angleRemaining t.points
    let oscillations :=
      if sign s.previousAngleRemaining ≠ sign angleRemaining then s.oscillations + 1
      else s.oscillations
    let reached : Bool := decide (|angleRemaining| < mb.angleTolerance ∨ oscillations > 2)
    let ev1 : List (Event α) := if reached = true then [sendCmd t.stop 0 0] else []
    let ramp := mb.limitAngularVelocity
      (fm.sqrt (s.previousAngularVelocity + 2 * mb.maxAngularAcceleration * obstacleAngle))
    let angularVelocity := if t.newGoal = true then 0 else ramp
    let done : Bool := if t.newGoal = true then true else reached
    if t.preempt = true then
      (ev1 ++ [sendCmd t.stop 0 0, Event.setPreempted], Step.ret false)
    else
      let signed := if angleRemaining < 0 then -angularVelocity else angularVelocity
      (ev1 ++ [sendCmd t.stop signed 0],
        Step.next ⟨angleRemaining, angularVelocity, oscillations, done⟩)

/-- The `while (!done && ros::ok())` loop of `rotate` followed by
`return done`. -/
def MoveSmooth.rotateLoop (mb : MoveSmooth α) (fm : FloatMath α) (cc : CollisionChecker α)
    (finalOrientation : α) :
    RotateState α → List (RotateTick α) → List (Event α) × Outcome Bool
  | s, [] => if s.done = true then ([], Outcome.returned s.done) else ([], Outcome.running)
  | s, t :: ts =>
    if s.done = true then ([], Outcome.returned s.done)
    else if t.ok = false then ([], Outcome.returned s.done)
    else
      match mb.rotateBody fm cc finalOrientation s t with
      | (ev, Step.next s1) =>
        let r := MoveSmooth.rotateLoop mb fm cc finalOrientation s1 ts
        (ev ++ r.1, r.2)
      | (ev, Step.ret b) => (ev, Outcome.returned b)
      | (ev, Step.assertFailed) => (ev, Outcome.assertFailed)

/-- Embedding of `MoveBasic::rotate`. -/
def MoveSmooth.rotate (mb : MoveSmooth α) (fm : FloatMath α) (cc : CollisionChecker α)
    (finalOrientation : α) (ticks : List (RotateTick α)) :
    List (Event α) × Outcome Bool :=
  if normalizeAngle_asserts fm finalOrientation = false then ([], Outcome.assertFailed)
  else
    mb.rotateLoop fm cc (normalizeAngle fm finalOrientation) ⟨0, 0, 0, false⟩ ticks

/-! ### `smoothFollow` -/

/-- What the collaborators answer before the loop of `smoothFollow`. -/
structure FollowStart (α : Type) where
  /-- Whether `getTransform(baseFrame, drivingFrame, poseDrivingInitial)` succeeds. -/
  poseOk : Bool
  /-- Origin of `poseDrivingInitial`. -/
  poseDrivingInitial : Vector3 α
  /-- Origin of `goalInDriving`. -/
  goalInDriving : Vector3 α
  /-- Value of `ros::Time::now()` that initialises `last`. -/
  now : α

/-- What the collaborators answer during one iteration of the loop of
`smoothFollow`. -/
structure FollowTick (α : Type) where
  /-- Value of `ros::ok()` in the loop condition. -/
  ok : Bool
  /-- Whether `getTransform(drivingFrame, baseFrame, poseDriving)` succeeds. -/
  poseOk : Bool
  /-- Origin of `goalInBase = poseDriving * goalInDriving`. -/
  remaining : Vector3 α
  /-- The obstacle points read by `obstacle_angle` and `obstacle_dist`. -/
  points : List (Vector3 α)
  /-- The obstacle segments read by `obstacle_dist`. -/
  lines : List (Vector3 α × Vector3 α)
  /-- The field `forwardObstacleDist`, refreshed by `run`. -/
  forwardObstacleDist : α
  /-- The field `forwardLeft`. -/
  forwardLeft : Vector3 α
  /-- The field `forwardRight`. -/
  forwardRight : Vector3 α
  /-- Value of `actionServer->isPreemptRequested()`. -/
  preempt : Bool
  /-- Value of `ros::Time::now()` in the runaway check. -/
  now : α
  /-- Value of `actionServer->isNewGoalAvailable()`. -/
  newGoal : Bool
  /-- Whether `transformPose` succeeds for the queued goal. -/
  nextGoalOk : Bool
  /-- Origin of `nextGoalInBase = poseDriving * nextGoalInDriving`. -/
  nextRemaining : Vector3 α
  /-- Value of the force-stop flag `stop`. -/
  stop : Bool

/-- The local variables of `smoothFollow` that carry a value from one loop
iteration to the next. -/
structure FollowState (α : Type) where
  last : α
  prevDistanceRemaining : α
  previousLinearVelocity : α
  previousAngularVelocity : α
  lateralIntegral : α
  prevLateralError : α

/-- The `distRemaining` of a tick of `smoothFollow`. -/
def FollowTick.distRemaining (fm : FloatMath α) (t : FollowTick α) : α :=
  fm.sqrt (t.remaining.x * t.remaining.x + t.remaining.y * t.remaining.y)

/-- The `angleRemaining` of a tick of `smoothFollow` before normalisation. -/
def FollowTick.rawAngle (fm : FloatMath α) (t : FollowTick α) : α :=
  fm.atan2 t.remaining.y t.remaining.x

/-- The normalised `angleRemaining` of a tick of `smoothFollow`. -/
def FollowTick.angleRemaining (fm : FloatMath α) (t : FollowTick α) : α :=
  normalizeAngle fm (t.rawAngle fm)

/-- The `obstacleDist` of a tick of `smoothFollow`: the field
`forwardObstacleDist`, or a fresh backward query when `distRemaining < 0`. -/
def FollowTick.obstacleDist (fm : FloatMath α) (cc : CollisionChecker α)
    (t : FollowTick α) : α :=
  if t.distRemaining fm < 0 then
    (obstacle_dist cc false t.lines t.points t.forwardLeft t.forwardRight).dist
  else t.forwardObstacleDist

/-- The runaway condition of a tick:
`cos(angleRemaining) < 0 and prevDistanceRemaining + 0.02 < distRemaining`. -/
def runawayCondition (fm : FloatMath α) (cos : α → α) (s : FollowState α)
    (t : FollowTick α) : Bool :=
  decide (cos (t.angleRemaining fm) < 0 ∧
    s.prevDistanceRemaining + 2 / 100 < t.distRemaining fm)

/-- The linear velocity of the "Linear control" block. -/
def MoveSmooth.linearControl (mb : MoveSmooth α) (fm : FloatMath α)
    (previousLinearVelocity angleRemaining obstacleDist distRemaining : α) : α :=
  let maxAngleDev := fm.atan2 mb.maxLateralDev 1
  let angularDevVelocity :=
    max ((maxAngleDev - |angleRemaining| / 2) / maxAngleDev) 0 * mb.maxLinearVelocity
  let linearAccelerationConstraint :=
    fm.sqrt (previousLinearVelocity + 2 * mb.maxLinearAcceleration * min obstacleDist distRemaining)
  let proportionalControl := distRemaining
  mb.limitLinearVelocity
    (min angularDevVelocity (min proportionalControl linearAccelerationConstraint))

/-- What `std::sqrt` leaves in a `double` when its argument need not be a
non-negative finite number: a finite value, `+∞` or NaN. -/
inductive Root (α : Type) where
  | fin (x : α)
  | inf
  | nan

/-- Embedding of `std::sqrt (x)` for a finite `x`: NaN when `x` is negative. -/
def sqrtRoot (fm : FloatMath α) (x : α) : Root α :=
  if x < 0 then Root.nan else Root.fin (fm.sqrt x)

/-- Embedding of `std::sqrt (n / d)` for finite `n` and `d`: for `d = 0` the
quotient is `+∞` (`n > 0`), `-∞` (`n < 0`) or NaN (`n = 0`), and `std::sqrt`
takes `+∞` to `+∞` and the other two to NaN. -/
def sqrtQuot (fm : FloatMath α) (n d : α) : Root α :=
  if d = 0 then (if 0 < n then Root.inf else Root.nan) else sqrtRoot fm (n / d)

/-- Embedding of `std::min (a, b)`, which is `(b < a) ? b : a`, for a finite
`a`: a comparison with NaN is false, so NaN is dropped. -/
def stdMin (a : α) : Root α → α
  | Root.fin y => if y < a then y else a
  | Root.inf => a
  | Root.nan => a

/-- Embedding of `std::max (a, b)`, which is `(a < b) ? b : a`, for a finite
`a`. -/
def stdMax (a : α) : Root α → Root α
  | Root.fin y => Root.fin (if a < y then y else a)
  | Root.inf => Root.inf
  | Root.nan => Root.fin a

/-- The angular velocity of the "Lateral control" block, for the updated
integral.  `previousAngularVelocity` is the signed command stored by the
previous tick, so the argument of `std::sqrt` can be negative; the NaN it then
returns is dropped by `std::min`. -/
def MoveSmooth.lateralControl (mb : MoveSmooth α) (fm : FloatMath α)
    (previousAngularVelocity lateralError prevLateralError lateralIntegral obstacleAngle : α) :
    α :=
  let lateralDiff := lateralError - prevLateralError
  let pidAngularVelocity :=
    mb.lateralKp * lateralError + mb.lateralKi * lateralIntegral + mb.lateralKd * lateralDiff
  let angularAccelerationConstraint :=
    sqrtRoot fm (previousAngularVelocity + 2 * mb.maxAngularAcceleration * obstacleAngle)
  mb.limitAngularVelocity (stdMin pidAngularVelocity angularAccelerationConstraint)

/-- The linear velocity of the "Next goal state" block.  The divisor
`1 - cos (angleToNextGoal / 2)` is zero for a next goal straight ahead, so
`maxTurnVelocity` can be `+∞` or NaN. -/
def MoveSmooth.nextGoalVelocity (mb : MoveSmooth α) (fm : FloatMath α) (cos : α → α)
    (linearVelocity : α) (nextRemaining : Vector3 α) : α :=
  let distanceToNextGoal :=
    fm.sqrt (nextRemaining.x * nextRemaining.x + nextRemaining.y * nextRemaining.y)
  let angleToNextGoal := normalizeAngle fm (fm.atan2 nextRemaining.y nextRemaining.x)
  let maxTurnVelocity :=
    sqrtQuot fm (mb.gravityConstant * mb.maxIncline * mb.maxLateralDev)
      (1 - cos (angleToNextGoal / 2))
  mb.limitLinearVelocity (stdMin distanceToNextGoal (stdMax linearVelocity maxTurnVelocity))

/-- The body of the `while` loop of `smoothFollow` (one tick whose loop
condition held).  `Step.ret` stands for the two exits `FinishWithStop` (the
final `sendCmd(0, 0)` is then the last event) and `FinishWithoutStop`. -/
def MoveSmooth.followBody (mb : MoveSmooth α) (fm : FloatMath α) (cos : α → α)
    (cc : CollisionChecker α) (s : FollowState α) (t : FollowTick α) :
    List (Event α) × Step (FollowState α) :=
  if t.poseOk = false then ([], Step.ret false)
  else if normalizeAngle_asserts fm (t.rawAngle fm) = false then ([], Step.assertFailed)
  else
    let distRemaining := t.distRemaining fm
    let angleRemaining := t.angleRemaining fm
    let obstacleAngle := rotateObstacleAngle fm cc angleRemaining t.points
    let obstacleDist := t.obstacleDist fm cc
    if obstacleDist ≤ mb.forwardObstacleThreshold then
      ([sendCmd t.stop 0 0], Step.next s)
    else if t.preempt = true then
      ([Event.setPreempted, sendCmd t.stop 0 0], Step.ret false)
    else if runawayCondition fm cos s t = true ∧ t.now - s.last > mb.runawayTimeoutSecs then
      ([Event.setAborted AbortMsg.movingAwayFromGoal, sendCmd t.stop 0 0], Step.ret false)
    else
      let last := if runawayCondition fm cos s t = true then s.last else t.now
      if distRemaining < mb.maxLateralDev then
        if t.newGoal = true then ([], Step.ret true)
        else ([sendCmd t.stop 0 0], Step.ret true)
      else
        let linearVelocity :=
          mb.linearControl fm s.previousLinearVelocity angleRemaining obstacleDist distRemaining
        let lateralError := t.remaining.y
        let lateralIntegral := s.lateralIntegral + lateralError
        let angularVelocity := mb.lateralControl fm s.previousAngularVelocity lateralError
          s.prevLateralError lateralIntegral obstacleAngle
        if t.newGoal = true then
          if t.nextGoalOk = false then
            ([Event.setAborted AbortMsg.noNextGoalPoseInDrivingFrame, sendCmd t.stop 0 0],
              Step.ret false)
          else if normalizeAngle_asserts fm
              (fm.atan2 t.nextRemaining.y t.nextRemaining.x) = false then
            ([], Step.assertFailed)
          else
            let linearVelocity2 := mb.nextGoalVelocity fm cos linearVelocity t.nextRemaining
            ([sendCmd t.stop angularVelocity linearVelocity2],
              Step.next ⟨last, distRemaining, linearVelocity2, angularVelocity,
                lateralIntegral, lateralError⟩)
        else
          ([sendCmd t.stop angularVelocity linearVelocity],
            Step.next ⟨last, distRemaining, linearVelocity, angularVelocity,
              lateralIntegral, lateralError⟩)

/-- The `while (!done && ros::ok())` loop of `smoothFollow` with the code after
it.  Inside the loop `done` is `false`; when `ros::ok()` fails the function
falls through to `FinishWithStop`. -/
def MoveSmooth.followLoop (mb : MoveSmooth α) (fm : FloatMath α) (cos : α → α)
    (cc : CollisionChecker α) :
    FollowState α → List (FollowTick α) → List (Event α) × Outcome Bool
  | _, [] => ([], Outcome.running)
  | s, t :: ts =>
    if t.ok = false then ([sendCmd t.stop 0 0], Outcome.returned false)
    else
      match mb.followBody fm cos cc s t with
      | (ev, Step.next s1) =>
        let r := MoveSmooth.followLoop mb fm cos cc s1 ts
        (ev ++ r.1, r.2)
      | (ev, Step.ret b) => (ev, Outcome.returned b)
      | (ev, Step.assertFailed) => (ev, Outcome.assertFailed)

/-- Embedding of `MoveBasic::smoothFollow`. -/
def MoveSmooth.smoothFollow (mb : MoveSmooth α) (fm : FloatMath α) (cos : α → α)
    (cc : CollisionChecker α) (start : FollowStart α) (ticks : List (FollowTick α)) :
    List (Event α) × Outcome Bool :=
  if start.poseOk = false then
    ([Event.setAborted AbortMsg.noRobotPoseForLinear], Outcome.returned false)
  else
    let lx := start.poseDrivingInitial.x - start.goalInDriving.x
    let ly := start.poseDrivingInitial.y - start.goalInDriving.y
    let requestedDistance := fm.sqrt (lx * lx + ly * ly + 0 * 0)
    mb.followLoop fm cos cc ⟨start.now, requestedDistance, 0, 0, 0, 0⟩ ticks

/-! ### `executeAction` -/

/-- What the collaborators answer during one call of `executeAction`. -/
structure ActionInput (α : Type) where
  /-- Value of `std::isnan(yaw)` for the goal orientation. -/
  yawIsNan : Bool
  /-- Whether `getTransform(preferredDrivingFrame, baseFrame, ...)` succeeds. -/
  preferredOk : Bool
  /-- Whether `getTransform(alternateDrivingFrame, baseFrame, ...)` succeeds. -/
  alternateOk : Bool
  /-- Whether `getTransform(baseFrame, frameId, poseFrameId)` succeeds. -/
  poseInGoalFrameOk : Bool
  /-- Whether `transformPose(frameId, drivingFrame, goal, goalInDriving)` succeeds. -/
  goalInDrivingOk : Bool
  /-- The yaw of `goalInDriving`. -/
  goalYaw : α
  /-- Origin of `goalInBase = currentDrivingBase * goalInDriving`. -/
  goalInBase : Vector3 α
  /-- The answers before the loop of `smoothFollow`. -/
  followStart : FollowStart α
  /-- The ticks of `smoothFollow`. -/
  followTicks : List (FollowTick α)
  /-- Value of `actionServer->isNewGoalAvailable()` after `smoothFollow`. -/
  newGoalAfterFollow : Bool
  /-- The ticks of `rotate`. -/
  rotateTicks : List (RotateTick α)

/-- The part of `executeAction` after a successful `smoothFollow`. -/
def MoveSmooth.finishAction (mb : MoveSmooth α) (fm : FloatMath α) (cc : CollisionChecker α)
    (i : ActionInput α) : List (Event α) × Outcome Unit :=
  if i.newGoalAfterFollow = false then
    match mb.rotate fm cc i.goalYaw i.rotateTicks with
    | (ev, Outcome.returned true) => (ev ++ [Event.setSucceeded], Outcome.returned ())
    | (ev, Outcome.returned false) => (ev, Outcome.returned ())
    | (ev, Outcome.assertFailed) => (ev, Outcome.assertFailed)
    | (ev, Outcome.running) => (ev, Outcome.running)
  else ([Event.setSucceeded], Outcome.returned ())

/-- Embedding of `MoveBasic::executeAction`. -/
def MoveSmooth.executeAction (mb : MoveSmooth α) (fm : FloatMath α) (cos : α → α)
    (cc : CollisionChecker α) (i : ActionInput α) : List (Event α) × Outcome Unit :=
  if i.yawIsNan = true then
    ([Event.setAborted AbortMsg.invalidOrientation], Outcome.returned ())
  else if i.preferredOk = false ∧ i.alternateOk = false then
    ([Event.setAborted AbortMsg.noRobotPoseInDrivingFrame], Outcome.returned ())
  else if i.poseInGoalFrameOk = false then
    ([Event.setAborted AbortMsg.noRobotPoseInGoalFrame], Outcome.returned ())
  else if i.goalInDrivingOk = false then
    ([Event.setAborted AbortMsg.noGoalPoseInDrivingFrame], Outcome.returned ())
  else
    let requestedDistance :=
      fm.sqrt (i.goalInBase.x * i.goalInBase.x + i.goalInBase.y * i.goalInBase.y)
    if requestedDistance > mb.maxLateralDev then
      match mb.smoothFollow fm cos cc i.followStart i.followTicks with
      | (ev, Outcome.returned true) =>
        let r := mb.finishAction fm cc i
        (ev ++ r.1, r.2)
      | (ev, Outcome.returned false) => (ev, Outcome.returned ())
      | (ev, Outcome.assertFailed) => (ev, Outcome.assertFailed)
      | (ev, Outcome.running) => (ev, Outcome.running)
    else ([Event.setAborted AbortMsg.alreadyCloseEnough], Outcome.returned ())

/-- The local `angularDevVelocity` of the "Linear control" block of
`smoothFollow`: the bound on the linear velocity that depends on the bearing
error. -/
def MoveSmooth.angularDevVelocity (mb : MoveSmooth α) (fm : FloatMath α)
    (angleRemaining : α) : α :=
  let maxAngleDev := fm.atan2 mb.maxLateralDev 1
  max ((maxAngleDev - |angleRemaining| / 2) / maxAngleDev) 0 * mb.maxLinearVelocity

/-- Number of places at which `sign` changes along the sequence that starts
with `prev` and continues with the given list. -/
def signChanges (prev : α) : List α → Nat
  | [] => 0
  | a :: rest => (if sign prev ≠ sign a then 1 else 0) + signChanges a rest

/-- The loop variables of `rotate` after the bodies of the given ticks have run
one after the other; `none` when one of the bodies left the function (return,
preemption or failed assertion) instead of reaching the end of the loop body. -/
def MoveSmooth.rotateStateAfter (mb : MoveSmooth α) (fm : FloatMath α)
    (cc : CollisionChecker α) (finalOrientation : α) :
    RotateState α → List (RotateTick α) → Option (RotateState α)
  | s, [] => some s
  | s, t :: ts =>
    match mb.rotateBody fm cc finalOrientation s t with
    | (_, Step.next s1) => MoveSmooth.rotateStateAfter mb fm cc finalOrientation s1 ts
    | (_, Step.ret _) => none
    | (_, Step.assertFailed) => none

end Controller

/-! ## The arc query (`obstacle_arc_angle`) -/

section Arc

variable {α : Type} [LinearOrderedField α]

/-- Difference of two vectors, as `tf2::Vector3::operator-`. -/
def Vector3.sub (a b : Vector3 α) : Vector3 α := ⟨a.x - b.x, a.y - b.y, a.z - b.z⟩

/-- Squared length, as `tf2::Vector3::length2`. -/
def Vector3.length2 (a : Vector3 α) : α := a.x * a.x + a.y * a.y + a.z * a.z

/-- The lambda `angle_relevant` of `obstacle_arc_angle`. -/
def angle_relevant (fm : FloatMath α) (outer_theta : α) (left forward : Bool) (angle : α) :
    Bool :=
  if forward = true then
    if left = true then decide (angle > outer_theta) else decide (angle < outer_theta)
  else
    let angle1 := if angle < 0 then angle + 2 * fm.pi else angle
    if left = true then decide (angle1 < outer_theta) else decide (angle1 > outer_theta)

/-- The point of rotation of `obstacle_arc_angle`, relative to `base_link`. -/
def point_of_rotation (linear angular : α) : Vector3 α :=
  ⟨0, if angular ≥ 0 then |linear / angular| else -|linear / angular|, 0⟩

/-- The critical corner `outer_point` of `obstacle_arc_angle`, relative to the
point of rotation. -/
def outer_point (cc : CollisionChecker α) (linear angular : α) : Vector3 α :=
  Vector3.sub ⟨-cc.robot_back_length,
    if angular ≥ 0 then -cc.robot_width else cc.robot_width, 0⟩
    (point_of_rotation linear angular)

/-- The critical corner `inner_point` of `obstacle_arc_angle`, relative to the
point of rotation. -/
def inner_point (cc : CollisionChecker α) (linear angular : α) : Vector3 α :=
  Vector3.sub ⟨cc.robot_front_length,
    if angular ≥ 0 then cc.robot_width else -cc.robot_width, 0⟩
    (point_of_rotation linear angular)

/-- The local `outer_theta` of `obstacle_arc_angle`. -/
def outer_theta (fm : FloatMath α) (cc : CollisionChecker α) (linear angular : α) : α :=
  fm.atan2 (outer_point cc linear angular).y (outer_point cc linear angular).x

/-- The test the point loop of `obstacle_arc_angle` applies to a point before
it updates `closest_angle`: the point lies strictly inside the annulus, its
angle is relevant and below `π`. -/
def arc_qualifies (fm : FloatMath α) (cc : CollisionChecker α) (linear angular : α)
    (p : Vector3 α) : Prop :=
  ((Vector3.sub p (point_of_rotation linear angular)).length2 <
        (outer_point cc linear angular).length2 ∧
      (Vector3.sub p (point_of_rotation linear angular)).length2 >
        (inner_point cc linear angular).length2) ∧
    (angle_relevant fm (outer_theta fm cc linear angular) (decide (angular ≥ 0))
        (decide (linear ≥ 0))
        (fm.atan2 (Vector3.sub p (point_of_rotation linear angular)).y
          (Vector3.sub p (point_of_rotation linear angular)).x) = true ∧
      fm.atan2 (Vector3.sub p (point_of_rotation linear angular)).y
          (Vector3.sub p (point_of_rotation linear angular)).x < fm.pi)

instance arc_qualifies_decidable (fm : FloatMath α) (cc : CollisionChecker α)
    (linear angular : α) : DecidablePred (arc_qualifies fm cc linear angular) :=
  fun p => by unfold arc_qualifies; exact inferInstance

/-- The local `p_theta` of the point loop of `obstacle_arc_angle`. -/
def p_theta (fm : FloatMath α) (linear angular : α) (p : Vector3 α) : α :=
  fm.atan2 (Vector3.sub p (point_of_rotation linear angular)).y
    (Vector3.sub p (point_of_rotation linear angular)).x

/-- One iteration of the point loop of `obstacle_arc_angle`. -/
def arc_step (fm : FloatMath α) (cc : CollisionChecker α) (linear angular : α)
    (closest_angle : α) (p : Vector3 α) : α :=
  let p_in_rot := Vector3.sub p (point_of_rotation linear angular)
  let p_radius_sq := p_in_rot.length2
  if p_radius_sq < (outer_point cc linear angular).length2 ∧
      p_radius_sq > (inner_point cc linear angular).length2 then
    let pt := fm.atan2 p_in_rot.y p_in_rot.x
    if angle_relevant fm (outer_theta fm cc linear angular) (decide (angular ≥ 0))
        (decide (linear ≥ 0)) pt = true ∧ pt < fm.pi then
      min closest_angle pt
    else closest_angle
  else closest_angle

/-- Embedding of `CollisionChecker::obstacle_arc_angle` on the point snapshot
`pts`. -/
def obstacle_arc_angle (fm : FloatMath α) (cc : CollisionChecker α) (linear angular : α)
    (pts : List (Vector3 α)) : α :=
  pts.foldl (arc_step fm cc linear angular) fm.pi

end Arc

section Dist

variable {α : Type} [LinearOrderedField α]

/-! ## Lemmas on the distance query -/

theorem check_dist_forward (cc : CollisionChecker α) (x m : α) :
    check_dist cc x true m = if cc.robot_front_length < x ∧ x < m then x else m := by
  unfold check_dist
  by_cases h1 : cc.robot_front_length < x <;> by_cases h2 : x < m <;> simp [h1, h2]

theorem check_dist_backward (cc : CollisionChecker α) (x m : α) :
    check_dist cc x false m = if cc.robot_back_length < -x ∧ -x < m then -x else m := by
  unfold check_dist
  by_cases h1 : cc.robot_back_length < -x <;> by_cases h2 : -x < m <;> simp [h1, h2]

theorem check_dist_le (cc : CollisionChecker α) (x : α) (forward : Bool) (m : α) :
    check_dist cc x forward m ≤ m := by
  cases forward
  · rw [check_dist_backward]; split_ifs with h
    · exact le_of_lt h.2
    · exact le_refl m
  · rw [check_dist_forward]; split_ifs with h
    · exact le_of_lt h.2
    · exact le_refl m

/-- Folding a "conditional minimum" over a list yields the least element of
the start value together with the qualifying candidates. -/
theorem foldl_cond_min_isLeast {β : Type} (q : β → Prop) [DecidablePred q] (c : β → α)
    (l : List β) (m : α) :
    IsLeast (insert m {d | ∃ p ∈ l, q p ∧ d = c p})
      (l.foldl (fun m p => if q p then min m (c p) else m) m) := by
  induction l generalizing m with
  | nil => simp [IsLeast, lowerBounds]
  | cons a l ih =>
    simp only [List.foldl_cons]
    obtain ⟨hmem, hlb⟩ := ih (if q a then min m (c a) else m)
    constructor
    · rcases hmem with h | ⟨p, hp, hq, hd⟩
      · by_cases hqa : q a
        · rw [h, if_pos hqa]
          rcases min_choice m (c a) with hm | hm
          · left; exact hm
          · right; exact ⟨a, List.mem_cons_self a l, hqa, hm⟩
        · rw [h, if_neg hqa]; left; rfl
      · right; exact ⟨p, List.mem_cons_of_mem a hp, hq, hd⟩
    · intro b hb
      rcases hb with hb | ⟨p, hp, hq, hd⟩
      · have h1 := hlb (Set.mem_insert _ _)
        refine le_trans h1 ?_
        rw [hb]
        split_ifs
        · exact min_le_left _ _
        · exact le_refl _
      · rcases List.mem_cons.mp hp with hpa | hpl
        · subst hpa
          have h1 := hlb (Set.mem_insert _ _)
          refine le_trans h1 ?_
          rw [if_pos hq, hd]
          exact min_le_right _ _
        · exact hlb (Set.mem_insert_of_mem _ ⟨p, hpl, hq, hd⟩)

/-- The travel-distance component of the segment loop only depends on the
travel-distance component of the state. -/
theorem foldl_line_step_min_dist (cc : CollisionChecker α) (forward : Bool)
    (lines : List (Vector3 α × Vector3 α)) (s : DistState α) :
    (lines.foldl (line_step cc forward) s).min_dist =
      lines.foldl (fun m l => (front_rear_candidates cc l.1.x l.1.y l.2.x l.2.y).foldl
        (fun m x => check_dist cc x forward m) m) s.min_dist := by
  induction lines generalizing s with
  | nil => rfl
  | cons l ls ih => simp only [List.foldl_cons]; rw [ih]; rfl

/-- The travel-distance component of the point loop. -/
theorem foldl_point_step_min_dist (cc : CollisionChecker α) (forward : Bool)
    (pts : List (Vector3 α)) (s : DistState α) :
    (pts.foldl (point_step cc forward) s).min_dist =
      pts.foldl (fun m p => if -cc.robot_width < p.y ∧ p.y < cc.robot_width then
        check_dist cc p.x forward m else m) s.min_dist := by
  induction pts generalizing s with
  | nil => rfl
  | cons p ps ih => simp only [List.foldl_cons]; rw [ih]; rfl

/-- The left-clearance component of the point loop. -/
theorem foldl_point_step_left (cc : CollisionChecker α) (forward : Bool)
    (pts : List (Vector3 α)) (s : DistState α) :
    (pts.foldl (point_step cc forward) s).min_dist_left =
      pts.foldl (fun m p =>
        if (-cc.robot_back_length < p.x ∧ p.x < cc.robot_front_length) ∧ 0 < p.y then
          min m p.y else m) s.min_dist_left := by
  induction pts generalizing s with
  | nil => rfl
  | cons p ps ih =>
    simp only [List.foldl_cons]; rw [ih]
    congr 1
    simp only [point_step, point_side_check, gt_iff_lt]
    by_cases hx : -cc.robot_back_length < p.x ∧ p.x < cc.robot_front_length
    · by_cases hy : 0 < p.y
      · by_cases hl : p.y < s.min_dist_left
        · simp [hx, hy, hl, min_eq_right (le_of_lt hl)]
        · have hn : ¬ p.y < 0 := not_lt.mpr (le_of_lt hy)
          simp [hx, hy, hl, hn, min_eq_left (not_lt.mp hl)]
      · by_cases hr : p.y < 0 ∧ -p.y < s.min_dist_right
        · simp [hx, hy, hr]
        · simp [hx, hy, hr]
    · simp [hx]

/-- The right-clearance component of the point loop. -/
theorem foldl_point_step_right (cc : CollisionChecker α) (forward : Bool)
    (pts : List (Vector3 α)) (s : DistState α) :
    (pts.foldl (point_step cc forward) s).min_dist_right =
      pts.foldl (fun m p =>
        if (-cc.robot_back_length < p.x ∧ p.x < cc.robot_front_length) ∧ p.y < 0 then
          min m (-p.y) else m) s.min_dist_right := by
  induction pts generalizing s with
  | nil => rfl
  | cons p ps ih =>
    simp only [List.foldl_cons]; rw [ih]
    congr 1
    simp only [point_step, point_side_check, gt_iff_lt]
    by_cases hx : -cc.robot_back_length < p.x ∧ p.x < cc.robot_front_length
    · by_cases hy : p.y < 0
      · have hn : ¬ 0 < p.y := not_lt.mpr (le_of_lt hy)
        by_cases hr : -p.y < s.min_dist_right
        · simp [hx, hy, hn, hr, min_eq_right (le_of_lt hr)]
        · simp [hx, hy, hn, hr, min_eq_left (not_lt.mp hr)]
      · by_cases hl : 0 < p.y ∧ p.y < s.min_dist_left
        · simp [hx, hy, hl]
        · simp [hx, hy, hl]
    · simp [hx]

theorem point_min_dist_backward (cc : CollisionChecker α) (p : Vector3 α) (m : α) :
    (if -cc.robot_width < p.y ∧ p.y < cc.robot_width then check_dist cc p.x false m else m) =
      if (-cc.robot_width < p.y ∧ p.y < cc.robot_width) ∧ cc.robot_back_length < -p.x then
        min m (-p.x) else m := by
  rw [check_dist_backward]
  by_cases hb : -cc.robot_width < p.y ∧ p.y < cc.robot_width
  · by_cases hx : cc.robot_back_length < -p.x
    · by_cases hm : -p.x < m
      · simp [hb, hx, hm, min_eq_right (le_of_lt hm)]
      · simp [hb, hx, hm, min_eq_left (not_lt.mp hm)]
    · simp [hb, hx]
  · simp [hb]

theorem front_rear_candidates_clear (cc : CollisionChecker α) (x0 y0 x1 y1 : α)
    (h0 : ¬ (-cc.robot_width < y0 ∧ y0 < cc.robot_width))
    (h1 : ¬ (-cc.robot_width < y1 ∧ y1 < cc.robot_width))
    (h01 : ¬ (y0 < -cc.robot_width ∧ cc.robot_width < y1))
    (h10 : ¬ (y1 < -cc.robot_width ∧ cc.robot_width < y0)) :
    front_rear_candidates cc x0 y0 x1 y1 = [] := by
  unfold front_rear_candidates
  rw [if_neg h01, if_neg h10, if_neg h0, if_neg h1]
  rfl

/-! ## The claims on `obstacle_dist` -/

/-- C1 as stated fails: with the default footprint and `no_obstacle_dist = 10`, a
single point at `(11, 0)` is ahead of the front edge, yet the forward distance
is `10 - 0.09`, not `11 - 0.09`. -/
theorem C1_counterexample :
    (0 : ℚ) < 8 / 100 ∧ (9 / 100 : ℚ) < 11 ∧
    (obstacle_dist (⟨10, 8 / 100, 9 / 100, 19 / 100⟩ : CollisionChecker ℚ) true []
        [⟨11, 0, 0⟩] ⟨0, 0, 0⟩ ⟨0, 0, 0⟩).dist = 991 / 100 ∧
    (obstacle_dist (⟨10, 8 / 100, 9 / 100, 19 / 100⟩ : CollisionChecker ℚ) true []
        [⟨11, 0, 0⟩] ⟨0, 0, 0⟩ ⟨0, 0, 0⟩).dist ≠ 11 - 9 / 100 := by
  refine ⟨by norm_num, by norm_num, ?_, ?_⟩ <;>
    norm_num [obstacle_dist, point_step, check_dist]

/-- C1 (amended): for a footprint of positive width and a single point `(d, 0)`
with `d > robot_front_length`, no segments, the forward distance returned by
`obstacle_dist` is `min d no_obstacle_dist - robot_front_length`. -/
theorem C1_single_point_forward (cc : CollisionChecker α) (d z : α) (fl fr : Vector3 α)
    (hw : 0 < cc.robot_width) (hd : cc.robot_front_length < d) :
    (obstacle_dist cc true [] [⟨d, 0, z⟩] fl fr).dist =
      min d cc.no_obstacle_dist - cc.robot_front_length := by
  have hband : -cc.robot_width < 0 ∧ (0 : α) < cc.robot_width := ⟨by linarith, hw⟩
  simp only [obstacle_dist, List.foldl_nil, List.foldl_cons, point_step, if_true,
    check_dist_forward, hband, and_self, hd, true_and]
  by_cases h : d < cc.no_obstacle_dist
  · rw [if_pos h, min_eq_left (le_of_lt h)]
  · rw [if_neg h, min_eq_right (not_lt.mp h)]

/-- C1, the scenario of the specification: width 0.08, front 0.09, back 0.19,
`no_obstacle_dist = 10`, point `(0.5, 0)` gives the forward distance 0.41. -/
theorem C1_single_point_forward_witness :
    (0 : ℚ) < 8 / 100 ∧ (9 / 100 : ℚ) < 1 / 2 ∧
    (obstacle_dist (⟨10, 8 / 100, 9 / 100, 19 / 100⟩ : CollisionChecker ℚ) true []
        [⟨1 / 2, 0, 0⟩] ⟨0, 0, 0⟩ ⟨0, 0, 0⟩).dist = 41 / 100 := by
  refine ⟨by norm_num, by norm_num, ?_⟩
  rw [C1_single_point_forward (⟨10, 8 / 100, 9 / 100, 19 / 100⟩ : CollisionChecker ℚ)
    (1 / 2) 0 ⟨0, 0, 0⟩ ⟨0, 0, 0⟩ (by norm_num) (by norm_num)]
  norm_num

/-- C2: when no point and no segment endpoint lies strictly inside the lateral
band `-robot_width < y < robot_width` and no segment has its endpoints on
opposite sides of the band, `obstacle_dist` returns `no_obstacle_dist` minus
`robot_front_length` (forward) or minus `robot_back_length` (backward). -/
theorem C2_clear_band_sentinel (cc : CollisionChecker α) (forward : Bool)
    (lines : List (Vector3 α × Vector3 α)) (pts : List (Vector3 α)) (fl fr : Vector3 α)
    (hp : ∀ p ∈ pts, ¬ (-cc.robot_width < p.y ∧ p.y < cc.robot_width))
    (hl : ∀ l ∈ lines,
      ¬ (-cc.robot_width < l.1.y ∧ l.1.y < cc.robot_width) ∧
      ¬ (-cc.robot_width < l.2.y ∧ l.2.y < cc.robot_width) ∧
      ¬ (l.1.y < -cc.robot_width ∧ cc.robot_width < l.2.y) ∧
      ¬ (l.2.y < -cc.robot_width ∧ cc.robot_width < l.1.y)) :
    (obstacle_dist cc forward lines pts fl fr).dist =
      cc.no_obstacle_dist -
        (if forward = true then cc.robot_front_length else cc.robot_back_length) := by
  have hlines : ∀ m : α, lines.foldl (fun m l =>
      (front_rear_candidates cc l.1.x l.1.y l.2.x l.2.y).foldl
        (fun m x => check_dist cc x forward m) m) m = m := by
    induction lines with
    | nil => intro m; rfl
    | cons l ls ih =>
      intro m
      obtain ⟨h0, h1, h01, h10⟩ := hl l (List.mem_cons_self l ls)
      simp only [List.foldl_cons]
      rw [front_rear_candidates_clear cc _ _ _ _ h0 h1 h01 h10]
      exact ih (fun l hm => hl l (List.mem_cons_of_mem _ hm)) m
  have hpts : ∀ m : α, pts.foldl (fun m p =>
      if -cc.robot_width < p.y ∧ p.y < cc.robot_width then
        check_dist cc p.x forward m else m) m = m := by
    induction pts with
    | nil => intro m; rfl
    | cons p ps ih =>
      intro m
      simp only [List.foldl_cons]
      rw [if_neg (hp p (List.mem_cons_self p ps))]
      exact ih (fun p hm => hp p (List.mem_cons_of_mem _ hm)) m
  simp only [obstacle_dist]
  rw [foldl_point_step_min_dist, foldl_line_step_min_dist, hpts, hlines]
  cases forward <;> simp

/-- C2 at a concrete obstacle set: width 1, a point at `y = 5` and a segment
lying wholly to the left of the band; forward travel. -/
theorem C2_clear_band_sentinel_witness :
    (obstacle_dist (⟨10, 1, 1 / 2, 1 / 2⟩ : CollisionChecker ℚ) true
        [(⟨1, 2, 0⟩, ⟨3, 4, 0⟩)] [⟨2, 5, 0⟩] ⟨0, 0, 0⟩ ⟨0, 0, 0⟩).dist = 10 - 1 / 2 := by
  have h := C2_clear_band_sentinel (⟨10, 1, 1 / 2, 1 / 2⟩ : CollisionChecker ℚ) true
    [(⟨1, 2, 0⟩, ⟨3, 4, 0⟩)] [⟨2, 5, 0⟩] ⟨0, 0, 0⟩ ⟨0, 0, 0⟩
    (by intro p hp; simp at hp; subst hp; norm_num)
    (by intro l hl; simp at hl; subst hl; norm_num)
  simpa using h

/-- C3, the code at a failing input: width 1 and the segment `(0,-3)-(6,3)`,
which crosses the band.  The segment meets `y = 1` only at `x = 4` and `y = -1`
only at `x = 2`, but the two values handed to `check_dist` are `10` and `5`. -/
theorem C3_crossing_candidates_off_band :
    ((-3 : ℚ) < -1 ∧ (1 : ℚ) < 3) ∧
    front_rear_candidates (⟨10, 1, 1 / 2, 1 / 2⟩ : CollisionChecker ℚ) 0 (-3) 6 3 = [10, 5] ∧
    (∀ x : ℚ, OnLine (⟨0, -3, 0⟩ : Vector3 ℚ) ⟨6, 3, 0⟩ x 1 → x = 4) ∧
    (∀ x : ℚ, OnLine (⟨0, -3, 0⟩ : Vector3 ℚ) ⟨6, 3, 0⟩ x (-1) → x = 2) := by
  refine ⟨by norm_num, by norm_num [front_rear_candidates], ?_, ?_⟩
  · rintro x ⟨t, hx, hy⟩
    simp only at hx hy
    linarith
  · rintro x ⟨t, hx, hy⟩
    simp only at hx hy
    linarith

/-- C4 as stated fails: width 1, front 1/2, the single segment `(1,2)-(5,0)`.
The point `(4, 1/2)` lies on it, inside the band and ahead of the front edge,
but the forward distance is `5 - 1/2`, which exceeds `4 - 1/2`. -/
theorem C4_counterexample :
    OnSegment (⟨1, 2, 0⟩ : Vector3 ℚ) ⟨5, 0, 0⟩ 4 (1 / 2) ∧
    |(1 / 2 : ℚ)| < 1 ∧ (1 / 2 : ℚ) < 4 ∧
    ¬ ((obstacle_dist (⟨10, 1, 1 / 2, 1 / 2⟩ : CollisionChecker ℚ) true
        [(⟨1, 2, 0⟩, ⟨5, 0, 0⟩)] [] ⟨0, 0, 0⟩ ⟨0, 0, 0⟩).dist ≤ 4 - 1 / 2) := by
  refine ⟨⟨1 / 4, by norm_num, by norm_num, by norm_num, by norm_num⟩, ?_, by norm_num, ?_⟩
  · rw [abs_lt]; constructor <;> norm_num
  · norm_num [obstacle_dist, line_step, front_rear_candidates, check_dist]

/-- C4 (amended): for a single segment whose endpoints are not on opposite
sides of the band and which has an endpoint strictly inside the band, ahead of
the front edge and with x no greater than the other endpoint, every point
`(x, y)` of the segment satisfies `obstacle_dist(forward) ≤ x - robot_front_length`. -/
theorem C4_segment_endpoint_bound (cc : CollisionChecker α) (p0 p1 fl fr : Vector3 α)
    (x y : α)
    (hnc : ¬ (p0.y < -cc.robot_width ∧ cc.robot_width < p1.y) ∧
      ¬ (p1.y < -cc.robot_width ∧ cc.robot_width < p0.y))
    (he : ((-cc.robot_width < p0.y ∧ p0.y < cc.robot_width) ∧
          cc.robot_front_length < p0.x ∧ p0.x ≤ p1.x) ∨
        ((-cc.robot_width < p1.y ∧ p1.y < cc.robot_width) ∧
          cc.robot_front_length < p1.x ∧ p1.x ≤ p0.x))
    (hon : OnSegment p0 p1 x y) :
    (obstacle_dist cc true [(p0, p1)] [] fl fr).dist ≤ x - cc.robot_front_length := by
  obtain ⟨t, ht0, ht1, hx, -⟩ := hon
  have key : ∀ a b : List α, ∀ m e : α, cc.robot_front_length < e →
      (a ++ e :: b).foldl (fun m x => check_dist cc x true m) m ≤ e := by
    intro a b m e hfe
    have hmono : ∀ (l : List α) (m : α),
        l.foldl (fun m x => check_dist cc x true m) m ≤ m := by
      intro l
      induction l with
      | nil => intro m; exact le_refl m
      | cons c cs ih =>
        intro m
        simp only [List.foldl_cons]
        exact le_trans (ih _) (check_dist_le cc c true m)
    rw [List.foldl_append, List.foldl_cons]
    refine le_trans (hmono b _) ?_
    rw [check_dist_forward]
    split_ifs with h
    · exact le_refl e
    · rcases not_and_or.mp h with h | h
      · exact absurd hfe h
      · exact not_lt.mp h
  simp only [obstacle_dist, List.foldl_nil, List.foldl_cons, line_step, if_true]
  unfold front_rear_candidates
  rw [if_neg hnc.1, if_neg hnc.2]
  rcases he with ⟨hb, hf, hle⟩ | ⟨hb, hf, hle⟩
  · rw [if_pos hb]
    have h1 := key [] (if -cc.robot_width < p1.y ∧ p1.y < cc.robot_width then [p1.x] else [])
      cc.no_obstacle_dist p0.x hf
    have h2 : p0.x ≤ x := by
      rw [hx]; nlinarith [mul_nonneg (sub_nonneg.mpr ht1) (sub_nonneg.mpr hle)]
    simp only [List.nil_append, List.singleton_append] at h1 ⊢
    linarith
  · rw [if_pos hb]
    have h1 := key (if -cc.robot_width < p0.y ∧ p0.y < cc.robot_width then [p0.x] else []) []
      cc.no_obstacle_dist p1.x hf
    have h2 : p1.x ≤ x := by
      rw [hx]; nlinarith [mul_nonneg ht0 (sub_nonneg.mpr hle)]
    linarith

/-- C4 (amended) at a concrete input: width 1, front 1/2, the segment
`(1, 0)-(5, 2)` and its point `(3, 1)`. -/
theorem C4_segment_endpoint_bound_witness :
    OnSegment (⟨1, 0, 0⟩ : Vector3 ℚ) ⟨5, 2, 0⟩ 3 1 ∧
    (obstacle_dist (⟨10, 1, 1 / 2, 1 / 2⟩ : CollisionChecker ℚ) true
        [(⟨1, 0, 0⟩, ⟨5, 2, 0⟩)] [] ⟨0, 0, 0⟩ ⟨0, 0, 0⟩).dist ≤ 3 - 1 / 2 := by
  have hon : OnSegment (⟨1, 0, 0⟩ : Vector3 ℚ) ⟨5, 2, 0⟩ 3 1 :=
    ⟨1 / 2, by norm_num, by norm_num, by norm_num, by norm_num⟩
  refine ⟨hon, ?_⟩
  have h := C4_segment_endpoint_bound (⟨10, 1, 1 / 2, 1 / 2⟩ : CollisionChecker ℚ)
    ⟨1, 0, 0⟩ ⟨5, 2, 0⟩ ⟨0, 0, 0⟩ ⟨0, 0, 0⟩ 3 1
    (by norm_num) (by left; norm_num) hon
  simpa using h

/-- C5: with points only, `obstacle_dist(forward=false)` returns `M - robot_back_length`
where `M` is the least of `no_obstacle_dist` and the values `-x` of the points
`(x, y)` with `-robot_width < y < robot_width` and `-x > robot_back_length`. -/
theorem C5_backward_points_min (cc : CollisionChecker α) (pts : List (Vector3 α))
    (fl fr : Vector3 α) :
    ∃ M : α,
      IsLeast (insert cc.no_obstacle_dist {d | ∃ p ∈ pts,
        ((-cc.robot_width < p.y ∧ p.y < cc.robot_width) ∧ cc.robot_back_length < -p.x) ∧
          d = -p.x}) M ∧
      (obstacle_dist cc false [] pts fl fr).dist = M - cc.robot_back_length := by
  refine ⟨_, foldl_cond_min_isLeast
    (fun p : Vector3 α => (-cc.robot_width < p.y ∧ p.y < cc.robot_width) ∧
      cc.robot_back_length < -p.x) (fun p => -p.x) pts cc.no_obstacle_dist, ?_⟩
  simp only [obstacle_dist, List.foldl_nil]
  rw [foldl_point_step_min_dist]
  simp only [point_min_dist_backward]
  simp

/-- C6: with points only, the left clearance is `L - robot_width` where `L` is the
least of `no_obstacle_dist` and the `y` of the points with
`-robot_back_length < x < robot_front_length` and `y > 0`; the right clearance is
`R - robot_width` with `R` the least of `no_obstacle_dist` and the `-y` of such
points with `y < 0`; and a point with `-robot_back_length < x < robot_front_length`
and `0 < y < robot_width` makes the left clearance negative.  This holds for both
travel directions. -/
theorem C6_side_clearance_points (cc : CollisionChecker α) (forward : Bool)
    (pts : List (Vector3 α)) (fl fr : Vector3 α) :
    (∃ L : α,
      IsLeast (insert cc.no_obstacle_dist {d | ∃ p ∈ pts,
        ((-cc.robot_back_length < p.x ∧ p.x < cc.robot_front_length) ∧ 0 < p.y) ∧
          d = p.y}) L ∧
      (obstacle_dist cc forward [] pts fl fr).min_dist_left = L - cc.robot_width) ∧
    (∃ R : α,
      IsLeast (insert cc.no_obstacle_dist {d | ∃ p ∈ pts,
        ((-cc.robot_back_length < p.x ∧ p.x < cc.robot_front_length) ∧ p.y < 0) ∧
          d = -p.y}) R ∧
      (obstacle_dist cc forward [] pts fl fr).min_dist_right = R - cc.robot_width) ∧
    (∀ p ∈ pts, -cc.robot_back_length < p.x → p.x < cc.robot_front_length →
      0 < p.y → p.y < cc.robot_width →
      (obstacle_dist cc forward [] pts fl fr).min_dist_left < 0) := by
  have hL := foldl_cond_min_isLeast
    (fun p : Vector3 α => (-cc.robot_back_length < p.x ∧ p.x < cc.robot_front_length) ∧
      0 < p.y) (fun p => p.y) pts cc.no_obstacle_dist
  have hR := foldl_cond_min_isLeast
    (fun p : Vector3 α => (-cc.robot_back_length < p.x ∧ p.x < cc.robot_front_length) ∧
      p.y < 0) (fun p => -p.y) pts cc.no_obstacle_dist
  have eL : (obstacle_dist cc forward [] pts fl fr).min_dist_left =
      pts.foldl (fun m p =>
        if (-cc.robot_back_length < p.x ∧ p.x < cc.robot_front_length) ∧ 0 < p.y then
          min m p.y else m) cc.no_obstacle_dist - cc.robot_width := by
    simp only [obstacle_dist, List.foldl_nil]
    rw [foldl_point_step_left]
  have eR : (obstacle_dist cc forward [] pts fl fr).min_dist_right =
      pts.foldl (fun m p =>
        if (-cc.robot_back_length < p.x ∧ p.x < cc.robot_front_length) ∧ p.y < 0 then
          min m (-p.y) else m) cc.no_obstacle_dist - cc.robot_width := by
    simp only [obstacle_dist, List.foldl_nil]
    rw [foldl_point_step_right]
  refine ⟨⟨_, hL, eL⟩, ⟨_, hR, eR⟩, ?_⟩
  intro p hp hx1 hx2 hy1 hy2
  rw [eL]
  have hle := hL.2 (Set.mem_insert_of_mem _ ⟨p, hp, ⟨⟨hx1, hx2⟩, hy1⟩, rfl⟩)
  linarith

/-- C6 at a concrete input: width 1, front and back 1/2, points `(0, 1/4)` and
`(0, -3)`; the left clearance is `1/4 - 1 < 0`. -/
theorem C6_side_clearance_points_witness :
    (obstacle_dist (⟨10, 1, 1 / 2, 1 / 2⟩ : CollisionChecker ℚ) true []
      [⟨0, 1 / 4, 0⟩, ⟨0, -3, 0⟩] ⟨0, 0, 0⟩ ⟨0, 0, 0⟩).min_dist_left < 0 :=
  (C6_side_clearance_points (⟨10, 1, 1 / 2, 1 / 2⟩ : CollisionChecker ℚ) true
    [⟨0, 1 / 4, 0⟩, ⟨0, -3, 0⟩] ⟨0, 0, 0⟩ ⟨0, 0, 0⟩).2.2 ⟨0, 1 / 4, 0⟩
    (by simp) (by norm_num) (by norm_num) (by norm_num) (by norm_num)

/-- C7, the code at a failing input: front and back 1/2 and the segment
`(-2,0)-(4,6)`, which spans the footprint length.  The segment meets
`x = -1/2` only at `y = 3/2` and `x = 1/2` only at `y = 5/2`, but the code
computes `yb = 9/2` and `yf = 11/2`. -/
theorem C7_spanning_candidates_off_edges :
    ((-2 : ℚ) < -(1 / 2) ∧ (4 : ℚ) > 1 / 2) ∧
    side_candidates (⟨10, 1, 1 / 2, 1 / 2⟩ : CollisionChecker ℚ) (-2) 0 4 6 = [9 / 2, 11 / 2] ∧
    (∀ y : ℚ, OnLine (⟨-2, 0, 0⟩ : Vector3 ℚ) ⟨4, 6, 0⟩ (-(1 / 2)) y → y = 3 / 2) ∧
    (∀ y : ℚ, OnLine (⟨-2, 0, 0⟩ : Vector3 ℚ) ⟨4, 6, 0⟩ (1 / 2) y → y = 5 / 2) := by
  refine ⟨by norm_num, by norm_num [side_candidates], ?_, ?_⟩
  · rintro y ⟨t, hx, hy⟩
    simp only at hx hy
    linarith
  · rintro y ⟨t, hx, hy⟩
    simp only at hx hy
    linarith

/-! ## Lemmas on the rotation query -/

theorem check_angle_left (fm : FloatMath α) (theta x y m : α) :
    check_angle fm theta x y true m =
      if 0 < theta_int fm theta x y then min m (theta_int fm theta x y) else m := by
  unfold check_angle
  by_cases h1 : 0 < theta_int fm theta x y
  · by_cases h2 : theta_int fm theta x y < m
    · simp [h1, h2, min_eq_right (le_of_lt h2)]
    · simp [h1, h2, min_eq_left (not_lt.mp h2)]
  · simp [h1]

theorem check_angle_right (fm : FloatMath α) (theta x y m : α) :
    check_angle fm theta x y false m =
      if theta_int fm theta x y < 0 then min m (-theta_int fm theta x y) else m := by
  unfold check_angle
  by_cases h1 : theta_int fm theta x y < 0
  · by_cases h2 : -theta_int fm theta x y < m
    · simp [h1, h2, min_eq_right (le_of_lt h2)]
    · simp [h1, h2, min_eq_left (not_lt.mp h2)]
  · simp [h1]

theorem check_angle_le (fm : FloatMath α) (theta x y : α) (left : Bool) (m : α) :
    check_angle fm theta x y left m ≤ m := by
  cases left
  · rw [check_angle_right]; split_ifs
    · exact min_le_left _ _
    · exact le_refl _
  · rw [check_angle_left]; split_ifs
    · exact min_le_left _ _
    · exact le_refl _

/-- Two `check_angle` updates commute. -/
theorem check_angle_comm (fm : FloatMath α) (t1 x1 y1 t2 x2 y2 : α) (left : Bool) (m : α) :
    check_angle fm t1 x1 y1 left (check_angle fm t2 x2 y2 left m) =
      check_angle fm t2 x2 y2 left (check_angle fm t1 x1 y1 left m) := by
  cases left
  · simp only [check_angle_right]
    split_ifs <;> first | rfl | exact min_right_comm _ _ _
  · simp only [check_angle_left]
    split_ifs <;> first | rfl | exact min_right_comm _ _ _

/-- A `check_angle` update of a value `m ≤ π` is the minimum of `m` and the
update of `π`. -/
theorem check_angle_eq_min (fm : FloatMath α) (theta x y : α) (left : Bool) (m : α)
    (hm : m ≤ fm.pi) :
    check_angle fm theta x y left m = min m (check_angle fm theta x y left fm.pi) := by
  cases left
  · simp only [check_angle_right]
    split_ifs
    · rw [← min_assoc, min_eq_left hm]
    · rw [min_eq_left hm]
  · simp only [check_angle_left]
    split_ifs
    · rw [← min_assoc, min_eq_left hm]
    · rw [min_eq_left hm]

/-- Closure of the "minimum with the update of `π`" shape under composition. -/
theorem min_update_comp (pi : α) (f g : α → α)
    (hf : ∀ m, m ≤ pi → f m = min m (f pi)) (hg : ∀ m, m ≤ pi → g m = min m (g pi))
    (m : α) (hm : m ≤ pi) : f (g m) = min m (f (g pi)) := by
  have hgpi : g pi ≤ pi := by rw [hg pi (le_refl pi)]; exact min_le_left _ _
  have hgm : g m ≤ pi := by rw [hg m hm]; exact le_trans (min_le_left _ _) hm
  rw [hf (g m) hgm, hf (g pi) hgpi, hg m hm, min_assoc]

theorem side_edges_check_le (fm : FloatMath α) (cc : CollisionChecker α) (left : Bool)
    (theta r m : α) : side_edges_check fm cc left theta r m ≤ m := by
  unfold side_edges_check
  dsimp only
  split_ifs <;>
    first
    | exact le_refl m
    | exact le_trans (check_angle_le _ _ _ _ _ _) (check_angle_le _ _ _ _ _ _)
    | exact le_trans (check_angle_le _ _ _ _ _ _) (le_trans (check_angle_le _ _ _ _ _ _)
        (le_trans (check_angle_le _ _ _ _ _ _) (check_angle_le _ _ _ _ _ _)))

theorem back_edge_check_le (fm : FloatMath α) (cc : CollisionChecker α) (left : Bool)
    (theta x r m : α) : back_edge_check fm cc left theta x r m ≤ m := by
  unfold back_edge_check
  dsimp only
  split_ifs <;>
    first
    | exact le_refl m
    | exact check_angle_le _ _ _ _ _ _
    | exact le_trans (check_angle_le _ _ _ _ _ _) (check_angle_le _ _ _ _ _ _)

theorem front_edge_check_le (fm : FloatMath α) (cc : CollisionChecker α) (left : Bool)
    (theta x r m : α) : front_edge_check fm cc left theta x r m ≤ m := by
  unfold front_edge_check
  dsimp only
  split_ifs <;>
    first
    | exact le_refl m
    | exact check_angle_le _ _ _ _ _ _
    | exact le_trans (check_angle_le _ _ _ _ _ _) (check_angle_le _ _ _ _ _ _)

theorem angle_step_le (fm : FloatMath α) (cc : CollisionChecker α) (left : Bool) (m : α)
    (p : Vector3 α) : angle_step fm cc left m p ≤ m := by
  unfold angle_step
  simp only
  split_ifs
  · exact le_trans (front_edge_check_le _ _ _ _ _ _ _)
      (le_trans (back_edge_check_le _ _ _ _ _ _ _) (side_edges_check_le _ _ _ _ _ _))
  · exact le_refl m

theorem side_edges_check_eq_min (fm : FloatMath α) (cc : CollisionChecker α) (left : Bool)
    (theta r m : α) (hm : m ≤ fm.pi) :
    side_edges_check fm cc left theta r m =
      min m (side_edges_check fm cc left theta r fm.pi) := by
  have h1 := fun (x y : α) => check_angle_eq_min fm theta x y left
  have h2 := fun (x1 y1 x2 y2 : α) => min_update_comp fm.pi
    (check_angle fm theta x1 y1 left) (check_angle fm theta x2 y2 left) (h1 x1 y1) (h1 x2 y2)
  have h4 := fun (x1 y1 x2 y2 x3 y3 x4 y4 : α) => min_update_comp fm.pi
    (fun m => check_angle fm theta x1 y1 left (check_angle fm theta x2 y2 left m))
    (fun m => check_angle fm theta x3 y3 left (check_angle fm theta x4 y4 left m))
    (h2 x1 y1 x2 y2) (h2 x3 y3 x4 y4)
  unfold side_edges_check
  dsimp only
  split_ifs
  · exact h4 _ _ _ _ _ _ _ _ m hm
  · exact h2 _ _ _ _ m hm
  · exact h2 _ _ _ _ m hm
  · exact (min_eq_left hm).symm
  · exact (min_eq_left hm).symm

theorem back_edge_check_eq_min (fm : FloatMath α) (cc : CollisionChecker α) (left : Bool)
    (theta x r m : α) (hm : m ≤ fm.pi) :
    back_edge_check fm cc left theta x r m =
      min m (back_edge_check fm cc left theta x r fm.pi) := by
  have h1 := fun (x y : α) => check_angle_eq_min fm theta x y left
  have h2 := fun (x1 y1 x2 y2 : α) => min_update_comp fm.pi
    (check_angle fm theta x1 y1 left) (check_angle fm theta x2 y2 left) (h1 x1 y1) (h1 x2 y2)
  unfold back_edge_check
  dsimp only
  split_ifs
  · exact h2 _ _ _ _ m hm
  · exact h1 _ _ m hm
  · exact h1 _ _ m hm
  · exact (min_eq_left hm).symm
  · exact (min_eq_left hm).symm

theorem front_edge_check_eq_min (fm : FloatMath α) (cc : CollisionChecker α) (left : Bool)
    (theta x r m : α) (hm : m ≤ fm.pi) :
    front_edge_check fm cc left theta x r m =
      min m (front_edge_check fm cc left theta x r fm.pi) := by
  have h1 := fun (x y : α) => check_angle_eq_min fm theta x y left
  have h2 := fun (x1 y1 x2 y2 : α) => min_update_comp fm.pi
    (check_angle fm theta x1 y1 left) (check_angle fm theta x2 y2 left) (h1 x1 y1) (h1 x2 y2)
  unfold front_edge_check
  dsimp only
  split_ifs
  · exact h2 _ _ _ _ m hm
  · exact h1 _ _ m hm
  · exact h1 _ _ m hm
  · exact (min_eq_left hm).symm
  · exact (min_eq_left hm).symm

/-- The update of one point is the minimum of the running value and the
point's own margin (its update of `π`). -/
theorem angle_step_eq_min (fm : FloatMath α) (cc : CollisionChecker α) (left : Bool)
    (m : α) (p : Vector3 α) (hm : m ≤ fm.pi) :
    angle_step fm cc left m p = min m (angle_step fm cc left fm.pi p) := by
  unfold angle_step
  simp only
  split_ifs
  · have hs := min_update_comp fm.pi
      (back_edge_check fm cc left (fm.atan2 p.y p.x) p.x (p.x * p.x + p.y * p.y))
      (side_edges_check fm cc left (fm.atan2 p.y p.x) (p.x * p.x + p.y * p.y))
      (back_edge_check_eq_min fm cc left _ _ _) (side_edges_check_eq_min fm cc left _ _)
    exact min_update_comp fm.pi
      (front_edge_check fm cc left (fm.atan2 p.y p.x) p.x (p.x * p.x + p.y * p.y))
      (fun m => back_edge_check fm cc left (fm.atan2 p.y p.x) p.x (p.x * p.x + p.y * p.y)
        (side_edges_check fm cc left (fm.atan2 p.y p.x) (p.x * p.x + p.y * p.y) m))
      (front_edge_check_eq_min fm cc left _ _ _) hs m hm
  · exact (min_eq_left hm).symm

/-- The running minimum of the point loop never exceeds its start value. -/
theorem foldl_angle_step_le (fm : FloatMath α) (cc : CollisionChecker α) (left : Bool)
    (pts : List (Vector3 α)) (m : α) : pts.foldl (angle_step fm cc left) m ≤ m := by
  induction pts generalizing m with
  | nil => exact le_refl m
  | cons p ps ih =>
    simp only [List.foldl_cons]
    exact le_trans (ih _) (angle_step_le fm cc left m p)

/-- The rotation margin is the least of `π` and the per-point margins. -/
theorem obstacle_angle_isLeast (fm : FloatMath α) (cc : CollisionChecker α) (left : Bool)
    (pts : List (Vector3 α)) :
    IsLeast (insert fm.pi {d | ∃ p ∈ pts, True ∧ d = angle_step fm cc left fm.pi p})
      (obstacle_angle fm cc left pts) := by
  have h := foldl_cond_min_isLeast (fun _ : Vector3 α => True)
    (fun p => angle_step fm cc left fm.pi p) pts fm.pi
  have e : ∀ (l : List (Vector3 α)) (m : α), m ≤ fm.pi →
      l.foldl (angle_step fm cc left) m =
        l.foldl (fun m p => if True then min m (angle_step fm cc left fm.pi p) else m) m := by
    intro l
    induction l with
    | nil => intro m _; rfl
    | cons p ps ih =>
      intro m hm
      simp only [List.foldl_cons, if_true]
      rw [ih _ (le_trans (angle_step_le fm cc left m p) hm), angle_step_eq_min fm cc left m p hm]
      simp only [if_true]
  unfold obstacle_angle
  rw [e pts fm.pi (le_refl _)]
  exact h

/-! ## The claims on `obstacle_angle` -/

/-- C10: if every point has `x² + y² > back_diag` (in particular if there is no
point), `obstacle_angle` returns exactly `π`, for both rotation directions. -/
theorem C10_far_points_unconstrained (fm : FloatMath α) (cc : CollisionChecker α)
    (left : Bool) (pts : List (Vector3 α))
    (h : ∀ p ∈ pts, cc.back_diag < p.x * p.x + p.y * p.y) :
    obstacle_angle fm cc left pts = fm.pi := by
  unfold obstacle_angle
  induction pts with
  | nil => rfl
  | cons p ps ih =>
    simp only [List.foldl_cons]
    have hp : angle_step fm cc left fm.pi p = fm.pi := by
      unfold angle_step
      simp only
      rw [if_neg (not_le.mpr (h p (List.mem_cons_self p ps)))]
    rw [hp]
    exact ih (fun q hq => h q (List.mem_cons_of_mem p hq))

end Dist

/-- C10 at a concrete input over the reals: width 1, front and back 1/2
(`back_diag = 5/4`), points `(5, 0)` and `(-2, 3)`, rotating left. -/
theorem C10_far_points_unconstrained_witness :
    obstacle_angle realMath (⟨10, 1, 1 / 2, 1 / 2⟩ : CollisionChecker ℝ) true
      [⟨5, 0, 0⟩, ⟨-2, 3, 0⟩] = Real.pi :=
  C10_far_points_unconstrained realMath (⟨10, 1, 1 / 2, 1 / 2⟩ : CollisionChecker ℝ) true
    [⟨5, 0, 0⟩, ⟨-2, 3, 0⟩]
    (by intro p hp; simp at hp; rcases hp with hp | hp <;> subst hp <;>
          norm_num [CollisionChecker.back_diag])

/-! ## The rotation query over the reals -/

theorem arg_mirror (u v : ℝ) :
    Complex.arg ⟨u, -v⟩ =
      if Complex.arg ⟨u, v⟩ = Real.pi then Real.pi else -Complex.arg ⟨u, v⟩ := by
  have h := Complex.arg_conj ⟨u, v⟩
  have e : (starRingEnd ℂ) (⟨u, v⟩ : ℂ) = ⟨u, -v⟩ := by
    apply Complex.ext <;> simp
  rw [e] at h
  exact h

/-- The three outcomes of the wrap-around in `check_angle`. -/
theorem theta_int_cases (theta x y : ℝ) :
    (theta - Complex.arg ⟨x, y⟩ < -Real.pi ∧
      theta_int realMath theta x y = theta - Complex.arg ⟨x, y⟩ + 2 * Real.pi) ∨
    (Real.pi < theta - Complex.arg ⟨x, y⟩ ∧
      theta_int realMath theta x y = theta - Complex.arg ⟨x, y⟩ - 2 * Real.pi) ∨
    ((-Real.pi ≤ theta - Complex.arg ⟨x, y⟩ ∧ theta - Complex.arg ⟨x, y⟩ ≤ Real.pi) ∧
      theta_int realMath theta x y = theta - Complex.arg ⟨x, y⟩) := by
  have hpi := Real.pi_pos
  simp only [theta_int, realMath]
  generalize theta - Complex.arg ⟨x, y⟩ = d at *
  by_cases h1 : d < -Real.pi
  · left
    refine ⟨h1, ?_⟩
    rw [if_pos h1, if_neg (by linarith)]
  · right
    rw [if_neg h1]
    by_cases h2 : d > Real.pi
    · left; exact ⟨h2, by rw [if_pos h2]⟩
    · right; exact ⟨⟨not_lt.mp h1, not_lt.mp h2⟩, by rw [if_neg h2]⟩

/-- Real-arithmetic core of the mirror symmetry of `check_angle`. -/
theorem mirror_core (pi t a t' a' T T' m : ℝ) (hpi : 0 < pi)
    (h1 : -pi < t) (h2 : t ≤ pi) (h3 : -pi < a) (h4 : a ≤ pi)
    (ht : (t = pi ∧ t' = pi) ∨ (t < pi ∧ t' = -t))
    (ha : (a = pi ∧ a' = pi) ∨ (a < pi ∧ a' = -a))
    (hT : (t - a < -pi ∧ T = t - a + 2 * pi) ∨ (pi < t - a ∧ T = t - a - 2 * pi) ∨
      ((-pi ≤ t - a ∧ t - a ≤ pi) ∧ T = t - a))
    (hT' : (t' - a' < -pi ∧ T' = t' - a' + 2 * pi) ∨ (pi < t' - a' ∧ T' = t' - a' - 2 * pi) ∨
      ((-pi ≤ t' - a' ∧ t' - a' ≤ pi) ∧ T' = t' - a'))
    (hm : m ≤ pi) :
    (if 0 < T then min m T else m) = (if T' < 0 then min m (-T') else m) := by
  rcases ht with ⟨ht, ht'⟩ | ⟨ht, ht'⟩ <;> rcases ha with ⟨ha, ha'⟩ | ⟨ha, ha'⟩ <;>
    rcases hT with ⟨hd, hT⟩ | ⟨hd, hT⟩ | ⟨⟨hd1, hd2⟩, hT⟩ <;>
    rcases hT' with ⟨hd', hT'⟩ | ⟨hd', hT'⟩ | ⟨⟨hd1', hd2'⟩, hT'⟩ <;>
    subst ht' <;> subst ha' <;> subst hT <;> subst hT' <;>
    first
    | (exfalso; linarith)
    | (split_ifs <;>
        first
        | (exfalso; linarith)
        | rfl
        | (congr 1; linarith)
        | (rw [min_eq_left (by linarith)]))

/-- Mirroring both the obstacle point and the footprint-edge point in the
x-axis turns a left update into the same right update, for running values that
do not exceed `π`. -/
theorem check_angle_mirror (x y xe ye m : ℝ) (hm : m ≤ Real.pi) :
    check_angle realMath (Complex.arg ⟨x, y⟩) xe ye true m =
      check_angle realMath (Complex.arg ⟨x, -y⟩) xe (-ye) false m := by
  rw [check_angle_left, check_angle_right]
  have h1 := Complex.neg_pi_lt_arg ⟨x, y⟩
  have h2 := Complex.arg_le_pi ⟨x, y⟩
  have h3 := Complex.neg_pi_lt_arg ⟨xe, ye⟩
  have h4 := Complex.arg_le_pi ⟨xe, ye⟩
  have h1' := Complex.neg_pi_lt_arg ⟨x, -y⟩
  have h2' := Complex.arg_le_pi ⟨x, -y⟩
  have h3' := Complex.neg_pi_lt_arg ⟨xe, -ye⟩
  have h4' := Complex.arg_le_pi ⟨xe, -ye⟩
  have ht : (Complex.arg ⟨x, y⟩ = Real.pi ∧ Complex.arg ⟨x, -y⟩ = Real.pi) ∨
      (Complex.arg ⟨x, y⟩ < Real.pi ∧ Complex.arg ⟨x, -y⟩ = -Complex.arg ⟨x, y⟩) := by
    rw [arg_mirror x y]
    by_cases h : Complex.arg ⟨x, y⟩ = Real.pi
    · left; exact ⟨h, if_pos h⟩
    · right; exact ⟨lt_of_le_of_ne h2 h, if_neg h⟩
  have ha : (Complex.arg ⟨xe, ye⟩ = Real.pi ∧ Complex.arg ⟨xe, -ye⟩ = Real.pi) ∨
      (Complex.arg ⟨xe, ye⟩ < Real.pi ∧ Complex.arg ⟨xe, -ye⟩ = -Complex.arg ⟨xe, ye⟩) := by
    rw [arg_mirror xe ye]
    by_cases h : Complex.arg ⟨xe, ye⟩ = Real.pi
    · left; exact ⟨h, if_pos h⟩
    · right; exact ⟨lt_of_le_of_ne h4 h, if_neg h⟩
  exact mirror_core Real.pi _ _ _ _ _ _ m Real.pi_pos h1 h2 h3 h4 ht ha
    (theta_int_cases _ xe ye) (theta_int_cases _ xe (-ye)) hm

theorem check_angle_le_pi (fm : FloatMath ℝ) (theta x y : ℝ) (left : Bool) (m : ℝ)
    (hm : m ≤ fm.pi) : check_angle fm theta x y left m ≤ fm.pi :=
  le_trans (check_angle_le fm theta x y left m) hm

/-- The right-turn update at a mirrored obstacle point, rewritten as a
left-turn update at the original point. -/
theorem check_angle_unmirror (x y xe ye m : ℝ) (hm : m ≤ realMath.pi) :
    check_angle realMath (Complex.arg ⟨x, -y⟩) xe ye false m =
      check_angle realMath (Complex.arg ⟨x, y⟩) xe (-ye) true m := by
  have h := check_angle_mirror x y xe (-ye) m hm
  rw [neg_neg] at h
  exact h.symm

theorem side_edges_check_mirror (cc : CollisionChecker ℝ) (x y r m : ℝ)
    (hm : m ≤ realMath.pi) :
    side_edges_check realMath cc true (Complex.arg ⟨x, y⟩) r m =
      side_edges_check realMath cc false (Complex.arg ⟨x, -y⟩) r m := by
  have hp := fun (a b c : ℝ) (h : c ≤ realMath.pi) =>
    check_angle_le_pi realMath (Complex.arg ⟨x, -y⟩) a b false c h
  unfold side_edges_check
  dsimp only
  split_ifs
  · rw [check_angle_unmirror x y _ _ _ (hp _ _ _ (hp _ _ _ (hp _ _ _ hm))),
      check_angle_unmirror x y _ _ _ (hp _ _ _ (hp _ _ _ hm)),
      check_angle_unmirror x y _ _ _ (hp _ _ _ hm), check_angle_unmirror x y _ _ _ hm]
    simp only [neg_neg]
    rw [check_angle_comm realMath _ _ (-cc.robot_width) _ _ cc.robot_width,
      check_angle_comm realMath _ (realMath.sqrt _) (-cc.robot_width) _ _ cc.robot_width]
  · rw [check_angle_unmirror x y _ _ _ (hp _ _ _ hm), check_angle_unmirror x y _ _ _ hm]
    simp only [neg_neg]
    rw [check_angle_comm]
  · rw [check_angle_unmirror x y _ _ _ (hp _ _ _ hm), check_angle_unmirror x y _ _ _ hm]
    simp only [neg_neg]
    rw [check_angle_comm]
  · rfl
  · rfl

theorem neg_band_iff (w v : ℝ) : (-w ≤ -v ∧ -v ≤ w) ↔ (-w ≤ v ∧ v ≤ w) := by
  constructor <;> rintro ⟨h1, h2⟩ <;> constructor <;> linarith

theorem back_edge_check_mirror (cc : CollisionChecker ℝ) (x y r m : ℝ)
    (hm : m ≤ realMath.pi) :
    back_edge_check realMath cc true (Complex.arg ⟨x, y⟩) x r m =
      back_edge_check realMath cc false (Complex.arg ⟨x, -y⟩) x r m := by
  have hp := fun (a b c : ℝ) (h : c ≤ realMath.pi) =>
    check_angle_le_pi realMath (Complex.arg ⟨x, -y⟩) a b false c h
  unfold back_edge_check
  dsimp only
  simp only [neg_band_iff]
  split_ifs
  · rw [check_angle_unmirror x y _ _ _ (hp _ _ _ hm), check_angle_unmirror x y _ _ _ hm]
    simp only [neg_neg]
    rw [check_angle_comm]
  · rfl
  · rfl

theorem front_edge_check_mirror (cc : CollisionChecker ℝ) (x y r m : ℝ)
    (hm : m ≤ realMath.pi) :
    front_edge_check realMath cc true (Complex.arg ⟨x, y⟩) x r m =
      front_edge_check realMath cc false (Complex.arg ⟨x, -y⟩) x r m := by
  have hp := fun (a b c : ℝ) (h : c ≤ realMath.pi) =>
    check_angle_le_pi realMath (Complex.arg ⟨x, -y⟩) a b false c h
  unfold front_edge_check
  dsimp only
  simp only [neg_band_iff]
  split_ifs
  · rw [check_angle_unmirror x y _ _ _ (hp _ _ _ hm), check_angle_unmirror x y _ _ _ hm]
    simp only [neg_neg]
    rw [check_angle_comm]
  · rfl
  · rfl

/-- One loop iteration for a left turn equals the iteration for a right turn at
the mirrored point, for running values that do not exceed `π`. -/
theorem angle_step_mirror (cc : CollisionChecker ℝ) (m : ℝ) (p : Vector3 ℝ)
    (hm : m ≤ realMath.pi) :
    angle_step realMath cc true m p = angle_step realMath cc false m (mirror p) := by
  have hr : p.x * p.x + -p.y * -p.y = p.x * p.x + p.y * p.y := by ring
  unfold angle_step
  simp only [mirror, hr]
  have ht : ∀ u v : ℝ, realMath.atan2 v u = Complex.arg ⟨u, v⟩ := fun _ _ => rfl
  rw [ht, ht]
  split_ifs
  · have h1 : side_edges_check realMath cc true (Complex.arg ⟨p.x, p.y⟩)
        (p.x * p.x + p.y * p.y) m ≤ realMath.pi :=
      le_trans (side_edges_check_le _ _ _ _ _ _) hm
    have h2 : back_edge_check realMath cc true (Complex.arg ⟨p.x, p.y⟩) p.x
        (p.x * p.x + p.y * p.y) (side_edges_check realMath cc true (Complex.arg ⟨p.x, p.y⟩)
        (p.x * p.x + p.y * p.y) m) ≤ realMath.pi :=
      le_trans (back_edge_check_le _ _ _ _ _ _ _) h1
    rw [front_edge_check_mirror cc p.x p.y _ _ h2, back_edge_check_mirror cc p.x p.y _ _ h1,
      side_edges_check_mirror cc p.x p.y _ _ hm]
  · rfl

/-- The per-point update only reads the x and y coordinates. -/
theorem angle_step_congr (cc : CollisionChecker ℝ) (left : Bool) (m : ℝ) (p q : Vector3 ℝ)
    (hx : q.x = p.x) (hy : q.y = p.y) :
    angle_step realMath cc left m q = angle_step realMath cc left m p := by
  unfold angle_step
  simp only [hx, hy]

/-- In exact arithmetic (`realMath`: no rounding, one value of `π`, no signed
zero) the point loop of `obstacle_angle` is mirror symmetric: the left rotation
margin of a point set equals the right rotation margin of its mirror image in
the x-axis, and the two margins of a point set that is symmetric about the
x-axis are equal.  The compiled code departs from this at a point on the
negative x-axis at distance `robot_back_length`, where `-yi` is `-0.0f` and
`atan2f` returns `-π`. -/
theorem obstacle_angle_mirror_exact (cc : CollisionChecker ℝ) (pts : List (Vector3 ℝ)) :
    obstacle_angle realMath cc true pts = obstacle_angle realMath cc false (pts.map mirror) ∧
    ((∀ p ∈ pts, ∃ q ∈ pts, q.x = p.x ∧ q.y = -p.y) →
      obstacle_angle realMath cc true pts = obstacle_angle realMath cc false pts) := by
  constructor
  · have h : ∀ (l : List (Vector3 ℝ)) (m : ℝ), m ≤ realMath.pi →
        l.foldl (angle_step realMath cc true) m =
          (l.map mirror).foldl (angle_step realMath cc false) m := by
      intro l
      induction l with
      | nil => intro m _; rfl
      | cons p ps ih =>
        intro m hm
        simp only [List.map_cons, List.foldl_cons]
        rw [← angle_step_mirror cc m p hm]
        exact ih _ (le_trans (angle_step_le _ _ _ _ _) hm)
    exact h pts realMath.pi (le_refl _)
  · intro hsym
    have hL := obstacle_angle_isLeast realMath cc true pts
    have hR := obstacle_angle_isLeast realMath cc false pts
    have hset : (insert realMath.pi
        {d | ∃ p ∈ pts, True ∧ d = angle_step realMath cc true realMath.pi p}) =
        (insert realMath.pi
        {d | ∃ p ∈ pts, True ∧ d = angle_step realMath cc false realMath.pi p}) := by
      ext d
      simp only [Set.mem_insert_iff, Set.mem_setOf_eq, true_and]
      constructor
      · rintro (h | ⟨p, hp, hd⟩)
        · left; exact h
        · right
          obtain ⟨q, hq, hqx, hqy⟩ := hsym p hp
          refine ⟨q, hq, ?_⟩
          rw [hd, angle_step_mirror cc _ p (le_refl _)]
          exact (angle_step_congr cc false _ (mirror p) q hqx hqy).symm
      · rintro (h | ⟨q, hq, hd⟩)
        · left; exact h
        · right
          obtain ⟨p, hp, hpx, hpy⟩ := hsym q hq
          refine ⟨p, hp, ?_⟩
          rw [hd, angle_step_mirror cc _ p (le_refl _)]
          refine angle_step_congr cc false _ (mirror p) q ?_ ?_
          · show q.x = p.x
            rw [hpx]
          · show q.y = -p.y
            rw [hpy, neg_neg]
    rw [hset] at hL
    exact hL.unique hR

/-- Turning back by `theta_int` carries the obstacle point to the edge point,
when both lie on the same circle about the origin. -/
theorem rotate_theta_int (x y xe ye : ℝ) (hc : xe * xe + ye * ye = x * x + y * y) :
    x * Real.cos (theta_int realMath (Complex.arg ⟨x, y⟩) xe ye) +
        y * Real.sin (theta_int realMath (Complex.arg ⟨x, y⟩) xe ye) = xe ∧
    -x * Real.sin (theta_int realMath (Complex.arg ⟨x, y⟩) xe ye) +
        y * Real.cos (theta_int realMath (Complex.arg ⟨x, y⟩) xe ye) = ye := by
  have hcos : Real.cos (theta_int realMath (Complex.arg ⟨x, y⟩) xe ye) =
      Real.cos (Complex.arg ⟨x, y⟩ - Complex.arg ⟨xe, ye⟩) := by
    rcases theta_int_cases (Complex.arg ⟨x, y⟩) xe ye with ⟨-, h⟩ | ⟨-, h⟩ | ⟨-, h⟩
    · rw [h, Real.cos_add_two_pi]
    · rw [h, Real.cos_sub_two_pi]
    · rw [h]
  have hsin : Real.sin (theta_int realMath (Complex.arg ⟨x, y⟩) xe ye) =
      Real.sin (Complex.arg ⟨x, y⟩ - Complex.arg ⟨xe, ye⟩) := by
    rcases theta_int_cases (Complex.arg ⟨x, y⟩) xe ye with ⟨-, h⟩ | ⟨-, h⟩ | ⟨-, h⟩
    · rw [h, Real.sin_add_two_pi]
    · rw [h, Real.sin_sub_two_pi]
    · rw [h]
  have hR : Complex.abs ⟨xe, ye⟩ = Complex.abs ⟨x, y⟩ := by
    rw [Complex.abs_apply, Complex.abs_apply, Complex.normSq_mk, Complex.normSq_mk, hc]
  have hx : Complex.abs ⟨x, y⟩ * Real.cos (Complex.arg ⟨x, y⟩) = x :=
    Complex.abs_mul_cos_arg ⟨x, y⟩
  have hy : Complex.abs ⟨x, y⟩ * Real.sin (Complex.arg ⟨x, y⟩) = y :=
    Complex.abs_mul_sin_arg ⟨x, y⟩
  have hxe : Complex.abs ⟨x, y⟩ * Real.cos (Complex.arg ⟨xe, ye⟩) = xe := by
    rw [← hR]; exact Complex.abs_mul_cos_arg ⟨xe, ye⟩
  have hye : Complex.abs ⟨x, y⟩ * Real.sin (Complex.arg ⟨xe, ye⟩) = ye := by
    rw [← hR]; exact Complex.abs_mul_sin_arg ⟨xe, ye⟩
  have hpy := Real.cos_sq_add_sin_sq (Complex.arg ⟨x, y⟩)
  rw [hcos, hsin, Real.cos_sub, Real.sin_sub]
  generalize Complex.abs ⟨x, y⟩ = R at *
  generalize Real.cos (Complex.arg ⟨x, y⟩) = ct at *
  generalize Real.sin (Complex.arg ⟨x, y⟩) = st at *
  generalize Real.cos (Complex.arg ⟨xe, ye⟩) = ca at *
  generalize Real.sin (Complex.arg ⟨xe, ye⟩) = sa at *
  constructor
  · linear_combination (-(ct * ca + st * sa)) * hx + (-(st * ca - ct * sa)) * hy +
      (R * ca) * hpy + hxe
  · linear_combination (st * ca - ct * sa) * hx + (-(ct * ca + st * sa)) * hy +
      (R * sa) * hpy + hye

/-- A `check_angle` call against an edge point that lies on the footprint
boundary and on the obstacle point's circle keeps the loop invariant. -/
theorem check_angle_touches (cc : CollisionChecker ℝ) (p : Vector3 ℝ) (left : Bool)
    (xe ye m : ℝ) (hc : xe * xe + ye * ye = p.x * p.x + p.y * p.y)
    (hbd : OnFootprintBoundary cc xe ye) (hG : TouchesAfterTurn cc p left m) :
    TouchesAfterTurn cc p left
      (check_angle realMath (Complex.arg ⟨p.x, p.y⟩) xe ye left m) := by
  obtain ⟨h1, h2⟩ := rotate_theta_int p.x p.y xe ye hc
  cases left
  · rw [check_angle_right]
    split_ifs with hQ
    · rcases min_choice m (-theta_int realMath (Complex.arg ⟨p.x, p.y⟩) xe ye) with h | h
      · rw [h]; exact hG
      · rw [h]
        intro _
        simp only [rotate, Bool.false_eq_true, if_false, Real.cos_neg, Real.sin_neg]
        have e1 : p.x * Real.cos (theta_int realMath (Complex.arg ⟨p.x, p.y⟩) xe ye) -
            p.y * -Real.sin (theta_int realMath (Complex.arg ⟨p.x, p.y⟩) xe ye) = xe := by
          linear_combination h1
        have e2 : p.x * -Real.sin (theta_int realMath (Complex.arg ⟨p.x, p.y⟩) xe ye) +
            p.y * Real.cos (theta_int realMath (Complex.arg ⟨p.x, p.y⟩) xe ye) = ye := by
          linear_combination h2
        rw [e1, e2]
        exact hbd
    · exact hG
  · rw [check_angle_left]
    split_ifs with hQ
    · rcases min_choice m (theta_int realMath (Complex.arg ⟨p.x, p.y⟩) xe ye) with h | h
      · rw [h]; exact hG
      · rw [h]
        intro _
        simp only [rotate, if_true, Real.cos_neg, Real.sin_neg]
        have e1 : p.x * Real.cos (theta_int realMath (Complex.arg ⟨p.x, p.y⟩) xe ye) -
            p.y * -Real.sin (theta_int realMath (Complex.arg ⟨p.x, p.y⟩) xe ye) = xe := by
          linear_combination h1
        have e2 : p.x * -Real.sin (theta_int realMath (Complex.arg ⟨p.x, p.y⟩) xe ye) +
            p.y * Real.cos (theta_int realMath (Complex.arg ⟨p.x, p.y⟩) xe ye) = ye := by
          linear_combination h2
        rw [e1, e2]
        exact hbd
    · exact hG

theorem side_edges_check_touches (cc : CollisionChecker ℝ) (p : Vector3 ℝ) (left : Bool)
    (m : ℝ) (hw : 0 ≤ cc.robot_width) (hG : TouchesAfterTurn cc p left m) :
    TouchesAfterTurn cc p left
      (side_edges_check realMath cc left (Complex.arg ⟨p.x, p.y⟩)
        (p.x * p.x + p.y * p.y) m) := by
  unfold side_edges_check
  dsimp only
  by_cases h1 : cc.robot_width_sq ≤ p.x * p.x + p.y * p.y
  · rw [if_pos h1]
    have hxi : realMath.sqrt (p.x * p.x + p.y * p.y - cc.robot_width_sq) *
        realMath.sqrt (p.x * p.x + p.y * p.y - cc.robot_width_sq) =
        p.x * p.x + p.y * p.y - cc.robot_width_sq := Real.mul_self_sqrt (sub_nonneg.mpr h1)
    generalize realMath.sqrt (p.x * p.x + p.y * p.y - cc.robot_width_sq) = xi at hxi ⊢
    have hw2 : cc.robot_width_sq = cc.robot_width * cc.robot_width := rfl
    have c1 : xi * xi + cc.robot_width * cc.robot_width = p.x * p.x + p.y * p.y := by
      rw [hxi, hw2]; ring
    have c2 : xi * xi + -cc.robot_width * -cc.robot_width = p.x * p.x + p.y * p.y := by
      rw [neg_mul_neg]; exact c1
    have c3 : -xi * -xi + cc.robot_width * cc.robot_width = p.x * p.x + p.y * p.y := by
      rw [neg_mul_neg]; exact c1
    have c4 : -xi * -xi + -cc.robot_width * -cc.robot_width = p.x * p.x + p.y * p.y := by
      rw [neg_mul_neg, neg_mul_neg]; exact c1
    have hA : TouchesAfterTurn cc p left
        (if -cc.robot_back_length ≤ xi ∧ xi ≤ cc.robot_front_length then
          check_angle realMath (Complex.arg ⟨p.x, p.y⟩) xi (-cc.robot_width) left
            (check_angle realMath (Complex.arg ⟨p.x, p.y⟩) xi cc.robot_width left m)
        else m) := by
      split_ifs with h2
      · refine check_angle_touches cc p left _ _ _ c2
          ⟨⟨h2.1, h2.2, le_refl _, by linarith⟩, Or.inr (Or.inr (Or.inl rfl))⟩ ?_
        exact check_angle_touches cc p left _ _ _ c1
          ⟨⟨h2.1, h2.2, by linarith, le_refl _⟩, Or.inr (Or.inr (Or.inr rfl))⟩ hG
      · exact hG
    by_cases h3 : -cc.robot_back_length ≤ -xi ∧ -xi ≤ cc.robot_front_length
    · rw [if_pos h3]
      refine check_angle_touches cc p left _ _ _ c4
        ⟨⟨h3.1, h3.2, le_refl _, by linarith⟩, Or.inr (Or.inr (Or.inl rfl))⟩ ?_
      exact check_angle_touches cc p left _ _ _ c3
        ⟨⟨h3.1, h3.2, by linarith, le_refl _⟩, Or.inr (Or.inr (Or.inr rfl))⟩ hA
    · rw [if_neg h3]; exact hA
  · rw [if_neg h1]; exact hG

theorem back_edge_check_touches (cc : CollisionChecker ℝ) (p : Vector3 ℝ) (left : Bool)
    (m : ℝ) (hfb : -cc.robot_back_length ≤ cc.robot_front_length)
    (hG : TouchesAfterTurn cc p left m) :
    TouchesAfterTurn cc p left
      (back_edge_check realMath cc left (Complex.arg ⟨p.x, p.y⟩) p.x
        (p.x * p.x + p.y * p.y) m) := by
  unfold back_edge_check
  dsimp only
  by_cases h1 : p.x < 0 ∧ cc.robot_back_length_sq ≤ p.x * p.x + p.y * p.y
  · rw [if_pos h1]
    have hyi : realMath.sqrt (p.x * p.x + p.y * p.y - cc.robot_back_length_sq) *
        realMath.sqrt (p.x * p.x + p.y * p.y - cc.robot_back_length_sq) =
        p.x * p.x + p.y * p.y - cc.robot_back_length_sq :=
      Real.mul_self_sqrt (sub_nonneg.mpr h1.2)
    generalize realMath.sqrt (p.x * p.x + p.y * p.y - cc.robot_back_length_sq) = yi at hyi ⊢
    have hb2 : cc.robot_back_length_sq = cc.robot_back_length * cc.robot_back_length := rfl
    have c1 : -cc.robot_back_length * -cc.robot_back_length + yi * yi =
        p.x * p.x + p.y * p.y := by
      rw [hyi, hb2]; ring
    have c2 : -cc.robot_back_length * -cc.robot_back_length + -yi * -yi =
        p.x * p.x + p.y * p.y := by
      rw [neg_mul_neg yi yi]; exact c1
    have hA : TouchesAfterTurn cc p left
        (if -cc.robot_width ≤ yi ∧ yi ≤ cc.robot_width then
          check_angle realMath (Complex.arg ⟨p.x, p.y⟩) (-cc.robot_back_length) yi left m
        else m) := by
      split_ifs with h2
      · exact check_angle_touches cc p left _ _ _ c1
          ⟨⟨le_refl _, hfb, h2.1, h2.2⟩, Or.inl rfl⟩ hG
      · exact hG
    by_cases h3 : -cc.robot_width ≤ -yi ∧ -yi ≤ cc.robot_width
    · rw [if_pos h3]
      exact check_angle_touches cc p left _ _ _ c2
        ⟨⟨le_refl _, hfb, h3.1, h3.2⟩, Or.inl rfl⟩ hA
    · rw [if_neg h3]; exact hA
  · rw [if_neg h1]; exact hG

theorem front_edge_check_touches (cc : CollisionChecker ℝ) (p : Vector3 ℝ) (left : Bool)
    (m : ℝ) (hfb : -cc.robot_back_length ≤ cc.robot_front_length)
    (hG : TouchesAfterTurn cc p left m) :
    TouchesAfterTurn cc p left
      (front_edge_check realMath cc left (Complex.arg ⟨p.x, p.y⟩) p.x
        (p.x * p.x + p.y * p.y) m) := by
  unfold front_edge_check
  dsimp only
  by_cases h1 : p.x > 0 ∧ p.x * p.x + p.y * p.y ≤ cc.front_diag ∧
      cc.robot_front_length_sq ≤ p.x * p.x + p.y * p.y
  · rw [if_pos h1]
    have hyi : realMath.sqrt (p.x * p.x + p.y * p.y - cc.robot_front_length_sq) *
        realMath.sqrt (p.x * p.x + p.y * p.y - cc.robot_front_length_sq) =
        p.x * p.x + p.y * p.y - cc.robot_front_length_sq :=
      Real.mul_self_sqrt (sub_nonneg.mpr h1.2.2)
    generalize realMath.sqrt (p.x * p.x + p.y * p.y - cc.robot_front_length_sq) = yi at hyi ⊢
    have hf2 : cc.robot_front_length_sq = cc.robot_front_length * cc.robot_front_length := rfl
    have c1 : cc.robot_front_length * cc.robot_front_length + yi * yi =
        p.x * p.x + p.y * p.y := by
      rw [hyi, hf2]; ring
    have c2 : cc.robot_front_length * cc.robot_front_length + -yi * -yi =
        p.x * p.x + p.y * p.y := by
      rw [neg_mul_neg yi yi]; exact c1
    have hA : TouchesAfterTurn cc p left
        (if -cc.robot_width ≤ yi ∧ yi ≤ cc.robot_width then
          check_angle realMath (Complex.arg ⟨p.x, p.y⟩) cc.robot_front_length yi left m
        else m) := by
      split_ifs with h2
      · exact check_angle_touches cc p left _ _ _ c1
          ⟨⟨hfb, le_refl _, h2.1, h2.2⟩, Or.inr (Or.inl rfl)⟩ hG
      · exact hG
    by_cases h3 : -cc.robot_width ≤ -yi ∧ -yi ≤ cc.robot_width
    · rw [if_pos h3]
      exact check_angle_touches cc p left _ _ _ c2
        ⟨⟨hfb, le_refl _, h3.1, h3.2⟩, Or.inr (Or.inl rfl)⟩ hA
    · rw [if_neg h3]; exact hA
  · rw [if_neg h1]; exact hG

/-- C8: for a footprint with positive width, front length and back length and a
single obstacle point `p`, if `obstacle_angle` returns `m < π` then `p` rotated
about the origin by `-m` (left turn) or by `+m` (right turn) lies on the
boundary of the rectangle
`[-robot_back_length, robot_front_length] × [-robot_width, robot_width]`. -/
theorem C8_margin_touches_boundary (cc : CollisionChecker ℝ) (p : Vector3 ℝ) (left : Bool)
    (hw : 0 < cc.robot_width) (hf : 0 < cc.robot_front_length)
    (hb : 0 < cc.robot_back_length)
    (hm : obstacle_angle realMath cc left [p] < Real.pi) :
    OnFootprintBoundary cc
      (rotate (if left = true then -obstacle_angle realMath cc left [p]
        else obstacle_angle realMath cc left [p]) p).x
      (rotate (if left = true then -obstacle_angle realMath cc left [p]
        else obstacle_angle realMath cc left [p]) p).y := by
  have hfb : -cc.robot_back_length ≤ cc.robot_front_length := by linarith
  have h0 : TouchesAfterTurn cc p left realMath.pi := fun h => absurd h (lt_irrefl _)
  have hstep : TouchesAfterTurn cc p left (angle_step realMath cc left realMath.pi p) := by
    unfold angle_step
    dsimp only
    split_ifs
    · exact front_edge_check_touches cc p left _ hfb
        (back_edge_check_touches cc p left _ hfb
          (side_edges_check_touches cc p left _ (le_of_lt hw) h0))
    · exact h0
  exact hstep hm

/-- C8 at a concrete input: width, front and back length 1 and the point
`(-1, 0)`; the left margin is below `π` (at most `π/2`) and turning the point
back by it puts it on the footprint boundary. -/
theorem C8_margin_touches_boundary_witness :
    obstacle_angle realMath (⟨10, 1, 1, 1⟩ : CollisionChecker ℝ) true [⟨-1, 0, 0⟩] < Real.pi ∧
    OnFootprintBoundary (⟨10, 1, 1, 1⟩ : CollisionChecker ℝ)
      (rotate (-obstacle_angle realMath (⟨10, 1, 1, 1⟩ : CollisionChecker ℝ) true
        [⟨-1, 0, 0⟩]) ⟨-1, 0, 0⟩).x
      (rotate (-obstacle_angle realMath (⟨10, 1, 1, 1⟩ : CollisionChecker ℝ) true
        [⟨-1, 0, 0⟩]) ⟨-1, 0, 0⟩).y := by
  have hm : obstacle_angle realMath (⟨10, 1, 1, 1⟩ : CollisionChecker ℝ) true
      [⟨-1, 0, 0⟩] < Real.pi := by
    have hpi := Real.pi_pos
    have harg1 : Complex.arg ⟨-1, 0⟩ = Real.pi := by
      have e : (⟨-1, 0⟩ : ℂ) = -1 := by apply Complex.ext <;> simp
      rw [e, Complex.arg_neg_one]
    have harg2 : Complex.arg ⟨0, 1⟩ = Real.pi / 2 := by
      have e : (⟨0, 1⟩ : ℂ) = Complex.I := rfl
      rw [e, Complex.arg_I]
    have hT : theta_int realMath (Complex.arg ⟨-1, 0⟩) 0 1 = Real.pi / 2 := by
      simp only [theta_int, realMath]
      rw [harg1, harg2]
      have h1 : ¬ (Real.pi - Real.pi / 2 < -Real.pi) := by linarith
      have h2 : ¬ (Real.pi - Real.pi / 2 > Real.pi) := by linarith
      rw [if_neg h1, if_neg h2]
      ring
    have hc : check_angle realMath (Complex.arg ⟨-1, 0⟩) 0 1 true Real.pi = Real.pi / 2 := by
      rw [check_angle_left, hT, if_pos (by linarith), min_eq_right (by linarith)]
    have hs : Real.sqrt ((-1 : ℝ) * -1 + 0 * 0 - 1 * 1) = 0 := by
      have e : ((-1 : ℝ) * -1 + 0 * 0 - 1 * 1) = 0 := by norm_num
      rw [e, Real.sqrt_zero]
    have hside : side_edges_check realMath (⟨10, 1, 1, 1⟩ : CollisionChecker ℝ) true
        (Complex.arg ⟨-1, 0⟩) ((-1 : ℝ) * -1 + 0 * 0) Real.pi ≤ Real.pi / 2 := by
      unfold side_edges_check
      dsimp only [CollisionChecker.robot_width_sq, realMath]
      rw [hs]
      simp only [neg_zero]
      have h1 : (1 : ℝ) * 1 ≤ -1 * -1 + 0 * 0 := by norm_num
      have h2 : -(1 : ℝ) ≤ 0 ∧ (0 : ℝ) ≤ 1 := by norm_num
      rw [if_pos h1]
      simp only [if_pos h2]
      exact le_trans (check_angle_le _ _ _ _ _ _) (le_trans (check_angle_le _ _ _ _ _ _)
        (le_trans (check_angle_le _ _ _ _ _ _) (le_of_eq hc)))
    have hstep : angle_step realMath (⟨10, 1, 1, 1⟩ : CollisionChecker ℝ) true Real.pi
        ⟨-1, 0, 0⟩ ≤ Real.pi / 2 := by
      unfold angle_step
      dsimp only
      rw [if_pos (by norm_num [CollisionChecker.back_diag])]
      exact le_trans (front_edge_check_le _ _ _ _ _ _ _)
        (le_trans (back_edge_check_le _ _ _ _ _ _ _) hside)
    have e : obstacle_angle realMath (⟨10, 1, 1, 1⟩ : CollisionChecker ℝ) true [⟨-1, 0, 0⟩] =
        angle_step realMath (⟨10, 1, 1, 1⟩ : CollisionChecker ℝ) true Real.pi ⟨-1, 0, 0⟩ := rfl
    rw [e]
    linarith
  exact ⟨hm, C8_margin_touches_boundary (⟨10, 1, 1, 1⟩ : CollisionChecker ℝ) ⟨-1, 0, 0⟩ true
    (by norm_num) (by norm_num) (by norm_num) hm⟩

/-! ## `normalizeAngle` -/

section Controller

variable {α : Type} [LinearOrderedField α]

/-- The three outcomes of the arithmetic of `normalizeAngle`. -/
theorem normalizeAngle_cases (fm : FloatMath α) (a : α) :
    (a < -fm.pi ∧ normalizeAngle fm a = a + 2 * fm.pi) ∨
    (fm.pi < a ∧ normalizeAngle fm a = a - 2 * fm.pi) ∨
    ((-fm.pi ≤ a ∧ a ≤ fm.pi) ∧ normalizeAngle fm a = a) := by
  unfold normalizeAngle
  dsimp only
  by_cases h1 : a < -fm.pi
  · left
    refine ⟨h1, ?_⟩
    rw [if_pos h1, if_neg (by linarith)]
  · right
    rw [if_neg h1]
    by_cases h2 : a > fm.pi
    · left; exact ⟨h2, by rw [if_pos h2]⟩
    · right; exact ⟨⟨not_lt.mp h1, not_lt.mp h2⟩, by rw [if_neg h2]⟩

/-- When both assertions of `normalizeAngle` hold, which they do exactly for
inputs strictly between `-3π` and `3π` other than `-π` and `π`. -/
theorem normalizeAngle_asserts_iff (fm : FloatMath α) (hpi : 0 < fm.pi) (a : α) :
    normalizeAngle_asserts fm a = true ↔
      (-(3 * fm.pi) < a ∧ a < 3 * fm.pi ∧ a ≠ -fm.pi ∧ a ≠ fm.pi) := by
  unfold normalizeAngle_asserts
  simp only [Bool.and_eq_true, decide_eq_true_eq, gt_iff_lt]
  by_cases h1 : a < -fm.pi
  · rw [if_pos h1, if_neg (by linarith)]
    constructor
    · rintro ⟨h2, h3⟩
      exact ⟨by linarith, by linarith, ne_of_lt h1, by intro h; linarith⟩
    · rintro ⟨h2, h3, -, -⟩
      exact ⟨by linarith, by linarith⟩
  · rw [if_neg h1]
    by_cases h2 : fm.pi < a
    · rw [if_pos h2]
      constructor
      · rintro ⟨h3, h4⟩
        exact ⟨by linarith, by linarith, by intro h; linarith, ne_of_gt h2⟩
      · rintro ⟨h3, h4, -, -⟩
        exact ⟨by linarith, by linarith⟩
    · rw [if_neg h2]
      constructor
      · rintro ⟨h3, h4⟩
        exact ⟨by linarith, by linarith, ne_of_gt h3, ne_of_lt h4⟩
      · rintro ⟨h3, h4, h5, h6⟩
        exact ⟨lt_of_le_of_ne (not_lt.mp h1) (Ne.symm h5), lt_of_le_of_ne (not_lt.mp h2) h6⟩

/-- C19 (amended): the value `normalizeAngle` leaves lies in `(-π, π]` exactly
for the inputs `a` with `-3π < a ≤ 3π` and `a ≠ -π`; and whenever both of its
assertions hold (exactly for `-3π < a < 3π`, `a ≠ ±π`) the value lies in the
open interval `(-π, π)`. -/
theorem C19_normalizeAngle_range (fm : FloatMath α) (hpi : 0 < fm.pi) (a : α) :
    ((-fm.pi < normalizeAngle fm a ∧ normalizeAngle fm a ≤ fm.pi) ↔
      (-(3 * fm.pi) < a ∧ a ≤ 3 * fm.pi ∧ a ≠ -fm.pi)) ∧
    (normalizeAngle_asserts fm a = true →
      -fm.pi < normalizeAngle fm a ∧ normalizeAngle fm a < fm.pi) := by
  constructor
  · rcases normalizeAngle_cases fm a with ⟨h, e⟩ | ⟨h, e⟩ | ⟨⟨h1, h2⟩, e⟩
    · rw [e]
      constructor
      · rintro ⟨h3, h4⟩
        exact ⟨by linarith, by linarith, ne_of_lt h⟩
      · rintro ⟨h3, h4, -⟩
        exact ⟨by linarith, by linarith⟩
    · rw [e]
      constructor
      · rintro ⟨h3, h4⟩
        exact ⟨by linarith, by linarith, by intro h5; linarith⟩
      · rintro ⟨h3, h4, -⟩
        exact ⟨by linarith, by linarith⟩
    · rw [e]
      constructor
      · rintro ⟨h3, h4⟩
        exact ⟨by linarith, by linarith, ne_of_gt h3⟩
      · rintro ⟨h3, h4, h5⟩
        exact ⟨lt_of_le_of_ne h1 (Ne.symm h5), h2⟩
  · intro hass
    obtain ⟨h1, h2, h3, h4⟩ := (normalizeAngle_asserts_iff fm hpi a).mp hass
    rcases normalizeAngle_cases fm a with ⟨h, e⟩ | ⟨h, e⟩ | ⟨⟨h5, h6⟩, e⟩
    · rw [e]; exact ⟨by linarith, by linarith⟩
    · rw [e]; exact ⟨by linarith, by linarith⟩
    · rw [e]; exact ⟨lt_of_le_of_ne h5 (Ne.symm h3), lt_of_le_of_ne h6 h4⟩

/-- C20 (amended): applying `normalizeAngle` twice gives the same value as
applying it once exactly for the inputs `a` with `-3π ≤ a ≤ 3π`. -/
theorem C20_normalizeAngle_idempotent (fm : FloatMath α) (hpi : 0 < fm.pi) (a : α) :
    normalizeAngle fm (normalizeAngle fm a) = normalizeAngle fm a ↔
      (-(3 * fm.pi) ≤ a ∧ a ≤ 3 * fm.pi) := by
  rcases normalizeAngle_cases fm a with ⟨h, e⟩ | ⟨h, e⟩ | ⟨⟨h1, h2⟩, e⟩
  · rw [e]
    rcases normalizeAngle_cases fm (a + 2 * fm.pi) with ⟨h', e'⟩ | ⟨h', e'⟩ | ⟨⟨h1', h2'⟩, e'⟩
    · rw [e']
      constructor
      · intro h3; linarith
      · rintro ⟨h3, -⟩; linarith
    · linarith
    · rw [e']
      constructor
      · intro _; exact ⟨by linarith, by linarith⟩
      · intro _; rfl
  · rw [e]
    rcases normalizeAngle_cases fm (a - 2 * fm.pi) with ⟨h', e'⟩ | ⟨h', e'⟩ | ⟨⟨h1', h2'⟩, e'⟩
    · linarith
    · rw [e']
      constructor
      · intro h3; linarith
      · rintro ⟨-, h3⟩; linarith
    · rw [e']
      constructor
      · intro _; exact ⟨by linarith, by linarith⟩
      · intro _; rfl
  · rw [e, e]
    constructor
    · intro _; exact ⟨by linarith, by linarith⟩
    · intro _; rfl

end Controller

/-- C19 as stated fails: for the input `5π` the value left is `3π`, which is
above `π` (and the second assertion of `normalizeAngle` does not hold). -/
theorem C19_counterexample :
    normalizeAngle realMath (5 * Real.pi) = 3 * Real.pi ∧
    ¬ (-Real.pi < normalizeAngle realMath (5 * Real.pi) ∧
        normalizeAngle realMath (5 * Real.pi) ≤ Real.pi) ∧
    normalizeAngle_asserts realMath (5 * Real.pi) = false := by
  have hpi := Real.pi_pos
  have hp : realMath.pi = Real.pi := rfl
  have e : normalizeAngle realMath (5 * Real.pi) = 3 * Real.pi := by
    rcases normalizeAngle_cases realMath (5 * Real.pi) with ⟨h, -⟩ | ⟨-, e⟩ | ⟨⟨-, h⟩, -⟩
    · rw [hp] at h; linarith
    · rw [e, hp]; ring
    · rw [hp] at h; linarith
  refine ⟨e, ?_, ?_⟩
  · rw [e]
    rintro ⟨-, h⟩
    linarith
  · cases hb : normalizeAngle_asserts realMath (5 * Real.pi)
    · rfl
    · obtain ⟨-, h, -, -⟩ := (normalizeAngle_asserts_iff realMath hpi (5 * Real.pi)).mp hb
      rw [hp] at h
      linarith

/-- C19 (amended) at a concrete input: `4` lies between `π` and `3π`, both
assertions hold and the value left, `4 - 2π`, lies in `(-π, π)`. -/
theorem C19_normalizeAngle_range_witness :
    (0 : ℝ) < realMath.pi ∧ normalizeAngle_asserts realMath 4 = true ∧
    -realMath.pi < normalizeAngle realMath 4 ∧ normalizeAngle realMath 4 < realMath.pi := by
  have hpi := Real.pi_pos
  have h3 := Real.pi_gt_three
  have h4 := Real.pi_lt_four
  have hp : realMath.pi = Real.pi := rfl
  have hass : normalizeAngle_asserts realMath 4 = true := by
    rw [normalizeAngle_asserts_iff realMath hpi 4, hp]
    exact ⟨by linarith, by linarith, by intro h; linarith, by intro h; linarith⟩
  exact ⟨hpi, hass, (C19_normalizeAngle_range realMath hpi 4).2 hass⟩

/-- C20 as stated fails: for the input `5π` one application leaves `3π`, a second
one leaves `π`. -/
theorem C20_counterexample :
    normalizeAngle realMath (5 * Real.pi) = 3 * Real.pi ∧
    normalizeAngle realMath (normalizeAngle realMath (5 * Real.pi)) = Real.pi ∧
    normalizeAngle realMath (normalizeAngle realMath (5 * Real.pi)) ≠
      normalizeAngle realMath (5 * Real.pi) := by
  have hpi := Real.pi_pos
  have hp : realMath.pi = Real.pi := rfl
  have e : normalizeAngle realMath (5 * Real.pi) = 3 * Real.pi := by
    rcases normalizeAngle_cases realMath (5 * Real.pi) with ⟨h, -⟩ | ⟨-, e⟩ | ⟨⟨-, h⟩, -⟩
    · rw [hp] at h; linarith
    · rw [e, hp]; ring
    · rw [hp] at h; linarith
  have e2 : normalizeAngle realMath (3 * Real.pi) = Real.pi := by
    rcases normalizeAngle_cases realMath (3 * Real.pi) with ⟨h, -⟩ | ⟨-, e⟩ | ⟨⟨-, h⟩, -⟩
    · rw [hp] at h; linarith
    · rw [e, hp]; ring
    · rw [hp] at h; linarith
  refine ⟨e, by rw [e, e2], ?_⟩
  rw [e, e2]
  intro h
  linarith

/-- C20 (amended) at a concrete input: `4` lies in `[-3π, 3π]`, so a second
application of `normalizeAngle` changes nothing. -/
theorem C20_normalizeAngle_idempotent_witness :
    (0 : ℝ) < realMath.pi ∧
    normalizeAngle realMath (normalizeAngle realMath 4) = normalizeAngle realMath 4 := by
  have hpi := Real.pi_pos
  have h3 := Real.pi_gt_three
  have hp : realMath.pi = Real.pi := rfl
  exact ⟨hpi, (C20_normalizeAngle_idempotent realMath hpi 4).mpr
    ⟨by rw [hp]; linarith, by rw [hp]; linarith⟩⟩

/-! ## Velocity limits of `smoothFollow` -/

section Controller

variable {α : Type} [LinearOrderedField α]

theorem limitAngularVelocity_abs_le (mb : MoveSmooth α) (h : 0 ≤ mb.maxAngularVelocity)
    (v : α) : |mb.limitAngularVelocity v| ≤ mb.maxAngularVelocity := by
  unfold MoveSmooth.limitAngularVelocity
  rw [abs_le]
  exact ⟨le_max_left _ _, max_le (by linarith) (min_le_left _ _)⟩

theorem limitLinearVelocity_abs_le (mb : MoveSmooth α) (h : 0 ≤ mb.maxLinearVelocity)
    (v : α) (hv : 0 ≤ v) : |mb.limitLinearVelocity v| ≤ mb.maxLinearVelocity := by
  unfold MoveSmooth.limitLinearVelocity
  rw [abs_of_nonneg (le_min h hv)]
  exact min_le_left _ _

theorem limitLinearVelocity_nonneg (mb : MoveSmooth α) (h : 0 ≤ mb.maxLinearVelocity)
    (v : α) (hv : 0 ≤ v) : 0 ≤ mb.limitLinearVelocity v :=
  le_min h hv

/-- The linear velocity of the "Linear control" block lies between `0` and
`maxLinearVelocity` when its square root is taken of a non-negative number. -/
theorem linearControl_bounds (mb : MoveSmooth α) (fm : FloatMath α)
    (hL : 0 ≤ mb.maxLinearVelocity) (hsqrt : ∀ x, 0 ≤ x → 0 ≤ fm.sqrt x) (p ar od d : α)
    (harg : 0 ≤ p + 2 * mb.maxLinearAcceleration * min od d) (hd : 0 ≤ d) :
    0 ≤ mb.linearControl fm p ar od d ∧
      |mb.linearControl fm p ar od d| ≤ mb.maxLinearVelocity := by
  unfold MoveSmooth.linearControl
  dsimp only
  have h0 : 0 ≤ min (max ((fm.atan2 mb.maxLateralDev 1 - |ar| / 2) / fm.atan2 mb.maxLateralDev 1)
      0 * mb.maxLinearVelocity)
      (min d (fm.sqrt (p + 2 * mb.maxLinearAcceleration * min od d))) :=
    le_min (mul_nonneg (le_max_right _ _) hL) (le_min hd (hsqrt _ harg))
  exact ⟨limitLinearVelocity_nonneg mb hL _ h0, limitLinearVelocity_abs_le mb hL _ h0⟩

/-- Whatever `maxTurnVelocity` is (finite, `+∞` or NaN), `std::min` of a
non-negative distance and `std::max` of a non-negative speed and
`maxTurnVelocity` is a non-negative finite number. -/
theorem stdMin_stdMax_nonneg (d v : α) (M : Root α) (hd : 0 ≤ d) (hv : 0 ≤ v) :
    0 ≤ stdMin d (stdMax v M) := by
  cases M with
  | fin y =>
    show 0 ≤ (if (if v < y then y else v) < d then (if v < y then y else v) else d)
    by_cases h1 : v < y
    · rw [if_pos h1]
      split_ifs
      · exact le_trans hv (le_of_lt h1)
      · exact hd
    · rw [if_neg h1]
      split_ifs
      · exact hv
      · exact hd
  | inf => exact hd
  | nan =>
    show 0 ≤ (if v < d then v else d)
    split_ifs
    · exact hv
    · exact hd

/-- The linear velocity of the "Next goal state" block lies between `0` and
`maxLinearVelocity` when the velocity it starts from is not negative. -/
theorem nextGoalVelocity_bounds (mb : MoveSmooth α) (fm : FloatMath α) (cos : α → α)
    (hL : 0 ≤ mb.maxLinearVelocity) (hsqrt : ∀ x, 0 ≤ x → 0 ≤ fm.sqrt x) (v : α)
    (hv : 0 ≤ v) (nr : Vector3 α) :
    0 ≤ mb.nextGoalVelocity fm cos v nr ∧
      |mb.nextGoalVelocity fm cos v nr| ≤ mb.maxLinearVelocity := by
  unfold MoveSmooth.nextGoalVelocity
  dsimp only
  have hd : 0 ≤ fm.sqrt (nr.x * nr.x + nr.y * nr.y) :=
    hsqrt _ (add_nonneg (mul_self_nonneg _) (mul_self_nonneg _))
  have h0 := stdMin_stdMax_nonneg (fm.sqrt (nr.x * nr.x + nr.y * nr.y)) v
    (sqrtQuot fm (mb.gravityConstant * mb.maxIncline * mb.maxLateralDev)
      (1 - cos (normalizeAngle fm (fm.atan2 nr.y nr.x) / 2))) hd hv
  exact ⟨limitLinearVelocity_nonneg mb hL _ h0, limitLinearVelocity_abs_le mb hL _ h0⟩

theorem sendCmd_zero_bounds (stop : Bool) (omega v L A : α) (hL : 0 ≤ L) (hA : 0 ≤ A)
    (h : Event.cmd omega v = sendCmd stop 0 0) : |v| ≤ L ∧ |omega| ≤ A := by
  unfold sendCmd at h
  simp only [ite_self, Event.cmd.injEq] at h
  obtain ⟨h1, h2⟩ := h
  rw [h1, h2, abs_zero]
  exact ⟨hL, hA⟩

theorem sendCmd_bounds (stop : Bool) (omega v a l L A : α) (hL : 0 ≤ L) (hA : 0 ≤ A)
    (hl : |l| ≤ L) (ha : |a| ≤ A)
    (h : Event.cmd omega v = sendCmd stop a l) : |v| ≤ L ∧ |omega| ≤ A := by
  unfold sendCmd at h
  simp only [Event.cmd.injEq] at h
  obtain ⟨h1, h2⟩ := h
  rw [h1, h2]
  cases stop
  · simpa using ⟨hl, ha⟩
  · simpa using ⟨hL, hA⟩

/-- The argument of the square root of the "Linear control" block is not
negative in a tick that passed the obstacle gate, when the acceleration limit,
the obstacle threshold and the stored linear speed are non-negative. -/
theorem linear_sqrt_arg_nonneg (mb : MoveSmooth α) (p od d : α)
    (hAcc : 0 ≤ mb.maxLinearAcceleration) (hThr : 0 ≤ mb.forwardObstacleThreshold)
    (hp : 0 ≤ p) (hod : ¬ od ≤ mb.forwardObstacleThreshold) (hd : 0 ≤ d) :
    0 ≤ p + 2 * mb.maxLinearAcceleration * min od d :=
  add_nonneg hp (mul_nonneg (mul_nonneg (by norm_num) hAcc)
    (le_min (le_trans hThr (le_of_lt (not_le.mp hod))) hd))

/-- Every command published by one tick of `smoothFollow` obeys both limits,
from a state whose stored linear speed is not negative. -/
theorem followBody_cmd_bounds (mb : MoveSmooth α) (fm : FloatMath α)
    (cos : α → α) (cc : CollisionChecker α) (s : FollowState α) (t : FollowTick α)
    (hL : 0 ≤ mb.maxLinearVelocity) (hA : 0 ≤ mb.maxAngularVelocity)
    (hAcc : 0 ≤ mb.maxLinearAcceleration) (hThr : 0 ≤ mb.forwardObstacleThreshold)
    (hsqrt : ∀ x, 0 ≤ x → 0 ≤ fm.sqrt x) (hs : 0 ≤ s.previousLinearVelocity)
    (omega v : α) (hmem : Event.cmd omega v ∈ (mb.followBody fm cos cc s t).1) :
    |v| ≤ mb.maxLinearVelocity ∧ |omega| ≤ mb.maxAngularVelocity := by
  have hd : 0 ≤ t.distRemaining fm :=
    hsqrt _ (add_nonneg (mul_self_nonneg _) (mul_self_nonneg _))
  have hang : ∀ p e pe li oa : α, |mb.lateralControl fm p e pe li oa| ≤
      mb.maxAngularVelocity := by
    intro p e pe li oa
    unfold MoveSmooth.lateralControl
    exact limitAngularVelocity_abs_le mb hA _
  have hz := fun (st : Bool) (h : Event.cmd omega v = sendCmd st 0 0) =>
    sendCmd_zero_bounds st omega v _ _ hL hA h
  unfold MoveSmooth.followBody at hmem
  by_cases h1 : t.poseOk = false
  · rw [if_pos h1] at hmem
    exact absurd hmem (List.not_mem_nil _)
  rw [if_neg h1] at hmem
  by_cases h2 : normalizeAngle_asserts fm (t.rawAngle fm) = false
  · rw [if_pos h2] at hmem
    exact absurd hmem (List.not_mem_nil _)
  rw [if_neg h2] at hmem
  dsimp only at hmem
  by_cases h3 : t.obstacleDist fm cc ≤ mb.forwardObstacleThreshold
  · rw [if_pos h3] at hmem
    exact hz _ (List.mem_singleton.mp hmem)
  rw [if_neg h3] at hmem
  have hlin := fun (ar : α) => linearControl_bounds mb fm hL hsqrt s.previousLinearVelocity ar
    (t.obstacleDist fm cc) (t.distRemaining fm)
    (linear_sqrt_arg_nonneg mb _ _ _ hAcc hThr hs h3 hd) hd
  by_cases h4 : t.preempt = true
  · rw [if_pos h4] at hmem
    simp only [List.mem_cons, List.mem_singleton, List.not_mem_nil, or_false, false_or,
      reduceCtorEq] at hmem
    exact hz _ hmem
  rw [if_neg h4] at hmem
  by_cases h5 : runawayCondition fm cos s t = true ∧ t.now - s.last > mb.runawayTimeoutSecs
  · rw [if_pos h5] at hmem
    simp only [List.mem_cons, List.mem_singleton, List.not_mem_nil, or_false, false_or,
      reduceCtorEq] at hmem
    exact hz _ hmem
  rw [if_neg h5] at hmem
  by_cases h6 : t.distRemaining fm < mb.maxLateralDev
  · rw [if_pos h6] at hmem
    by_cases h7 : t.newGoal = true
    · rw [if_pos h7] at hmem
      exact absurd hmem (List.not_mem_nil _)
    · rw [if_neg h7] at hmem
      exact hz _ (List.mem_singleton.mp hmem)
  rw [if_neg h6] at hmem
  by_cases h7 : t.newGoal = true
  · rw [if_pos h7] at hmem
    by_cases h8 : t.nextGoalOk = false
    · rw [if_pos h8] at hmem
      simp only [List.mem_cons, List.mem_singleton, List.not_mem_nil, or_false, false_or,
        reduceCtorEq] at hmem
      exact hz _ hmem
    rw [if_neg h8] at hmem
    by_cases h9 : normalizeAngle_asserts fm (fm.atan2 t.nextRemaining.y t.nextRemaining.x) = false
    · rw [if_pos h9] at hmem
      exact absurd hmem (List.not_mem_nil _)
    · rw [if_neg h9] at hmem
      exact sendCmd_bounds _ _ _ _ _ _ _ hL hA
        (nextGoalVelocity_bounds mb fm cos hL hsqrt _ (hlin _).1 _).2 (hang _ _ _ _ _)
        (List.mem_singleton.mp hmem)
  · rw [if_neg h7] at hmem
    exact sendCmd_bounds _ _ _ _ _ _ _ hL hA (hlin _).2 (hang _ _ _ _ _)
      (List.mem_singleton.mp hmem)

/-- A tick of `smoothFollow` that reaches the end of the loop body stores a
linear speed that is not negative. -/
theorem followBody_next_nonneg (mb : MoveSmooth α) (fm : FloatMath α)
    (cos : α → α) (cc : CollisionChecker α) (s : FollowState α) (t : FollowTick α)
    (hL : 0 ≤ mb.maxLinearVelocity)
    (hAcc : 0 ≤ mb.maxLinearAcceleration) (hThr : 0 ≤ mb.forwardObstacleThreshold)
    (hsqrt : ∀ x, 0 ≤ x → 0 ≤ fm.sqrt x) (hs : 0 ≤ s.previousLinearVelocity)
    (ev : List (Event α)) (s1 : FollowState α)
    (h : mb.followBody fm cos cc s t = (ev, Step.next s1)) :
    0 ≤ s1.previousLinearVelocity := by
  have hd : 0 ≤ t.distRemaining fm :=
    hsqrt _ (add_nonneg (mul_self_nonneg _) (mul_self_nonneg _))
  unfold MoveSmooth.followBody at h
  by_cases h1 : t.poseOk = false
  · rw [if_pos h1] at h
    cases h
  rw [if_neg h1] at h
  by_cases h2 : normalizeAngle_asserts fm (t.rawAngle fm) = false
  · rw [if_pos h2] at h
    cases h
  rw [if_neg h2] at h
  dsimp only at h
  by_cases h3 : t.obstacleDist fm cc ≤ mb.forwardObstacleThreshold
  · rw [if_pos h3] at h
    have h4 := (Prod.mk.inj h).2
    injection h4 with h5
    rw [← h5]
    exact hs
  rw [if_neg h3] at h
  have hlin := fun (ar : α) => linearControl_bounds mb fm hL hsqrt s.previousLinearVelocity ar
    (t.obstacleDist fm cc) (t.distRemaining fm)
    (linear_sqrt_arg_nonneg mb _ _ _ hAcc hThr hs h3 hd) hd
  by_cases h4 : t.preempt = true
  · rw [if_pos h4] at h
    cases h
  rw [if_neg h4] at h
  by_cases h5 : runawayCondition fm cos s t = true ∧ t.now - s.last > mb.runawayTimeoutSecs
  · rw [if_pos h5] at h
    cases h
  rw [if_neg h5] at h
  by_cases h6 : t.distRemaining fm < mb.maxLateralDev
  · rw [if_pos h6] at h
    by_cases h7 : t.newGoal = true
    · rw [if_pos h7] at h
      cases h
    · rw [if_neg h7] at h
      cases h
  rw [if_neg h6] at h
  by_cases h7 : t.newGoal = true
  · rw [if_pos h7] at h
    by_cases h8 : t.nextGoalOk = false
    · rw [if_pos h8] at h
      cases h
    rw [if_neg h8] at h
    by_cases h9 : normalizeAngle_asserts fm (fm.atan2 t.nextRemaining.y t.nextRemaining.x) = false
    · rw [if_pos h9] at h
      cases h
    · rw [if_neg h9] at h
      have h10 := (Prod.mk.inj h).2
      injection h10 with h11
      rw [← h11]
      exact (nextGoalVelocity_bounds mb fm cos hL hsqrt _ (hlin _).1 _).1
  · rw [if_neg h7] at h
    have h10 := (Prod.mk.inj h).2
    injection h10 with h11
    rw [← h11]
    exact (hlin _).1

/-- Every command published by the loop of `smoothFollow` obeys both limits,
from a state whose stored linear speed is not negative. -/
theorem followLoop_cmd_bounds (mb : MoveSmooth α) (fm : FloatMath α)
    (cos : α → α) (cc : CollisionChecker α)
    (hL : 0 ≤ mb.maxLinearVelocity) (hA : 0 ≤ mb.maxAngularVelocity)
    (hAcc : 0 ≤ mb.maxLinearAcceleration) (hThr : 0 ≤ mb.forwardObstacleThreshold)
    (hsqrt : ∀ x, 0 ≤ x → 0 ≤ fm.sqrt x) (ticks : List (FollowTick α))
    (s : FollowState α) (hs : 0 ≤ s.previousLinearVelocity) (omega v : α)
    (hmem : Event.cmd omega v ∈ (mb.followLoop fm cos cc s ticks).1) :
    |v| ≤ mb.maxLinearVelocity ∧ |omega| ≤ mb.maxAngularVelocity := by
  induction ticks generalizing s with
  | nil =>
    rw [MoveSmooth.followLoop] at hmem
    exact absurd hmem (List.not_mem_nil _)
  | cons t ts ih =>
    rw [MoveSmooth.followLoop] at hmem
    by_cases hok : t.ok = false
    · rw [if_pos hok] at hmem
      exact sendCmd_zero_bounds _ omega v _ _ hL hA (List.mem_singleton.mp hmem)
    · rw [if_neg hok] at hmem
      have hb := followBody_cmd_bounds mb fm cos cc s t hL hA hAcc hThr hsqrt hs omega v
      have hn := followBody_next_nonneg mb fm cos cc s t hL hAcc hThr hsqrt hs
      rcases hbody : mb.followBody fm cos cc s t with ⟨ev, st⟩
      rw [hbody] at hmem hb
      cases st with
      | next s1 =>
        rcases List.mem_append.mp hmem with h | h
        · exact hb h
        · exact ih s1 (hn ev s1 hbody) h
      | ret b => exact hb hmem
      | assertFailed => exact hb hmem

/-- C11: with non-negative `maxLinearVelocity`, `maxAngularVelocity`,
`maxLinearAcceleration` and `forwardObstacleThreshold`, every command `(ω, v)`
published by `smoothFollow` satisfies `|v| ≤ maxLinearVelocity` and
`|ω| ≤ maxAngularVelocity`: in one tick, for every input and every state whose
stored linear speed is not negative (the stored angular speed, which may be
negative, the PID state and the queued goal are arbitrary), and hence in every
tick of every run of `smoothFollow`, whose stored linear speed starts at `0`.
The square root of a negative number in the lateral block and the division by
zero in the next-goal block are part of the statement (`sqrtRoot`, `sqrtQuot`);
the hypotheses on `maxLinearAcceleration`, `forwardObstacleThreshold` and
`maxAngleDev = atan2(maxLateralDev, 1) ≠ 0` keep the square root and the
division of the linear block within the finite numbers, and the square root is
only assumed non-negative on non-negative numbers. -/
theorem C11_follow_tick_velocity_bounds (mb : MoveSmooth α) (fm : FloatMath α)
    (cos : α → α) (cc : CollisionChecker α)
    (hL : 0 ≤ mb.maxLinearVelocity) (hA : 0 ≤ mb.maxAngularVelocity)
    (hAcc : 0 ≤ mb.maxLinearAcceleration) (hThr : 0 ≤ mb.forwardObstacleThreshold)
    (_hDev : fm.atan2 mb.maxLateralDev 1 ≠ 0)
    (hsqrt : ∀ x, 0 ≤ x → 0 ≤ fm.sqrt x) :
    (∀ (s : FollowState α) (t : FollowTick α) (omega v : α),
      0 ≤ s.previousLinearVelocity →
      Event.cmd omega v ∈ (mb.followBody fm cos cc s t).1 →
      |v| ≤ mb.maxLinearVelocity ∧ |omega| ≤ mb.maxAngularVelocity) ∧
    (∀ (start : FollowStart α) (ticks : List (FollowTick α)) (omega v : α),
      Event.cmd omega v ∈ (mb.smoothFollow fm cos cc start ticks).1 →
      |v| ≤ mb.maxLinearVelocity ∧ |omega| ≤ mb.maxAngularVelocity) := by
  constructor
  · intro s t omega v hs hmem
    exact followBody_cmd_bounds mb fm cos cc s t hL hA hAcc hThr hsqrt hs omega v hmem
  · intro start ticks omega v hmem
    unfold MoveSmooth.smoothFollow at hmem
    by_cases hp : start.poseOk = false
    · rw [if_pos hp] at hmem
      simp only [List.mem_singleton, reduceCtorEq] at hmem
    · rw [if_neg hp] at hmem
      dsimp only at hmem
      exact followLoop_cmd_bounds mb fm cos cc hL hA hAcc hThr hsqrt ticks _ (le_refl _)
        omega v hmem

end Controller

/-! ## `rotate` -/

section Controller

variable {α : Type} [LinearOrderedField α]

/-- The tick of `rotate` in which the pose lookup succeeds, the assertions of
`normalizeAngle` hold and no preemption is requested: an optional stop command
followed by the signed ramp command. -/
theorem rotateBody_eval (mb : MoveSmooth α) (fm : FloatMath α) (cc : CollisionChecker α)
    (fo : α) (s : RotateState α) (t : RotateTick α) (ar m : α)
    (hpose : t.poseOk = true)
    (hass : normalizeAngle_asserts fm (t.rawAngle fo) = true)
    (har : normalizeAngle fm (t.rawAngle fo) = ar)
    (hm : rotateObstacleAngle fm cc ar t.points = m)
    (hpre : t.preempt = false) :
    mb.rotateBody fm cc fo s t =
      ((if decide (|ar| < mb.angleTolerance ∨
            (if sign s.previousAngleRemaining ≠ sign ar then s.oscillations + 1
              else s.oscillations) > 2) = true then [sendCmd t.stop 0 0] else []) ++
        [sendCmd t.stop
          (if ar < 0 then
            -(if t.newGoal = true then 0 else mb.limitAngularVelocity
              (fm.sqrt (s.previousAngularVelocity + 2 * mb.maxAngularAcceleration * m)))
          else (if t.newGoal = true then 0 else mb.limitAngularVelocity
              (fm.sqrt (s.previousAngularVelocity + 2 * mb.maxAngularAcceleration * m)))) 0],
       Step.next ⟨ar,
         (if t.newGoal = true then 0 else mb.limitAngularVelocity
           (fm.sqrt (s.previousAngularVelocity + 2 * mb.maxAngularAcceleration * m))),
         (if sign s.previousAngleRemaining ≠ sign ar then s.oscillations + 1
           else s.oscillations),
         (if t.newGoal = true then true else
           decide (|ar| < mb.angleTolerance ∨
            (if sign s.previousAngleRemaining ≠ sign ar then s.oscillations + 1
              else s.oscillations) > 2))⟩) := by
  unfold MoveSmooth.rotateBody
  have h1 : ¬ (t.poseOk = false) := by rw [hpose]; exact Bool.noConfusion
  have h2 : ¬ (normalizeAngle_asserts fm (t.rawAngle fo) = false) := by
    rw [hass]; exact Bool.noConfusion
  have h3 : ¬ (t.preempt = true) := by rw [hpre]; exact Bool.noConfusion
  rw [if_neg h1, if_neg h2]
  dsimp only
  rw [if_neg h3, har, hm]

theorem sendCmd_zero_angular (stop : Bool) (omega v : α)
    (h : Event.cmd omega v = sendCmd stop 0 0) : omega = 0 := by
  unfold sendCmd at h
  simp only [ite_self, Event.cmd.injEq] at h
  exact h.1

theorem sendCmd_angular (stop : Bool) (omega v a l : α)
    (h : Event.cmd omega v = sendCmd stop a l) : omega = 0 ∨ omega = a := by
  unfold sendCmd at h
  simp only [Event.cmd.injEq] at h
  cases stop
  · right; simpa using h.1
  · left; simpa using h.1

theorem mem_stop_first (c : Prop) [Decidable c] (stop : Bool) (omega v : α)
    (h : Event.cmd omega v ∈ (if c then [sendCmd stop 0 0] else [])) : omega = 0 := by
  split_ifs at h
  · exact sendCmd_zero_angular stop omega v (List.mem_singleton.mp h)
  · exact absurd h (List.not_mem_nil _)

/-- The ramp value of `rotate` lies between `0` and the square root it clamps. -/
theorem ramp_bounds (mb : MoveSmooth α) (fm : FloatMath α)
    (hM : 0 ≤ mb.maxAngularVelocity) (hsqrt : ∀ x, 0 ≤ fm.sqrt x) (x : α) :
    mb.limitAngularVelocity (fm.sqrt x) = min mb.maxAngularVelocity (fm.sqrt x) ∧
    0 ≤ mb.limitAngularVelocity (fm.sqrt x) ∧
    mb.limitAngularVelocity (fm.sqrt x) ≤ fm.sqrt x := by
  have h0 : 0 ≤ min mb.maxAngularVelocity (fm.sqrt x) := le_min hM (hsqrt x)
  have e : mb.limitAngularVelocity (fm.sqrt x) = min mb.maxAngularVelocity (fm.sqrt x) := by
    unfold MoveSmooth.limitAngularVelocity
    exact max_eq_right (by linarith)
  rw [e]
  exact ⟨rfl, h0, min_le_right _ _⟩

/-- C17 (amended): in every tick of `rotate`, with non-negative
`maxAngularVelocity`, `maxAngularAcceleration` and stored previous speed, every
published angular speed `ω` satisfies
`ω² ≤ previousAngularVelocity + 2 · maxAngularAcceleration · min(|angleRemaining|, |obstacle|)`. -/
theorem C17_rotate_speed_bound (mb : MoveSmooth α) (fm : FloatMath α)
    (cc : CollisionChecker α) (fo : α) (s : RotateState α) (t : RotateTick α)
    (hM : 0 ≤ mb.maxAngularVelocity) (hacc : 0 ≤ mb.maxAngularAcceleration)
    (hp : 0 ≤ s.previousAngularVelocity)
    (hsqrt : ∀ x, 0 ≤ fm.sqrt x) (hsq : ∀ x, 0 ≤ x → fm.sqrt x * fm.sqrt x = x)
    (omega v : α) (hmem : Event.cmd omega v ∈ (mb.rotateBody fm cc fo s t).1) :
    omega * omega ≤ s.previousAngularVelocity + 2 * mb.maxAngularAcceleration *
      rotateObstacleAngle fm cc (normalizeAngle fm (t.rawAngle fo)) t.points := by
  have hm : 0 ≤ rotateObstacleAngle fm cc (normalizeAngle fm (t.rawAngle fo)) t.points :=
    le_min (abs_nonneg _) (abs_nonneg _)
  have hX : 0 ≤ s.previousAngularVelocity + 2 * mb.maxAngularAcceleration *
      rotateObstacleAngle fm cc (normalizeAngle fm (t.rawAngle fo)) t.points := by
    have := mul_nonneg hacc hm
    linarith
  obtain ⟨-, hr0, hr1⟩ := ramp_bounds mb fm hM hsqrt (s.previousAngularVelocity +
    2 * mb.maxAngularAcceleration *
      rotateObstacleAngle fm cc (normalizeAngle fm (t.rawAngle fo)) t.points)
  have hramp : mb.limitAngularVelocity (fm.sqrt (s.previousAngularVelocity +
      2 * mb.maxAngularAcceleration *
        rotateObstacleAngle fm cc (normalizeAngle fm (t.rawAngle fo)) t.points)) *
      mb.limitAngularVelocity (fm.sqrt (s.previousAngularVelocity +
      2 * mb.maxAngularAcceleration *
        rotateObstacleAngle fm cc (normalizeAngle fm (t.rawAngle fo)) t.points)) ≤
      s.previousAngularVelocity + 2 * mb.maxAngularAcceleration *
        rotateObstacleAngle fm cc (normalizeAngle fm (t.rawAngle fo)) t.points := by
    exact le_trans (mul_le_mul hr1 hr1 hr0 (hsqrt _)) (le_of_eq (hsq _ hX))
  have hzero : omega = 0 → omega * omega ≤ s.previousAngularVelocity +
      2 * mb.maxAngularAcceleration *
        rotateObstacleAngle fm cc (normalizeAngle fm (t.rawAngle fo)) t.points := by
    intro h; rw [h, mul_zero]; exact hX
  by_cases hpose : t.poseOk = true
  swap
  · unfold MoveSmooth.rotateBody at hmem
    rw [if_pos (by simpa using hpose)] at hmem
    exact absurd hmem (List.not_mem_nil _)
  by_cases hass : normalizeAngle_asserts fm (t.rawAngle fo) = true
  swap
  · unfold MoveSmooth.rotateBody at hmem
    rw [if_neg (by simp [hpose]), if_pos (by simpa using hass)] at hmem
    exact absurd hmem (List.not_mem_nil _)
  by_cases hpre : t.preempt = true
  · unfold MoveSmooth.rotateBody at hmem
    rw [if_neg (by simp [hpose]), if_neg (by simp [hass])] at hmem
    dsimp only at hmem
    rw [if_pos hpre, List.mem_append] at hmem
    rcases hmem with h | h
    · exact hzero (mem_stop_first _ _ _ _ h)
    · simp only [List.mem_cons, List.mem_singleton, List.not_mem_nil, or_false,
        reduceCtorEq] at h
      exact hzero (sendCmd_zero_angular _ _ _ h)
  · rw [rotateBody_eval mb fm cc fo s t _ _ hpose hass rfl rfl (by simpa using hpre),
      List.mem_append] at hmem
    rcases hmem with h | h
    · exact hzero (mem_stop_first _ _ _ _ h)
    · rcases sendCmd_angular _ _ _ _ _ (List.mem_singleton.mp h) with h0 | h1
      · exact hzero h0
      · rw [h1]
        have hav : (if t.newGoal = true then (0 : α) else mb.limitAngularVelocity
            (fm.sqrt (s.previousAngularVelocity + 2 * mb.maxAngularAcceleration *
              rotateObstacleAngle fm cc (normalizeAngle fm (t.rawAngle fo)) t.points))) *
            (if t.newGoal = true then (0 : α) else mb.limitAngularVelocity
            (fm.sqrt (s.previousAngularVelocity + 2 * mb.maxAngularAcceleration *
              rotateObstacleAngle fm cc (normalizeAngle fm (t.rawAngle fo)) t.points))) ≤
            s.previousAngularVelocity + 2 * mb.maxAngularAcceleration *
              rotateObstacleAngle fm cc (normalizeAngle fm (t.rawAngle fo)) t.points := by
          by_cases hng : t.newGoal = true
          · rw [if_pos hng, mul_zero]; exact hX
          · rw [if_neg hng]; exact hramp
        by_cases hneg : normalizeAngle fm (t.rawAngle fo) < 0
        · rw [if_pos hneg, neg_mul_neg]; exact hav
        · rw [if_neg hneg]; exact hav

end Controller

/-! ### Concrete runs over the reals -/

theorem real_normalize_small (x : ℝ) (h1 : -3 ≤ x) (h2 : x ≤ 3) :
    normalizeAngle realMath x = x ∧ normalizeAngle_asserts realMath x = true := by
  have h3 := Real.pi_gt_three
  have hp : realMath.pi = Real.pi := rfl
  constructor
  · rcases normalizeAngle_cases realMath x with ⟨h, -⟩ | ⟨h, -⟩ | ⟨-, e⟩
    · rw [hp] at h; linarith
    · rw [hp] at h; linarith
    · exact e
  · rw [normalizeAngle_asserts_iff realMath Real.pi_pos x, hp]
    exact ⟨by linarith, by linarith, by intro h; linarith, by intro h; linarith⟩

theorem rotateObstacleAngle_nil_small (cc : CollisionChecker ℝ) (x : ℝ) (h1 : 0 ≤ x)
    (h2 : x ≤ 3) : rotateObstacleAngle realMath cc x [] = x := by
  have h3 := Real.pi_gt_three
  have e : ∀ b, obstacle_angle realMath cc b [] = Real.pi := fun _ => rfl
  unfold rotateObstacleAngle
  rw [e, abs_of_nonneg h1, abs_of_pos Real.pi_pos]
  exact min_eq_left (by linarith)

theorem real_sqrt_of_sq (x y : ℝ) (hy : 0 ≤ y) (h : y * y = x) : realMath.sqrt x = y := by
  show Real.sqrt x = y
  rw [← h]
  exact Real.sqrt_mul_self hy

/-- A tick of `rotate` over the reals with a successful pose lookup, no obstacle
point, no new goal, no preemption, the force-stop flag clear and a raw angle
between `0` and `3`. -/
theorem rotateBody_real_plain (mb : MoveSmooth ℝ) (cc : CollisionChecker ℝ) (fo : ℝ)
    (s : RotateState ℝ) (ok : Bool) (yaw ar : ℝ) (har : fo - -yaw = ar) (h0 : 0 ≤ ar)
    (h3 : ar ≤ 3) :
    mb.rotateBody realMath cc fo s ⟨ok, true, yaw, [], false, false, false⟩ =
      ((if decide (ar < mb.angleTolerance ∨
            (if sign s.previousAngleRemaining ≠ sign ar then s.oscillations + 1
              else s.oscillations) > 2) = true then [Event.cmd 0 0] else []) ++
        [Event.cmd (mb.limitAngularVelocity
          (realMath.sqrt (s.previousAngularVelocity + 2 * mb.maxAngularAcceleration * ar))) 0],
       Step.next ⟨ar,
         mb.limitAngularVelocity
           (realMath.sqrt (s.previousAngularVelocity + 2 * mb.maxAngularAcceleration * ar)),
         (if sign s.previousAngleRemaining ≠ sign ar then s.oscillations + 1
           else s.oscillations),
         decide (ar < mb.angleTolerance ∨
            (if sign s.previousAngleRemaining ≠ sign ar then s.oscillations + 1
              else s.oscillations) > 2)⟩) := by
  have hraw : RotateTick.rawAngle fo (⟨ok, true, yaw, [], false, false, false⟩ :
      RotateTick ℝ) = ar := har
  obtain ⟨e1, e2⟩ := real_normalize_small ar (by linarith) h3
  rw [rotateBody_eval mb realMath cc fo s _ ar ar rfl (by rw [hraw]; exact e2)
    (by rw [hraw]; exact e1) (rotateObstacleAngle_nil_small cc ar h0 h3) rfl]
  simp only [sendCmd, Bool.false_eq_true, if_false, abs_of_nonneg h0, if_neg (not_lt.mpr h0)]


theorem limit_defaults_sqrt (x y : ℝ) (hy0 : 0 ≤ y) (hy2 : y ≤ 2) (h : y * y = x) :
    (MoveSmooth.defaults : MoveSmooth ℝ).limitAngularVelocity (realMath.sqrt x) = y := by
  rw [real_sqrt_of_sq x y hy0 h]
  unfold MoveSmooth.limitAngularVelocity
  have hM : (MoveSmooth.defaults : MoveSmooth ℝ).maxAngularVelocity = 2 := rfl
  rw [hM, min_eq_right hy2, max_eq_right (by linarith)]

theorem sign_nonneg_real (x : ℝ) (h : 0 ≤ x) : sign x = 1 := by
  unfold sign
  rw [if_neg (not_lt.mpr h)]

/-- C12, the code at a failing input: default parameters, target yaw `1/40`,
current yaw `0`, no new goal, no preemption.  The remaining angle `1/40` is
below `angleTolerance = 0.1`, so the tick publishes `(0, 0)` and sets `done`;
it then still publishes the ramp command `(1/2, 0)`, and `rotate` returns
`true` with that as its last command. -/
theorem C12_completed_tick_resends_ramp :
    MoveSmooth.rotate (MoveSmooth.defaults : MoveSmooth ℝ) realMath
      ⟨10, 8 / 100, 9 / 100, 19 / 100⟩ (1 / 40)
      [⟨true, true, 0, [], false, false, false⟩] =
      ([Event.cmd 0 0, Event.cmd (1 / 2) 0], Outcome.returned true) := by
  obtain ⟨e1, e2⟩ := real_normalize_small (1 / 40) (by norm_num) (by norm_num)
  unfold MoveSmooth.rotate
  rw [if_neg (by rw [e2]; exact Bool.noConfusion), e1]
  simp only [MoveSmooth.rotateLoop]
  rw [rotateBody_real_plain _ _ (1 / 40) _ true 0 (1 / 40) (by norm_num) (by norm_num)
    (by norm_num)]
  have hs : (MoveSmooth.defaults : MoveSmooth ℝ).limitAngularVelocity
      (realMath.sqrt (0 + 2 * (MoveSmooth.defaults : MoveSmooth ℝ).maxAngularAcceleration *
        (1 / 40))) = 1 / 2 :=
    limit_defaults_sqrt _ (1 / 2) (by norm_num) (by norm_num)
      (by show (1 / 2 : ℝ) * (1 / 2) = 0 + 2 * 5 * (1 / 40); norm_num)
  have ht : (MoveSmooth.defaults : MoveSmooth ℝ).angleTolerance = 1 / 10 := rfl
  simp only [hs, ht, sign_nonneg_real 0 (le_refl 0), sign_nonneg_real (1 / 40) (by norm_num)]
  norm_num

/-- The first tick shared by the runs below: target yaw `2/5`, current yaw `0`,
default parameters; the command `(2, 0)` is published and stored as the
previous speed. -/
theorem rotate_first_tick (cc : CollisionChecker ℝ) (ok : Bool) :
    (MoveSmooth.defaults : MoveSmooth ℝ).rotateBody realMath cc (2 / 5) ⟨0, 0, 0, false⟩
      ⟨ok, true, 0, [], false, false, false⟩ =
      ([Event.cmd 2 0], Step.next ⟨2 / 5, 2, 0, false⟩) := by
  rw [rotateBody_real_plain _ _ (2 / 5) _ ok 0 (2 / 5) (by norm_num) (by norm_num)
    (by norm_num)]
  have hs : (MoveSmooth.defaults : MoveSmooth ℝ).limitAngularVelocity
      (realMath.sqrt (0 + 2 * (MoveSmooth.defaults : MoveSmooth ℝ).maxAngularAcceleration *
        (2 / 5))) = 2 :=
    limit_defaults_sqrt _ 2 (by norm_num) (by norm_num)
      (by show (2 : ℝ) * 2 = 0 + 2 * 5 * (2 / 5); norm_num)
  have ht : (MoveSmooth.defaults : MoveSmooth ℝ).angleTolerance = 1 / 10 := rfl
  simp only [hs, ht, sign_nonneg_real 0 (le_refl 0), sign_nonneg_real (2 / 5) (by norm_num)]
  norm_num

/-- C14, the code at a failing input: default parameters, target yaw `2/5`; the
first tick publishes `(2, 0)`, in the second tick the pose lookup fails and
`rotate` returns `false` without publishing anything more. -/
theorem C14_rotate_pose_failure_keeps_moving :
    MoveSmooth.rotate (MoveSmooth.defaults : MoveSmooth ℝ) realMath
      ⟨10, 8 / 100, 9 / 100, 19 / 100⟩ (2 / 5)
      [⟨true, true, 0, [], false, false, false⟩,
       ⟨true, false, 0, [], false, false, false⟩] =
      ([Event.cmd 2 0], Outcome.returned false) := by
  obtain ⟨e1, e2⟩ := real_normalize_small (2 / 5) (by norm_num) (by norm_num)
  unfold MoveSmooth.rotate
  rw [if_neg (by rw [e2]; exact Bool.noConfusion), e1]
  simp only [MoveSmooth.rotateLoop]
  rw [rotate_first_tick]
  simp [MoveSmooth.rotateBody]

/-- The second tick of the run used against C17 and C18: previous speed `2`,
remaining angle `17/160`; the command is `(7/4, 0)`. -/
theorem rotate_second_tick (cc : CollisionChecker ℝ) :
    (MoveSmooth.defaults : MoveSmooth ℝ).rotateBody realMath cc (2 / 5) ⟨2 / 5, 2, 0, false⟩
      ⟨true, true, -(47 / 160), [], false, false, false⟩ =
      ([Event.cmd (7 / 4) 0], Step.next ⟨17 / 160, 7 / 4, 0, false⟩) := by
  rw [rotateBody_real_plain _ _ (2 / 5) _ true (-(47 / 160)) (17 / 160) (by norm_num)
    (by norm_num) (by norm_num)]
  have hs : (MoveSmooth.defaults : MoveSmooth ℝ).limitAngularVelocity
      (realMath.sqrt (2 + 2 * (MoveSmooth.defaults : MoveSmooth ℝ).maxAngularAcceleration *
        (17 / 160))) = 7 / 4 :=
    limit_defaults_sqrt _ (7 / 4) (by norm_num) (by norm_num)
      (by show (7 / 4 : ℝ) * (7 / 4) = 2 + 2 * 5 * (17 / 160); norm_num)
  have ht : (MoveSmooth.defaults : MoveSmooth ℝ).angleTolerance = 1 / 10 := rfl
  simp only [hs, ht, sign_nonneg_real (2 / 5) (by norm_num),
    sign_nonneg_real (17 / 160) (by norm_num)]
  norm_num

/-- The run used against C17 and C18: default parameters, target yaw `2/5`,
current yaw `0` and then `-47/160` (remaining angle `17/160`); the commands are
`(2, 0)` and `(7/4, 0)`. -/
theorem rotate_two_ticks :
    MoveSmooth.rotate (MoveSmooth.defaults : MoveSmooth ℝ) realMath
      ⟨10, 8 / 100, 9 / 100, 19 / 100⟩ (2 / 5)
      [⟨true, true, 0, [], false, false, false⟩,
       ⟨true, true, -(47 / 160), [], false, false, false⟩] =
      ([Event.cmd 2 0, Event.cmd (7 / 4) 0], Outcome.running) := by
  obtain ⟨e1, e2⟩ := real_normalize_small (2 / 5) (by norm_num) (by norm_num)
  unfold MoveSmooth.rotate
  rw [if_neg (by rw [e2]; exact Bool.noConfusion), e1]
  simp only [MoveSmooth.rotateLoop]
  rw [rotate_first_tick]
  simp only [Bool.false_eq_true, if_false]
  rw [rotate_second_tick]
  simp

/-- The quantity `min(|angleRemaining|, |obstacle|)` in the second tick of that
run is `17/160`. -/
theorem rotate_second_tick_margin (cc : CollisionChecker ℝ) :
    rotateObstacleAngle realMath cc
      (normalizeAngle realMath (RotateTick.rawAngle (2 / 5)
        (⟨true, true, -(47 / 160), [], false, false, false⟩ : RotateTick ℝ))) [] =
      17 / 160 := by
  have hraw : RotateTick.rawAngle (2 / 5)
      (⟨true, true, -(47 / 160), [], false, false, false⟩ : RotateTick ℝ) = 17 / 160 := by
    unfold RotateTick.rawAngle
    norm_num
  rw [hraw, (real_normalize_small (17 / 160) (by norm_num) (by norm_num)).1]
  exact rotateObstacleAngle_nil_small cc (17 / 160) (by norm_num) (by norm_num)

/-- C17 as stated fails: in the second tick of the run above the published
speed is `7/4`, and `(7/4)² = 49/16` exceeds
`2 · maxAngularAcceleration · min(|angleRemaining|, |obstacle|) = 2 · 5 · 17/160`. -/
theorem C17_counterexample :
    MoveSmooth.rotate (MoveSmooth.defaults : MoveSmooth ℝ) realMath
      ⟨10, 8 / 100, 9 / 100, 19 / 100⟩ (2 / 5)
      [⟨true, true, 0, [], false, false, false⟩,
       ⟨true, true, -(47 / 160), [], false, false, false⟩] =
      ([Event.cmd 2 0, Event.cmd (7 / 4) 0], Outcome.running) ∧
    ¬ ((7 / 4 : ℝ) * (7 / 4) ≤
      2 * (MoveSmooth.defaults : MoveSmooth ℝ).maxAngularAcceleration *
        rotateObstacleAngle realMath ⟨10, 8 / 100, 9 / 100, 19 / 100⟩
          (normalizeAngle realMath (RotateTick.rawAngle (2 / 5)
            (⟨true, true, -(47 / 160), [], false, false, false⟩ : RotateTick ℝ))) []) := by
  refine ⟨rotate_two_ticks, ?_⟩
  rw [rotate_second_tick_margin]
  have ha : (MoveSmooth.defaults : MoveSmooth ℝ).maxAngularAcceleration = 5 := rfl
  rw [ha]
  norm_num

/-- C17 (amended) at the second tick of that run: `(7/4)² ≤ 2 + 2 · 5 · 17/160`. -/
theorem C17_rotate_speed_bound_witness :
    (7 / 4 : ℝ) * (7 / 4) ≤
      2 + 2 * (MoveSmooth.defaults : MoveSmooth ℝ).maxAngularAcceleration *
        rotateObstacleAngle realMath ⟨10, 8 / 100, 9 / 100, 19 / 100⟩
          (normalizeAngle realMath (RotateTick.rawAngle (2 / 5)
            (⟨true, true, -(47 / 160), [], false, false, false⟩ : RotateTick ℝ))) [] :=
  C17_rotate_speed_bound (MoveSmooth.defaults : MoveSmooth ℝ) realMath
    ⟨10, 8 / 100, 9 / 100, 19 / 100⟩ (2 / 5) ⟨2 / 5, 2, 0, false⟩
    ⟨true, true, -(47 / 160), [], false, false, false⟩
    (by show (0 : ℝ) ≤ 2; norm_num) (by show (0 : ℝ) ≤ 5; norm_num)
    (by show (0 : ℝ) ≤ 2; norm_num) Real.sqrt_nonneg (fun x hx => Real.mul_self_sqrt hx)
    (7 / 4) 0 (by rw [rotate_second_tick]; exact List.mem_singleton.mpr rfl)

section Controller

variable {α : Type} [LinearOrderedField α]

/-- A tick of `smoothFollow` whose obstacle distance is at or below the
threshold publishes `(0, 0)` and goes on with the state unchanged, whatever
the preemption flag says. -/
theorem followBody_blocked (mb : MoveSmooth α) (fm : FloatMath α) (cos : α → α)
    (cc : CollisionChecker α) (s : FollowState α) (t : FollowTick α)
    (hpose : t.poseOk = true)
    (hass : normalizeAngle_asserts fm (t.rawAngle fm) = true)
    (hb : t.obstacleDist fm cc ≤ mb.forwardObstacleThreshold) :
    mb.followBody fm cos cc s t = ([sendCmd t.stop 0 0], Step.next s) := by
  unfold MoveSmooth.followBody
  rw [if_neg (by rw [hpose]; exact Bool.noConfusion),
    if_neg (by rw [hass]; exact Bool.noConfusion)]
  dsimp only
  rw [if_pos hb]

/-- The same tick with a queued goal that can be transformed: the linear
velocity is the one of the "Next goal state" block. -/
theorem followBody_drive_next (mb : MoveSmooth α) (fm : FloatMath α) (cos : α → α)
    (cc : CollisionChecker α) (s : FollowState α) (t : FollowTick α)
    (hpose : t.poseOk = true)
    (hass : normalizeAngle_asserts fm (t.rawAngle fm) = true)
    (hb : mb.forwardObstacleThreshold < t.obstacleDist fm cc)
    (hpre : t.preempt = false)
    (hra : ¬ (runawayCondition fm cos s t = true ∧ t.now - s.last > mb.runawayTimeoutSecs))
    (hnf : mb.maxLateralDev ≤ t.distRemaining fm)
    (hng : t.newGoal = true) (hok : t.nextGoalOk = true)
    (hna : normalizeAngle_asserts fm (fm.atan2 t.nextRemaining.y t.nextRemaining.x) = true) :
    mb.followBody fm cos cc s t =
      ([sendCmd t.stop
          (mb.lateralControl fm s.previousAngularVelocity t.remaining.y s.prevLateralError
            (s.lateralIntegral + t.remaining.y)
            (rotateObstacleAngle fm cc (t.angleRemaining fm) t.points))
          (mb.nextGoalVelocity fm cos
            (mb.linearControl fm s.previousLinearVelocity (t.angleRemaining fm)
              (t.obstacleDist fm cc) (t.distRemaining fm)) t.nextRemaining)],
        Step.next ⟨if runawayCondition fm cos s t = true then s.last else t.now,
          t.distRemaining fm,
          mb.nextGoalVelocity fm cos
            (mb.linearControl fm s.previousLinearVelocity (t.angleRemaining fm)
              (t.obstacleDist fm cc) (t.distRemaining fm)) t.nextRemaining,
          mb.lateralControl fm s.previousAngularVelocity t.remaining.y s.prevLateralError
            (s.lateralIntegral + t.remaining.y)
            (rotateObstacleAngle fm cc (t.angleRemaining fm) t.points),
          s.lateralIntegral + t.remaining.y, t.remaining.y⟩) := by
  unfold MoveSmooth.followBody
  rw [if_neg (by rw [hpose]; exact Bool.noConfusion),
    if_neg (by rw [hass]; exact Bool.noConfusion)]
  dsimp only
  rw [if_neg (not_le.mpr hb), if_neg (by rw [hpre]; exact Bool.noConfusion), if_neg hra,
    if_neg (not_lt.mpr hnf), if_pos hng, if_neg (by rw [hok]; exact Bool.noConfusion),
    if_neg (by rw [hna]; exact Bool.noConfusion)]

end Controller

section Controller

variable {α : Type} [LinearOrderedField α]

/-- While every tick is obstacle-blocked the loop of `smoothFollow` publishes
`(0, 0)` once per tick and neither returns nor reports anything to the action
server. -/
theorem followLoop_all_blocked (mb : MoveSmooth α) (fm : FloatMath α) (cos : α → α)
    (cc : CollisionChecker α) (s : FollowState α) (ticks : List (FollowTick α))
    (h : ∀ t ∈ ticks, t.ok = true ∧ t.poseOk = true ∧
      normalizeAngle_asserts fm (t.rawAngle fm) = true ∧
      t.obstacleDist fm cc ≤ mb.forwardObstacleThreshold) :
    mb.followLoop fm cos cc s ticks =
      (ticks.map (fun t => sendCmd t.stop 0 0), Outcome.running) := by
  induction ticks with
  | nil => rfl
  | cons t ts ih =>
    obtain ⟨hok, hpose, hass, hb⟩ := h t (List.mem_cons_self t ts)
    rw [MoveSmooth.followLoop, if_neg (by rw [hok]; exact Bool.noConfusion),
      followBody_blocked mb fm cos cc s t hpose hass hb]
    dsimp only
    rw [ih (fun u hu => h u (List.mem_cons_of_mem t hu))]
    rfl

end Controller

/-! ### Concrete runs of `smoothFollow` over the reals -/

theorem obstacleDist_real (cc : CollisionChecker ℝ) (t : FollowTick ℝ) :
    t.obstacleDist realMath cc = t.forwardObstacleDist := by
  have h : ¬ (t.distRemaining realMath < 0) := not_lt.mpr (Real.sqrt_nonneg _)
  unfold FollowTick.obstacleDist
  rw [if_neg h]

theorem follow_angle_real (t : FollowTick ℝ)
    (h : ¬ (t.remaining.x < 0 ∧ t.remaining.y = 0)) :
    normalizeAngle_asserts realMath (t.rawAngle realMath) = true ∧
    t.angleRemaining realMath = Complex.arg ⟨t.remaining.x, t.remaining.y⟩ := by
  have hraw : t.rawAngle realMath = Complex.arg ⟨t.remaining.x, t.remaining.y⟩ := rfl
  have h1 := Complex.neg_pi_lt_arg ⟨t.remaining.x, t.remaining.y⟩
  have h2 := Complex.arg_le_pi ⟨t.remaining.x, t.remaining.y⟩
  have h3 : Complex.arg ⟨t.remaining.x, t.remaining.y⟩ ≠ Real.pi := by
    intro e
    exact h (Complex.arg_eq_pi_iff.mp e)
  have hp : realMath.pi = Real.pi := rfl
  have hpi := Real.pi_pos
  constructor
  · rw [normalizeAngle_asserts_iff realMath Real.pi_pos, hraw, hp]
    exact ⟨by linarith, by linarith, by intro e; linarith, h3⟩
  · unfold FollowTick.angleRemaining
    rcases normalizeAngle_cases realMath (t.rawAngle realMath) with ⟨h, -⟩ | ⟨h, -⟩ | ⟨-, e⟩
    · rw [hraw, hp] at h; linarith
    · rw [hraw, hp] at h; linarith
    · rw [e, hraw]

theorem dist_real (t : FollowTick ℝ) (d : ℝ) (hd : 0 ≤ d)
    (h : d * d = t.remaining.x * t.remaining.x + t.remaining.y * t.remaining.y) :
    t.distRemaining realMath = d :=
  real_sqrt_of_sq _ d hd h

/-- C13, the code at a failing input: default parameters, goal 2 m straight
ahead, `forwardObstacleDist = 0.3 ≤ 0.5` and preemption requested in both
ticks.  Each tick only publishes `(0, 0)`; the goal is not marked preempted
and `smoothFollow` does not return. -/
theorem C13_preempt_ignored_while_blocked :
    MoveSmooth.smoothFollow (MoveSmooth.defaults : MoveSmooth ℝ) realMath Real.cos
      ⟨10, 8 / 100, 9 / 100, 19 / 100⟩ ⟨true, ⟨0, 0, 0⟩, ⟨2, 0, 0⟩, 0⟩
      [⟨true, true, ⟨2, 0, 0⟩, [], [], 3 / 10, ⟨0, 0, 0⟩, ⟨0, 0, 0⟩, true, 1 / 50, false,
          false, ⟨0, 0, 0⟩, false⟩,
       ⟨true, true, ⟨2, 0, 0⟩, [], [], 3 / 10, ⟨0, 0, 0⟩, ⟨0, 0, 0⟩, true, 2 / 50, false,
          false, ⟨0, 0, 0⟩, false⟩] =
      ([Event.cmd 0 0, Event.cmd 0 0], Outcome.running) := by
  unfold MoveSmooth.smoothFollow
  rw [if_neg (by exact Bool.noConfusion)]
  dsimp only
  rw [followLoop_all_blocked]
  · simp [sendCmd]
  · intro t ht
    have hthr : (MoveSmooth.defaults : MoveSmooth ℝ).forwardObstacleThreshold = 1 / 2 := rfl
    simp only [List.mem_cons, List.mem_singleton, List.not_mem_nil, or_false] at ht
    rcases ht with ht | ht <;> subst ht <;>
      refine ⟨rfl, rfl, (follow_angle_real _ (by norm_num)).1, ?_⟩ <;>
      rw [obstacleDist_real, hthr] <;> norm_num

/-- C15, the code at a failing input: default parameters, a goal 2 m ahead that
passes all checks of `executeAction`; in the first tick of `smoothFollow` the
pose lookup fails.  `executeAction` returns without any call of `setAborted`
(without any event at all). -/
theorem C15_pose_failure_not_aborted :
    MoveSmooth.executeAction (MoveSmooth.defaults : MoveSmooth ℝ) realMath Real.cos
      ⟨10, 8 / 100, 9 / 100, 19 / 100⟩
      ⟨false, true, true, true, true, 0, ⟨2, 0, 0⟩, ⟨true, ⟨0, 0, 0⟩, ⟨2, 0, 0⟩, 0⟩,
        [⟨true, false, ⟨2, 0, 0⟩, [], [], 10, ⟨0, 0, 0⟩, ⟨0, 0, 0⟩, false, 1 / 50, false,
          false, ⟨0, 0, 0⟩, false⟩],
        false, []⟩ =
      ([], Outcome.returned ()) := by
  have hs : realMath.sqrt ((2 : ℝ) * 2 + 0 * 0) = 2 :=
    real_sqrt_of_sq _ 2 (by norm_num) (by norm_num)
  have hl : (MoveSmooth.defaults : MoveSmooth ℝ).maxLateralDev = 1 := rfl
  unfold MoveSmooth.executeAction
  simp only [Bool.false_eq_true, Bool.true_eq_false, if_false, and_self, hs, hl]
  rw [if_pos (by norm_num)]
  simp [MoveSmooth.smoothFollow, MoveSmooth.followLoop, MoveSmooth.followBody]

section Sink

variable {α : Type} [LinearOrderedField α]

/-- C25: for every pair `(angular, linear)` handed to `sendCmd`, the
published command is `(0, 0)` when the force-stop flag is set and is
`(angular, linear)` unchanged when it is not set. -/
theorem C25_sendCmd_force_stop (angular linear : α) :
    sendCmd true angular linear = Event.cmd 0 0 ∧
      sendCmd false angular linear = Event.cmd angular linear := by
  constructor <;> simp [sendCmd]

/-- A property that every step of a fold preserves holds at the end of the
fold. -/
theorem foldl_preserves {γ β : Type} (P : γ → Prop) (f : γ → β → γ)
    (hf : ∀ m b, P m → P (f m b)) (l : List β) (m : γ) (hm : P m) : P (l.foldl f m) := by
  induction l generalizing m with
  | nil => exact hm
  | cons a l ih => exact ih _ (hf m a hm)

/-- Every call of `check_dist` keeps the running minimum strictly above the
directional offset and at most `no_obstacle_dist`. -/
theorem check_dist_window (cc : CollisionChecker α) (forward : Bool) (x m : α)
    (h : (if forward = true then cc.robot_front_length else cc.robot_back_length) < m ∧
      m ≤ cc.no_obstacle_dist) :
    (if forward = true then cc.robot_front_length else cc.robot_back_length) <
        check_dist cc x forward m ∧
      check_dist cc x forward m ≤ cc.no_obstacle_dist := by
  obtain ⟨h1, h2⟩ := h
  cases forward
  · rw [check_dist_backward]
    simp only [Bool.false_eq_true, if_false] at h1 ⊢
    split_ifs with hx
    · exact ⟨hx.1, le_trans (le_of_lt hx.2) h2⟩
    · exact ⟨h1, h2⟩
  · rw [check_dist_forward]
    simp only [if_true] at h1 ⊢
    split_ifs with hx
    · exact ⟨hx.1, le_trans (le_of_lt hx.2) h2⟩
    · exact ⟨h1, h2⟩

/-- C30: for every footprint whose `no_obstacle_dist` is greater than the
directional offset (`robot_front_length` when forward, `robot_back_length` when
backward) and every obstacle set of segments and points, the travel distance
returned by `obstacle_dist` is strictly positive and at most `no_obstacle_dist`
minus that offset; obstacles inside the footprint do not make it zero or
negative. -/
theorem C30_travel_distance_positive (cc : CollisionChecker α) (forward : Bool)
    (lines : List (Vector3 α × Vector3 α)) (pts : List (Vector3 α)) (fl fr : Vector3 α)
    (h : (if forward = true then cc.robot_front_length else cc.robot_back_length) <
      cc.no_obstacle_dist) :
    0 < (obstacle_dist cc forward lines pts fl fr).dist ∧
      (obstacle_dist cc forward lines pts fl fr).dist ≤ cc.no_obstacle_dist -
        (if forward = true then cc.robot_front_length else cc.robot_back_length) := by
  have key : (if forward = true then cc.robot_front_length else cc.robot_back_length) <
      (pts.foldl (point_step cc forward) (lines.foldl (line_step cc forward)
        ⟨cc.no_obstacle_dist, cc.no_obstacle_dist, cc.no_obstacle_dist⟩)).min_dist ∧
      (pts.foldl (point_step cc forward) (lines.foldl (line_step cc forward)
        ⟨cc.no_obstacle_dist, cc.no_obstacle_dist, cc.no_obstacle_dist⟩)).min_dist ≤
        cc.no_obstacle_dist := by
    rw [foldl_point_step_min_dist, foldl_line_step_min_dist]
    apply foldl_preserves (fun m =>
      (if forward = true then cc.robot_front_length else cc.robot_back_length) < m ∧
        m ≤ cc.no_obstacle_dist)
    · intro m p hm
      by_cases hb : -cc.robot_width < p.y ∧ p.y < cc.robot_width
      · simp only [if_pos hb]
        exact check_dist_window cc forward p.x m hm
      · simp only [if_neg hb]
        exact hm
    · apply foldl_preserves (fun m =>
        (if forward = true then cc.robot_front_length else cc.robot_back_length) < m ∧
          m ≤ cc.no_obstacle_dist)
      · intro m l hm
        apply foldl_preserves (fun m =>
          (if forward = true then cc.robot_front_length else cc.robot_back_length) < m ∧
            m ≤ cc.no_obstacle_dist)
        · intro m1 x hm1
          exact check_dist_window cc forward x m1 hm1
        · exact hm
      · exact ⟨h, le_refl _⟩
  obtain ⟨k1, k2⟩ := key
  unfold obstacle_dist
  dsimp only
  cases forward
  · simp only [Bool.false_eq_true, if_false] at k1 ⊢
    constructor <;> linarith
  · simp only [if_true] at k1 ⊢
    constructor <;> linarith

/-- C30 at a concrete input: a point inside the footprint, forward motion. -/
theorem C30_travel_distance_positive_witness :
    (1 / 2 : ℚ) < 10 ∧
      (0 < (obstacle_dist (⟨10, 1 / 4, 1 / 2, 1 / 2⟩ : CollisionChecker ℚ) true []
          [⟨1 / 4, 0, 0⟩] ⟨0, 0, 0⟩ ⟨0, 0, 0⟩).dist ∧
        (obstacle_dist (⟨10, 1 / 4, 1 / 2, 1 / 2⟩ : CollisionChecker ℚ) true []
          [⟨1 / 4, 0, 0⟩] ⟨0, 0, 0⟩ ⟨0, 0, 0⟩).dist ≤ 10 - 1 / 2) :=
  ⟨by norm_num, C30_travel_distance_positive (⟨10, 1 / 4, 1 / 2, 1 / 2⟩ : CollisionChecker ℚ)
    true [] [⟨1 / 4, 0, 0⟩] ⟨0, 0, 0⟩ ⟨0, 0, 0⟩ (by norm_num)⟩

end Sink

/-! ## Completion of `smoothFollow` and the entry check of `executeAction` -/

section Finish

variable {α : Type} [LinearOrderedField α]

/-- C24: for every goal that passes the checks before the distance test of
`executeAction`: when its planar distance from the robot in the base frame is
at most `maxLateralDev`, `executeAction` only aborts the goal with the "already
close enough" status (no event of `smoothFollow` or `rotate`, no
`setSucceeded`); when the distance is strictly greater, `smoothFollow` runs:
the events of `executeAction` start with those of `smoothFollow`. -/
theorem C24_close_goal_aborted (mb : MoveSmooth α) (fm : FloatMath α) (cos : α → α)
    (cc : CollisionChecker α) (i : ActionInput α)
    (hyaw : i.yawIsNan = false) (hdrv : i.preferredOk = true ∨ i.alternateOk = true)
    (hpg : i.poseInGoalFrameOk = true) (hgd : i.goalInDrivingOk = true) :
    (fm.sqrt (i.goalInBase.x * i.goalInBase.x + i.goalInBase.y * i.goalInBase.y) ≤
        mb.maxLateralDev →
      mb.executeAction fm cos cc i =
        ([Event.setAborted AbortMsg.alreadyCloseEnough], Outcome.returned ())) ∧
    (fm.sqrt (i.goalInBase.x * i.goalInBase.x + i.goalInBase.y * i.goalInBase.y) >
        mb.maxLateralDev →
      ∃ rest, (mb.executeAction fm cos cc i).1 =
        (mb.smoothFollow fm cos cc i.followStart i.followTicks).1 ++ rest) := by
  have hdrv1 : ¬ (i.preferredOk = false ∧ i.alternateOk = false) := by
    rintro ⟨h1, h2⟩
    rcases hdrv with h | h
    · rw [h1] at h; exact Bool.noConfusion h
    · rw [h2] at h; exact Bool.noConfusion h
  have hexec : mb.executeAction fm cos cc i =
      if fm.sqrt (i.goalInBase.x * i.goalInBase.x + i.goalInBase.y * i.goalInBase.y) >
          mb.maxLateralDev then
        match mb.smoothFollow fm cos cc i.followStart i.followTicks with
        | (ev, Outcome.returned true) =>
          (ev ++ (mb.finishAction fm cc i).1, (mb.finishAction fm cc i).2)
        | (ev, Outcome.returned false) => (ev, Outcome.returned ())
        | (ev, Outcome.assertFailed) => (ev, Outcome.assertFailed)
        | (ev, Outcome.running) => (ev, Outcome.running)
      else ([Event.setAborted AbortMsg.alreadyCloseEnough], Outcome.returned ()) := by
    unfold MoveSmooth.executeAction
    rw [if_neg (by rw [hyaw]; exact Bool.noConfusion), if_neg hdrv1,
      if_neg (by rw [hpg]; exact Bool.noConfusion),
      if_neg (by rw [hgd]; exact Bool.noConfusion)]
  constructor
  · intro h
    rw [hexec, if_neg (not_lt.mpr h)]
  · intro h
    rw [hexec, if_pos h]
    rcases hsf : mb.smoothFollow fm cos cc i.followStart i.followTicks with ⟨ev, o⟩
    cases o with
    | returned b =>
      cases b
      · exact ⟨[], (List.append_nil ev).symm⟩
      · exact ⟨(mb.finishAction fm cc i).1, rfl⟩
    | assertFailed => exact ⟨[], (List.append_nil ev).symm⟩
    | running => exact ⟨[], (List.append_nil ev).symm⟩

/-- C24 at a concrete input over the reals: default parameters, goal at
`(0.3, 0.4)` in the base frame, at distance `0.5 ≤ 1`. -/
theorem C24_close_goal_aborted_witness :
    MoveSmooth.executeAction (MoveSmooth.defaults : MoveSmooth ℝ) realMath Real.cos
      ⟨10, 8 / 100, 9 / 100, 19 / 100⟩
      ⟨false, true, true, true, true, 0, ⟨3 / 10, 4 / 10, 0⟩,
        ⟨true, ⟨0, 0, 0⟩, ⟨3 / 10, 4 / 10, 0⟩, 0⟩, [], false, []⟩ =
      ([Event.setAborted AbortMsg.alreadyCloseEnough], Outcome.returned ()) := by
  have hl : (MoveSmooth.defaults : MoveSmooth ℝ).maxLateralDev = 1 := rfl
  exact (C24_close_goal_aborted (MoveSmooth.defaults : MoveSmooth ℝ) realMath Real.cos
    ⟨10, 8 / 100, 9 / 100, 19 / 100⟩
    ⟨false, true, true, true, true, 0, ⟨3 / 10, 4 / 10, 0⟩,
      ⟨true, ⟨0, 0, 0⟩, ⟨3 / 10, 4 / 10, 0⟩, 0⟩, [], false, []⟩
    rfl (Or.inl rfl) rfl rfl).1
    (by rw [real_sqrt_of_sq _ (1 / 2) (by norm_num) (by norm_num), hl]; norm_num)

end Finish

/-! ## The bearing-deviation bound of `smoothFollow` -/

section Derate

variable {α : Type} [LinearOrderedField α]

/-- C21 (amended): with `maxAngleDev = atan2(maxLateralDev, 1) > 0`, the
bearing-deviation bound on the linear velocity in `smoothFollow` (the first
argument of the minimum handed to `limitLinearVelocity`), as a function of
`|angleRemaining|`, falls linearly from `maxLinearVelocity` at `0` to exactly
`0` at `|angleRemaining| = 2 * maxAngleDev`, and is `0` for every larger
bearing error. -/
theorem C21_bearing_bound (mb : MoveSmooth α) (fm : FloatMath α)
    (hD : 0 < fm.atan2 mb.maxLateralDev 1) :
    (∀ pv a od dr, mb.linearControl fm pv a od dr =
      mb.limitLinearVelocity (min (mb.angularDevVelocity fm a)
        (min dr (fm.sqrt (pv + 2 * mb.maxLinearAcceleration * min od dr))))) ∧
    (∀ a, |a| ≤ 2 * fm.atan2 mb.maxLateralDev 1 →
      mb.angularDevVelocity fm a =
        mb.maxLinearVelocity * (1 - |a| / (2 * fm.atan2 mb.maxLateralDev 1))) ∧
    (∀ a, 2 * fm.atan2 mb.maxLateralDev 1 ≤ |a| → mb.angularDevVelocity fm a = 0) := by
  refine ⟨fun pv a od dr => rfl, ?_, ?_⟩
  · intro a ha
    unfold MoveSmooth.angularDevVelocity
    dsimp only
    have h0 : 0 ≤ (fm.atan2 mb.maxLateralDev 1 - |a| / 2) / fm.atan2 mb.maxLateralDev 1 :=
      div_nonneg (by linarith) (le_of_lt hD)
    rw [max_eq_left h0]
    field_simp
    ring
  · intro a ha
    unfold MoveSmooth.angularDevVelocity
    dsimp only
    have h0 : (fm.atan2 mb.maxLateralDev 1 - |a| / 2) / fm.atan2 mb.maxLateralDev 1 ≤ 0 :=
      div_nonpos_of_nonpos_of_nonneg (by linarith) (le_of_lt hD)
    rw [max_eq_right h0, zero_mul]

end Derate

/-- With the default parameters over the reals, `maxAngleDev = atan2(1, 1)` is
positive. -/
theorem maxAngleDev_defaults_pos :
    0 < realMath.atan2 (MoveSmooth.defaults : MoveSmooth ℝ).maxLateralDev 1 := by
  show 0 < Complex.arg ⟨1, (MoveSmooth.defaults : MoveSmooth ℝ).maxLateralDev⟩
  have hl : (MoveSmooth.defaults : MoveSmooth ℝ).maxLateralDev = 1 := rfl
  rw [hl]
  have h1 : 0 ≤ Complex.arg ⟨1, 1⟩ := Complex.arg_nonneg_iff.mpr (by norm_num)
  have h2 : Complex.arg ⟨1, 1⟩ ≠ 0 := by
    intro e
    have := (Complex.arg_eq_zero_iff.mp e).2
    norm_num at this
  exact lt_of_le_of_ne h1 (Ne.symm h2)

/-- C21, the claim as written fails on the code: with the default parameters
over the reals the bound at `|angleRemaining| = maxAngleDev` is
`maxLinearVelocity / 2 = 1/4`, not `0`. -/
theorem C21_counterexample :
    MoveSmooth.angularDevVelocity (MoveSmooth.defaults : MoveSmooth ℝ) realMath
      (realMath.atan2 (MoveSmooth.defaults : MoveSmooth ℝ).maxLateralDev 1) = 1 / 4 := by
  have hD := maxAngleDev_defaults_pos
  have hv : (MoveSmooth.defaults : MoveSmooth ℝ).maxLinearVelocity = 1 / 2 := rfl
  unfold MoveSmooth.angularDevVelocity
  dsimp only
  rw [abs_of_pos hD, hv]
  have h : (realMath.atan2 (MoveSmooth.defaults : MoveSmooth ℝ).maxLateralDev 1 -
      realMath.atan2 (MoveSmooth.defaults : MoveSmooth ℝ).maxLateralDev 1 / 2) /
      realMath.atan2 (MoveSmooth.defaults : MoveSmooth ℝ).maxLateralDev 1 = 1 / 2 := by
    field_simp
    ring
  rw [h]
  norm_num

/-- C21 (amended) at a concrete input: the default parameters over the reals. -/
theorem C21_bearing_bound_witness :
    0 < realMath.atan2 (MoveSmooth.defaults : MoveSmooth ℝ).maxLateralDev 1 ∧
    (∀ a : ℝ, 2 * realMath.atan2 (MoveSmooth.defaults : MoveSmooth ℝ).maxLateralDev 1 ≤ |a| →
      MoveSmooth.angularDevVelocity (MoveSmooth.defaults : MoveSmooth ℝ) realMath a = 0) :=
  ⟨maxAngleDev_defaults_pos,
    (C21_bearing_bound (MoveSmooth.defaults : MoveSmooth ℝ) realMath
      maxAngleDev_defaults_pos).2.2⟩

/-! ## The assertions of `normalizeAngle` at `±π` -/

/-- C28, the code at a failing input: a goal directly behind the robot has
bearing `atan2(0, -1) = π`, which lies in `[-π, π]`; on this input the second
assertion of `normalizeAngle` (`angle < M_PI`) does not hold, and on `-π` the
first one (`angle > -M_PI`) does not hold.  The tick of `smoothFollow` that sees
the goal at `(-1, 0)` in the base frame therefore stops at the assertion. -/
theorem C28_assert_fails_at_pi :
    realMath.atan2 0 (-1) = Real.pi ∧
    normalizeAngle_asserts realMath Real.pi = false ∧
    normalizeAngle_asserts realMath (-Real.pi) = false ∧
    MoveSmooth.followBody (MoveSmooth.defaults : MoveSmooth ℝ) realMath Real.cos
      ⟨10, 8 / 100, 9 / 100, 19 / 100⟩ ⟨0, 1, 0, 0, 0, 0⟩
      ⟨true, true, ⟨-1, 0, 0⟩, [], [], 10, ⟨0, 0, 0⟩, ⟨0, 0, 0⟩, false, 1 / 50,
        false, false, ⟨0, 0, 0⟩, false⟩ = ([], Step.assertFailed) := by
  have hp : realMath.pi = Real.pi := rfl
  have hpos := Real.pi_pos
  have harg : realMath.atan2 0 (-1) = Real.pi := by
    show Complex.arg ⟨-1, 0⟩ = Real.pi
    exact Complex.arg_eq_pi_iff.mpr ⟨by norm_num, rfl⟩
  have h1 : normalizeAngle_asserts realMath Real.pi = false := by
    rw [← Bool.not_eq_true, normalizeAngle_asserts_iff realMath Real.pi_pos, hp]
    intro h
    exact h.2.2.2 rfl
  have h2 : normalizeAngle_asserts realMath (-Real.pi) = false := by
    rw [← Bool.not_eq_true, normalizeAngle_asserts_iff realMath Real.pi_pos, hp]
    intro h
    exact h.2.2.1 rfl
  refine ⟨harg, h1, h2, ?_⟩
  unfold MoveSmooth.followBody
  rw [if_neg (by exact Bool.noConfusion)]
  have hraw : FollowTick.rawAngle realMath
      (⟨true, true, ⟨-1, 0, 0⟩, [], [], 10, ⟨0, 0, 0⟩, ⟨0, 0, 0⟩, false, 1 / 50,
        false, false, ⟨0, 0, 0⟩, false⟩ : FollowTick ℝ) = Real.pi := harg
  rw [hraw, if_pos h1]

/-! ## The oscillation counter of `rotate` -/

section Oscillation

variable {α : Type} [LinearOrderedField α]

/-- The loop variables after a tick of `rotate` that reaches the end of the
loop body. -/
theorem rotateBody_next (mb : MoveSmooth α) (fm : FloatMath α) (cc : CollisionChecker α)
    (fo : α) (s : RotateState α) (t : RotateTick α) (ev : List (Event α))
    (s1 : RotateState α) (h : mb.rotateBody fm cc fo s t = (ev, Step.next s1)) :
    s1.previousAngleRemaining = normalizeAngle fm (t.rawAngle fo) ∧
    s1.oscillations =
      (if sign s.previousAngleRemaining ≠ sign (normalizeAngle fm (t.rawAngle fo)) then
        s.oscillations + 1 else s.oscillations) ∧
    s1.done = (if t.newGoal = true then true else
      decide (|normalizeAngle fm (t.rawAngle fo)| < mb.angleTolerance ∨
        (if sign s.previousAngleRemaining ≠ sign (normalizeAngle fm (t.rawAngle fo)) then
          s.oscillations + 1 else s.oscillations) > 2)) := by
  unfold MoveSmooth.rotateBody at h
  by_cases h1 : t.poseOk = false
  · rw [if_pos h1] at h
    cases h
  · rw [if_neg h1] at h
    by_cases h2 : normalizeAngle_asserts fm (t.rawAngle fo) = false
    · rw [if_pos h2] at h
      cases h
    · rw [if_neg h2] at h
      dsimp only at h
      by_cases h3 : t.preempt = true
      · rw [if_pos h3] at h
        cases h
      · rw [if_neg h3] at h
        have h4 := (Prod.mk.inj h).2
        injection h4 with h5
        rw [← h5]
        exact ⟨rfl, rfl, rfl⟩

/-- A tick of `rotate` that leaves the function from inside the loop body
returns `false`. -/
theorem rotateBody_ret (mb : MoveSmooth α) (fm : FloatMath α) (cc : CollisionChecker α)
    (fo : α) (s : RotateState α) (t : RotateTick α) (ev : List (Event α))
    (b : Bool) (h : mb.rotateBody fm cc fo s t = (ev, Step.ret b)) : b = false := by
  unfold MoveSmooth.rotateBody at h
  by_cases h1 : t.poseOk = false
  · rw [if_pos h1] at h
    have h4 := (Prod.mk.inj h).2
    injection h4 with h5
    exact h5.symm
  · rw [if_neg h1] at h
    by_cases h2 : normalizeAngle_asserts fm (t.rawAngle fo) = false
    · rw [if_pos h2] at h
      cases h
    · rw [if_neg h2] at h
      dsimp only at h
      by_cases h3 : t.preempt = true
      · rw [if_pos h3] at h
        have h4 := (Prod.mk.inj h).2
        injection h4 with h5
        exact h5.symm
      · rw [if_neg h3] at h
        cases h

/-- Dropping the end of a sequence does not add sign changes. -/
theorem signChanges_take_le (n : Nat) (prev : α) (l : List α) :
    signChanges prev (l.take n) ≤ signChanges prev l := by
  induction l generalizing n prev with
  | nil => simp [signChanges]
  | cons a l ih =>
    cases n with
    | zero => simp [signChanges]
    | succ k =>
      simp only [List.take_succ_cons, signChanges]
      exact Nat.add_le_add_left (ih k a) _

/-- The oscillation counter after the given ticks is its starting value plus
the number of sign changes of `angleRemaining` seen so far. -/
theorem rotateStateAfter_oscillations (mb : MoveSmooth α) (fm : FloatMath α)
    (cc : CollisionChecker α) (fo : α) (ticks : List (RotateTick α))
    (s s1 : RotateState α) (h : mb.rotateStateAfter fm cc fo s ticks = some s1) :
    s1.oscillations = s.oscillations +
      (signChanges s.previousAngleRemaining
        (ticks.map (fun t => normalizeAngle fm (t.rawAngle fo))) : Int) := by
  induction ticks generalizing s with
  | nil =>
    rw [MoveSmooth.rotateStateAfter] at h
    injection h with h1
    rw [← h1]
    simp [signChanges]
  | cons t ts ih =>
    rw [MoveSmooth.rotateStateAfter] at h
    rcases hb : mb.rotateBody fm cc fo s t with ⟨ev, st⟩
    rw [hb] at h
    cases st with
    | next s2 =>
      obtain ⟨e1, e2, -⟩ := rotateBody_next mb fm cc fo s t ev s2 hb
      have h2 := ih s2 h
      rw [h2, e1, e2]
      simp only [List.map_cons, signChanges]
      split_ifs <;> push_cast <;> ring
    | ret b => cases h
    | assertFailed => cases h

/-- While the running count plus the sign changes still to come stays at most
`2` and every `angleRemaining` is at least `angleTolerance` in magnitude, the
loop of `rotate` returns `true` only through a newly available goal. -/
theorem rotateLoop_true_newGoal (mb : MoveSmooth α) (fm : FloatMath α)
    (cc : CollisionChecker α) (fo : α) (ticks : List (RotateTick α)) (s : RotateState α)
    (hd : s.done = false)
    (hinv : s.oscillations + (signChanges s.previousAngleRemaining
      (ticks.map (fun t => normalizeAngle fm (t.rawAngle fo))) : Int) ≤ 2)
    (hmag : ∀ t ∈ ticks, mb.angleTolerance ≤ |normalizeAngle fm (t.rawAngle fo)|)
    (hret : (mb.rotateLoop fm cc fo s ticks).2 = Outcome.returned true) :
    ∃ t ∈ ticks, t.newGoal = true := by
  induction ticks generalizing s with
  | nil =>
    rw [MoveSmooth.rotateLoop, if_neg (by rw [hd]; exact Bool.noConfusion)] at hret
    cases hret
  | cons t ts ih =>
    rw [MoveSmooth.rotateLoop, if_neg (by rw [hd]; exact Bool.noConfusion)] at hret
    by_cases hok : t.ok = false
    · rw [if_pos hok, hd] at hret
      cases hret
    · rw [if_neg hok] at hret
      rcases hb : mb.rotateBody fm cc fo s t with ⟨ev, st⟩
      rw [hb] at hret
      cases st with
      | next s2 =>
        obtain ⟨e1, e2, e3⟩ := rotateBody_next mb fm cc fo s t ev s2 hb
        by_cases hng : t.newGoal = true
        · exact ⟨t, List.mem_cons_self t ts, hng⟩
        · simp only [List.map_cons, signChanges] at hinv
          have hinv2 : s2.oscillations + (signChanges s2.previousAngleRemaining
              (ts.map (fun t => normalizeAngle fm (t.rawAngle fo))) : Int) ≤ 2 := by
            rw [e1, e2]
            split_ifs at hinv ⊢ <;> push_cast at hinv <;> linarith
          have hosc : s2.oscillations ≤ 2 := by
            have : (0 : Int) ≤ (signChanges s2.previousAngleRemaining
              (ts.map (fun t => normalizeAngle fm (t.rawAngle fo))) : Int) := Int.natCast_nonneg _
            linarith
          have hd2 : s2.done = false := by
            rw [e3, if_neg hng, decide_eq_false_iff_not]
            rw [← e2]
            rintro (h | h)
            · exact absurd h (not_lt.mpr (hmag t (List.mem_cons_self t ts)))
            · exact absurd h (not_lt.mpr hosc)
          obtain ⟨u, hu, hun⟩ := ih s2 hd2 hinv2
            (fun u hu => hmag u (List.mem_cons_of_mem t hu)) hret
          exact ⟨u, List.mem_cons_of_mem t hu, hun⟩
      | ret b =>
        have hbf := rotateBody_ret mb fm cc fo s t ev b hb
        rw [hbf] at hret
        cases hret
      | assertFailed => cases hret

/-- C22: for every run of `rotate` whose per-tick `angleRemaining` values
stay at or above `angleTolerance` in magnitude and change sign at most once
along the run, the oscillation counter never exceeds `2` (after any number of
ticks, whatever the sign of the first tick's error), and `rotate` returns
`true` only when a new goal has become available: it never terminates through
the oscillation guard. -/
theorem C22_single_flip_no_guard (mb : MoveSmooth α) (fm : FloatMath α)
    (cc : CollisionChecker α) (fo : α) (ticks : List (RotateTick α))
    (hmag : ∀ t ∈ ticks, mb.angleTolerance ≤ |normalizeAngle fm (t.rawAngle fo)|)
    (hflip : ∀ a rest, ticks.map (fun t => normalizeAngle fm (t.rawAngle fo)) = a :: rest →
      signChanges a rest ≤ 1) :
    (∀ n s, mb.rotateStateAfter fm cc fo ⟨0, 0, 0, false⟩ (ticks.take n) = some s →
      s.oscillations ≤ 2) ∧
    ((mb.rotateLoop fm cc fo ⟨0, 0, 0, false⟩ ticks).2 = Outcome.returned true →
      ∃ t ∈ ticks, t.newGoal = true) := by
  have hall : signChanges (0 : α) (ticks.map (fun t => normalizeAngle fm (t.rawAngle fo))) ≤ 2 := by
    have key : ∀ l : List α, (∀ a rest, l = a :: rest → signChanges a rest ≤ 1) →
        signChanges (0 : α) l ≤ 2 := by
      intro l hl
      cases l with
      | nil => exact Nat.zero_le 2
      | cons a rest =>
        have h1 := hl a rest rfl
        show (if sign (0 : α) ≠ sign a then 1 else 0) + signChanges a rest ≤ 2
        split_ifs <;> omega
    exact key _ hflip
  constructor
  · intro n s hs
    have h1 := rotateStateAfter_oscillations mb fm cc fo (ticks.take n) ⟨0, 0, 0, false⟩ s hs
    rw [h1, List.map_take]
    have h2 := signChanges_take_le n (0 : α)
      (ticks.map (fun t => normalizeAngle fm (t.rawAngle fo)))
    have h3 : (signChanges (0 : α) ((ticks.map
        (fun t => normalizeAngle fm (t.rawAngle fo))).take n) : Int) ≤ 2 := by
      exact_mod_cast le_trans h2 hall
    simpa using h3
  · intro hret
    refine rotateLoop_true_newGoal mb fm cc fo ticks ⟨0, 0, 0, false⟩ rfl ?_ hmag hret
    have h3 : (signChanges (0 : α) (ticks.map
        (fun t => normalizeAngle fm (t.rawAngle fo))) : Int) ≤ 2 := by
      exact_mod_cast hall
    simpa using h3

end Oscillation

/-- C22 at a concrete input over the reals: default parameters, target yaw `0`, the
error is `-1` in the first tick (a sign change against the initial `0.0`) and
`1` in the second. -/
theorem C22_single_flip_no_guard_witness :
    (normalizeAngle realMath
        (RotateTick.rawAngle 0 (⟨true, true, -1, [], false, false, false⟩ : RotateTick ℝ)) = -1 ∧
      normalizeAngle realMath
        (RotateTick.rawAngle 0 (⟨true, true, 1, [], false, false, false⟩ : RotateTick ℝ)) = 1) ∧
    ∀ n s, MoveSmooth.rotateStateAfter (MoveSmooth.defaults : MoveSmooth ℝ) realMath
      ⟨10, 8 / 100, 9 / 100, 19 / 100⟩ 0 ⟨0, 0, 0, false⟩
      (List.take n [⟨true, true, -1, [], false, false, false⟩,
        ⟨true, true, 1, [], false, false, false⟩]) = some s → s.oscillations ≤ 2 := by
  have htol : (MoveSmooth.defaults : MoveSmooth ℝ).angleTolerance = 1 / 10 := rfl
  have e1 : normalizeAngle realMath
      (RotateTick.rawAngle 0 (⟨true, true, -1, [], false, false, false⟩ : RotateTick ℝ)) = -1 := by
    have hr : RotateTick.rawAngle 0
        (⟨true, true, -1, [], false, false, false⟩ : RotateTick ℝ) = -1 := by
      show (0 : ℝ) - -(-1) = -1
      norm_num
    rw [hr]
    exact (real_normalize_small (-1) (by norm_num) (by norm_num)).1
  have e2 : normalizeAngle realMath
      (RotateTick.rawAngle 0 (⟨true, true, 1, [], false, false, false⟩ : RotateTick ℝ)) = 1 := by
    have hr : RotateTick.rawAngle 0
        (⟨true, true, 1, [], false, false, false⟩ : RotateTick ℝ) = 1 := by
      show (0 : ℝ) - -1 = 1
      norm_num
    rw [hr]
    exact (real_normalize_small 1 (by norm_num) (by norm_num)).1
  refine ⟨⟨e1, e2⟩, (C22_single_flip_no_guard (MoveSmooth.defaults : MoveSmooth ℝ) realMath
    ⟨10, 8 / 100, 9 / 100, 19 / 100⟩ 0
    [⟨true, true, -1, [], false, false, false⟩, ⟨true, true, 1, [], false, false, false⟩]
    ?_ ?_).1⟩
  · intro t ht
    rw [htol]
    rcases List.mem_cons.mp ht with h | h
    · rw [h, e1]; norm_num
    · rw [List.mem_singleton.mp h, e2]; norm_num
  · intro a rest h
    simp only [List.map_cons, List.map_nil] at h
    injection h with ha hr
    rw [← hr]
    show (if sign a ≠ sign _ then 1 else 0) + 0 ≤ 1
    split_ifs <;> omega

/-! ## Points beyond the back diagonal -/

/-- An in-place rotation keeps the squared distance from the origin. -/
theorem rotate_norm_sq (phi : ℝ) (p : Vector3 ℝ) :
    (rotate phi p).x * (rotate phi p).x + (rotate phi p).y * (rotate phi p).y =
      p.x * p.x + p.y * p.y := by
  show (p.x * Real.cos phi - p.y * Real.sin phi) * (p.x * Real.cos phi - p.y * Real.sin phi) +
    (p.x * Real.sin phi + p.y * Real.cos phi) * (p.x * Real.sin phi + p.y * Real.cos phi) =
      p.x * p.x + p.y * p.y
  linear_combination (p.x * p.x + p.y * p.y) * Real.sin_sq_add_cos_sq phi

/-- C27 (amended): for every footprint with `robot_back_length ≥
robot_front_length` (positive dimensions or not), an obstacle
point whose squared distance from the origin exceeds `back_diag =
robot_width² + robot_back_length²` lies outside the closed footprint rectangle
under every in-place rotation, and the point loop of `obstacle_angle` leaves
its running minimum unchanged on such a point: ignoring it hides no
collision. -/
theorem C27_far_point_never_touched (cc : CollisionChecker ℝ) (p : Vector3 ℝ)
    (hbf : cc.robot_front_length ≤ cc.robot_back_length)
    (hfar : cc.back_diag < p.x * p.x + p.y * p.y) :
    (∀ phi, ¬ InFootprint cc (rotate phi p).x (rotate phi p).y) ∧
    (∀ (fm : FloatMath ℝ) (left : Bool) (m : ℝ), angle_step fm cc left m p = m) := by
  constructor
  · rintro phi ⟨h1, h2, h3, h4⟩
    have hn := rotate_norm_sq phi p
    have hx : (rotate phi p).x * (rotate phi p).x ≤
        cc.robot_back_length * cc.robot_back_length := by
      nlinarith
    have hy : (rotate phi p).y * (rotate phi p).y ≤ cc.robot_width * cc.robot_width := by
      nlinarith
    have hd : cc.back_diag =
        cc.robot_width * cc.robot_width + cc.robot_back_length * cc.robot_back_length := rfl
    rw [hd] at hfar
    linarith
  · intro fm left m
    unfold angle_step
    dsimp only
    rw [if_neg (not_le.mpr hfar)]

/-- C27, the claim as written fails on the code: with `robot_width = 1`,
`robot_front_length = 2` and `robot_back_length = 1` the point `(2, 1)` has
squared distance `5 > back_diag = 2`, lies in the closed footprint without any
rotation (it is the front-left corner), and `obstacle_angle` ignores it. -/
theorem C27_counterexample :
    (⟨10, 1, 2, 1⟩ : CollisionChecker ℝ).back_diag < (2 : ℝ) * 2 + 1 * 1 ∧
    InFootprint (⟨10, 1, 2, 1⟩ : CollisionChecker ℝ) (rotate 0 ⟨2, 1, 0⟩).x
      (rotate 0 ⟨2, 1, 0⟩).y ∧
    obstacle_angle realMath (⟨10, 1, 2, 1⟩ : CollisionChecker ℝ) true [⟨2, 1, 0⟩] =
      Real.pi := by
  have hd : (⟨10, 1, 2, 1⟩ : CollisionChecker ℝ).back_diag = 1 * 1 + 1 * 1 := rfl
  refine ⟨by rw [hd]; norm_num, ?_, ?_⟩
  · have hx : (rotate 0 ⟨2, 1, 0⟩).x = 2 := by
      show (2 : ℝ) * Real.cos 0 - 1 * Real.sin 0 = 2
      rw [Real.cos_zero, Real.sin_zero]; norm_num
    have hy : (rotate 0 ⟨2, 1, 0⟩).y = 1 := by
      show (2 : ℝ) * Real.sin 0 + 1 * Real.cos 0 = 1
      rw [Real.cos_zero, Real.sin_zero]; norm_num
    rw [hx, hy]
    unfold InFootprint
    norm_num
  · show angle_step realMath (⟨10, 1, 2, 1⟩ : CollisionChecker ℝ) true realMath.pi ⟨2, 1, 0⟩ =
      Real.pi
    unfold angle_step
    dsimp only
    rw [if_neg (by rw [hd]; norm_num)]
    rfl

/-- C27 (amended) at a concrete input: `robot_width = 1`, `robot_front_length = 1`,
`robot_back_length = 2` and the point `(3, 0)`. -/
theorem C27_far_point_never_touched_witness :
    (⟨10, 1, 1, 2⟩ : CollisionChecker ℝ).back_diag < (3 : ℝ) * 3 + 0 * 0 ∧
    ∀ phi, ¬ InFootprint (⟨10, 1, 1, 2⟩ : CollisionChecker ℝ) (rotate phi ⟨3, 0, 0⟩).x
      (rotate phi ⟨3, 0, 0⟩).y := by
  have hd : (⟨10, 1, 1, 2⟩ : CollisionChecker ℝ).back_diag = 1 * 1 + 2 * 2 := rfl
  have hfar : (⟨10, 1, 1, 2⟩ : CollisionChecker ℝ).back_diag < (3 : ℝ) * 3 + 0 * 0 := by
    rw [hd]; norm_num
  exact ⟨hfar, (C27_far_point_never_touched (⟨10, 1, 1, 2⟩ : CollisionChecker ℝ) ⟨3, 0, 0⟩
    (by norm_num) hfar).1⟩

/-! ## The arc query -/

section Arc2

variable {α : Type} [LinearOrderedField α]

/-- One iteration of the point loop of `obstacle_arc_angle` lowers the running
minimum to the polar angle of the point when the point passes the tests of the
loop, and leaves it unchanged otherwise. -/
theorem arc_step_eq (fm : FloatMath α) (cc : CollisionChecker α) (linear angular m : α)
    (p : Vector3 α) :
    arc_step fm cc linear angular m p =
      if arc_qualifies fm cc linear angular p then min m (p_theta fm linear angular p)
      else m := by
  unfold arc_step arc_qualifies p_theta
  dsimp only
  by_cases hA : (Vector3.sub p (point_of_rotation linear angular)).length2 <
        (outer_point cc linear angular).length2 ∧
      (Vector3.sub p (point_of_rotation linear angular)).length2 >
        (inner_point cc linear angular).length2
  · rw [if_pos hA]
    by_cases hB : angle_relevant fm (outer_theta fm cc linear angular) (decide (angular ≥ 0))
        (decide (linear ≥ 0))
        (fm.atan2 (Vector3.sub p (point_of_rotation linear angular)).y
          (Vector3.sub p (point_of_rotation linear angular)).x) = true ∧
      fm.atan2 (Vector3.sub p (point_of_rotation linear angular)).y
          (Vector3.sub p (point_of_rotation linear angular)).x < fm.pi
    · rw [if_pos hB, if_pos ⟨hA, hB⟩]
    · rw [if_neg hB, if_neg (fun h => hB h.2)]
  · rw [if_neg hA, if_neg (fun h => hA h.1)]

/-- C29 (amended): for every angular velocity and every obstacle point set,
`obstacle_arc_angle` returns the minimum of `π` and, over the points lying
strictly inside the annulus between the inner-corner and outer-corner radii,
angularly ahead of the outer corner and with polar angle below `π`, the
point's polar angle about the centre of rotation itself (not its offset from
the outer corner's polar angle); it is `π` when no point qualifies. -/
theorem C29_arc_angle_min (fm : FloatMath α) (cc : CollisionChecker α) (linear angular : α)
    (pts : List (Vector3 α)) :
    IsLeast (insert fm.pi {d | ∃ p ∈ pts, arc_qualifies fm cc linear angular p ∧
        d = p_theta fm linear angular p})
      (obstacle_arc_angle fm cc linear angular pts) := by
  have h : arc_step fm cc linear angular =
      fun m p => if arc_qualifies fm cc linear angular p then
        min m (p_theta fm linear angular p) else m := by
    funext m p
    exact arc_step_eq fm cc linear angular m p
  unfold obstacle_arc_angle
  rw [h]
  exact foldl_cond_min_isLeast (arc_qualifies fm cc linear angular)
    (p_theta fm linear angular) pts fm.pi

end Arc2
/-- C29, the claim as written fails on the code: footprint `robot_width = 0.5`,
`robot_front_length = 0.5`, `robot_back_length = 1`, forward left arc of radius
`1` (`linear = angular = 1`) and the single point `(1, 0)`.  The point
qualifies, its angular offset from the outer corner is positive, and the
returned value is the point's own polar angle, a negative number. -/
theorem C29_counterexample :
    arc_qualifies realMath (⟨10, 1 / 2, 1 / 2, 1⟩ : CollisionChecker ℝ) 1 1 ⟨1, 0, 0⟩ ∧
    0 < p_theta realMath 1 1 ⟨1, 0, 0⟩ -
      outer_theta realMath (⟨10, 1 / 2, 1 / 2, 1⟩ : CollisionChecker ℝ) 1 1 ∧
    obstacle_arc_angle realMath (⟨10, 1 / 2, 1 / 2, 1⟩ : CollisionChecker ℝ) 1 1 [⟨1, 0, 0⟩] =
      p_theta realMath 1 1 ⟨1, 0, 0⟩ ∧
    obstacle_arc_angle realMath (⟨10, 1 / 2, 1 / 2, 1⟩ : CollisionChecker ℝ) 1 1 [⟨1, 0, 0⟩] <
      0 := by
  have hpor : point_of_rotation (1 : ℝ) 1 = ⟨0, 1, 0⟩ := by
    unfold point_of_rotation
    norm_num
  have hout : outer_point (⟨10, 1 / 2, 1 / 2, 1⟩ : CollisionChecker ℝ) 1 1 =
      ⟨-1, -(3 / 2), 0⟩ := by
    unfold outer_point
    rw [hpor]
    unfold Vector3.sub
    norm_num
  have hin : inner_point (⟨10, 1 / 2, 1 / 2, 1⟩ : CollisionChecker ℝ) 1 1 =
      ⟨1 / 2, -(1 / 2), 0⟩ := by
    unfold inner_point
    rw [hpor]
    unfold Vector3.sub
    norm_num
  have hp : Vector3.sub (⟨1, 0, 0⟩ : Vector3 ℝ) (point_of_rotation 1 1) = ⟨1, -1, 0⟩ := by
    rw [hpor]
    unfold Vector3.sub
    norm_num
  have hpt : p_theta realMath 1 1 ⟨1, 0, 0⟩ = Complex.arg ⟨1, -1⟩ := by
    unfold p_theta
    rw [hp]
    rfl
  have hot : outer_theta realMath (⟨10, 1 / 2, 1 / 2, 1⟩ : CollisionChecker ℝ) 1 1 =
      Complex.arg ⟨-1, -(3 / 2)⟩ := by
    unfold outer_theta
    rw [hout]
    rfl
  have h1 : Complex.arg ⟨-1, -(3 / 2)⟩ < -(Real.pi / 2) := by
    rw [← not_le, Complex.neg_pi_div_two_le_arg_iff]
    norm_num
  have h2 : -(Real.pi / 2) ≤ Complex.arg ⟨1, -1⟩ :=
    Complex.neg_pi_div_two_le_arg_iff.mpr (Or.inl (by norm_num))
  have h3 : Complex.arg ⟨1, -1⟩ < 0 := Complex.arg_neg_iff.mpr (by norm_num)
  have hq : arc_qualifies realMath (⟨10, 1 / 2, 1 / 2, 1⟩ : CollisionChecker ℝ) 1 1
      ⟨1, 0, 0⟩ := by
    unfold arc_qualifies
    rw [hp, hout, hin, hot]
    refine ⟨⟨?_, ?_⟩, ?_, ?_⟩
    · unfold Vector3.length2; norm_num
    · unfold Vector3.length2; norm_num
    · unfold angle_relevant
      have e : realMath.atan2 (-1) 1 = Complex.arg ⟨1, -1⟩ := rfl
      simp only [e]
      norm_num
      linarith
    · have e : realMath.atan2 (-1) 1 = Complex.arg ⟨1, -1⟩ := rfl
      have hpi : realMath.pi = Real.pi := rfl
      simp only [e, hpi]
      linarith [Real.pi_pos]
  have hval : obstacle_arc_angle realMath (⟨10, 1 / 2, 1 / 2, 1⟩ : CollisionChecker ℝ) 1 1
      [⟨1, 0, 0⟩] = p_theta realMath 1 1 ⟨1, 0, 0⟩ := by
    show arc_step realMath (⟨10, 1 / 2, 1 / 2, 1⟩ : CollisionChecker ℝ) 1 1 realMath.pi
      ⟨1, 0, 0⟩ = _
    rw [arc_step_eq, if_pos hq, hpt]
    have hpi : realMath.pi = Real.pi := rfl
    rw [hpi]
    exact min_eq_right (by linarith [Real.pi_pos])
  refine ⟨hq, ?_, hval, ?_⟩
  · rw [hpt, hot]; linarith
  · rw [hval, hpt]; exact h3

/-! ## No collision before the reported rotation margin -/

/-- A closed condition that holds at `phi ≥ 0` has a first time in `[0, phi]`
at which it holds. -/
theorem first_hit (P : ℝ → Prop) (hP : IsClosed {t | P t}) (phi : ℝ) (h0 : 0 ≤ phi)
    (hphi : P phi) :
    ∃ t0, 0 ≤ t0 ∧ t0 ≤ phi ∧ P t0 ∧ ∀ t, 0 ≤ t → t < t0 → ¬ P t := by
  have hS : IsClosed ({t | P t} ∩ Set.Icc 0 phi) := hP.inter isClosed_Icc
  have hne : ({t | P t} ∩ Set.Icc 0 phi).Nonempty := ⟨phi, hphi, h0, le_refl phi⟩
  have hbd : BddBelow ({t | P t} ∩ Set.Icc 0 phi) := ⟨0, fun t ht => ht.2.1⟩
  have hmem := hS.csInf_mem hne hbd
  refine ⟨sInf ({t | P t} ∩ Set.Icc 0 phi), hmem.2.1, hmem.2.2, hmem.1, ?_⟩
  intro t ht0 htlt hPt
  have hle : sInf ({t | P t} ∩ Set.Icc 0 phi) ≤ t :=
    csInf_le hbd ⟨hPt, ht0, le_trans (le_of_lt htlt) hmem.2.2⟩
  exact absurd hle (not_le.mpr htlt)

/-- A strict lower bound on a continuous function at `0` persists near `0`. -/
theorem persists_gt (F : ℝ → ℝ) (hF : Continuous F) (c : ℝ) :
    ∃ e, 0 < e ∧ ∀ d, |d| < e → c < F 0 → c < F d := by
  by_cases h : c < F 0
  · have h1 := hF.continuousAt.eventually (lt_mem_nhds h)
    obtain ⟨e, he, H⟩ := Metric.eventually_nhds_iff.mp h1
    refine ⟨e, he, fun d hd _ => H ?_⟩
    rw [Real.dist_eq, sub_zero]
    exact hd
  · exact ⟨1, one_pos, fun d _ h1 => absurd h1 h⟩

/-- A strict upper bound on a continuous function at `0` persists near `0`. -/
theorem persists_lt (F : ℝ → ℝ) (hF : Continuous F) (c : ℝ) :
    ∃ e, 0 < e ∧ ∀ d, |d| < e → F 0 < c → F d < c := by
  by_cases h : F 0 < c
  · have h1 := hF.continuousAt.eventually (gt_mem_nhds h)
    obtain ⟨e, he, H⟩ := Metric.eventually_nhds_iff.mp h1
    refine ⟨e, he, fun d hd _ => H ?_⟩
    rw [Real.dist_eq, sub_zero]
    exact hd
  · exact ⟨1, one_pos, fun d _ h1 => absurd h1 h⟩

/-- A point of the rectangle `[-b, f] × [-w, w]` that is strictly between the
two sides, and that is neither on the back edge with `y > 0` nor on the front
edge with `y < 0`, stays in the rectangle under some small counterclockwise
rotation. -/
theorem stays_inside_nearby (qx qy b f w T : ℝ) (hT : 0 < T) (hb : 0 ≤ b) (hf : 0 ≤ f)
    (hy1 : -w < qy) (hy2 : qy < w) (hx1 : -b ≤ qx) (hx2 : qx ≤ f)
    (hback : qx = -b → qy ≤ 0) (hfront : qx = f → 0 ≤ qy) :
    ∃ d, 0 < d ∧ d ≤ T ∧
      (-b ≤ qx * Real.cos d - qy * Real.sin d ∧ qx * Real.cos d - qy * Real.sin d ≤ f) ∧
      -w ≤ qx * Real.sin d + qy * Real.cos d ∧ qx * Real.sin d + qy * Real.cos d ≤ w := by
  have hXc : Continuous (fun t => qx * Real.cos t - qy * Real.sin t) := by fun_prop
  have hYc : Continuous (fun t => qx * Real.sin t + qy * Real.cos t) := by fun_prop
  obtain ⟨e1, he1, H1⟩ := persists_gt _ hXc (-b)
  obtain ⟨e2, he2, H2⟩ := persists_lt _ hXc f
  obtain ⟨e3, he3, H3⟩ := persists_gt _ hYc (-w)
  obtain ⟨e4, he4, H4⟩ := persists_lt _ hYc w
  have hX0 : qx * Real.cos 0 - qy * Real.sin 0 = qx := by
    rw [Real.cos_zero, Real.sin_zero]; ring
  have hY0 : qx * Real.sin 0 + qy * Real.cos 0 = qy := by
    rw [Real.cos_zero, Real.sin_zero]; ring
  rw [hX0] at H1 H2
  rw [hY0] at H3 H4
  have hpi := Real.pi_pos
  have hdpos : 0 < min (min (min e1 e2) (min e3 e4)) (min T Real.pi) / 2 := by
    have : 0 < min (min (min e1 e2) (min e3 e4)) (min T Real.pi) :=
      lt_min (lt_min (lt_min he1 he2) (lt_min he3 he4)) (lt_min hT hpi)
    linarith
  have hd1 : min (min (min e1 e2) (min e3 e4)) (min T Real.pi) / 2 < e1 := by
    have := min_le_left (min (min e1 e2) (min e3 e4)) (min T Real.pi)
    have := min_le_left (min e1 e2) (min e3 e4)
    have := min_le_left e1 e2
    linarith
  have hd2 : min (min (min e1 e2) (min e3 e4)) (min T Real.pi) / 2 < e2 := by
    have := min_le_left (min (min e1 e2) (min e3 e4)) (min T Real.pi)
    have := min_le_left (min e1 e2) (min e3 e4)
    have := min_le_right e1 e2
    linarith
  have hd3 : min (min (min e1 e2) (min e3 e4)) (min T Real.pi) / 2 < e3 := by
    have := min_le_left (min (min e1 e2) (min e3 e4)) (min T Real.pi)
    have := min_le_right (min e1 e2) (min e3 e4)
    have := min_le_left e3 e4
    linarith
  have hd4 : min (min (min e1 e2) (min e3 e4)) (min T Real.pi) / 2 < e4 := by
    have := min_le_left (min (min e1 e2) (min e3 e4)) (min T Real.pi)
    have := min_le_right (min e1 e2) (min e3 e4)
    have := min_le_right e3 e4
    linarith
  have hdT : min (min (min e1 e2) (min e3 e4)) (min T Real.pi) / 2 ≤ T := by
    have := min_le_right (min (min e1 e2) (min e3 e4)) (min T Real.pi)
    have := min_le_left T Real.pi
    linarith
  have hdpi : min (min (min e1 e2) (min e3 e4)) (min T Real.pi) / 2 ≤ Real.pi := by
    have := min_le_right (min (min e1 e2) (min e3 e4)) (min T Real.pi)
    have := min_le_right T Real.pi
    linarith
  generalize min (min (min e1 e2) (min e3 e4)) (min T Real.pi) / 2 = d at hdpos hd1 hd2 hd3 hd4 hdT hdpi
  have habs : |d| = d := abs_of_pos hdpos
  have hsin : 0 ≤ Real.sin d := Real.sin_nonneg_of_nonneg_of_le_pi hdpos.le hdpi
  have hcos : Real.cos d ≤ 1 := Real.cos_le_one d
  refine ⟨d, hdpos, hdT, ⟨?_, ?_⟩, ?_, ?_⟩
  · by_cases hq : qx = -b
    · have hqy := hback hq
      rw [hq]
      nlinarith [mul_nonneg hb (sub_nonneg.mpr hcos), mul_nonneg (neg_nonneg.mpr hqy) hsin]
    · exact le_of_lt (H1 d (by rw [habs]; exact hd1) (lt_of_le_of_ne hx1 (Ne.symm hq)))
  · by_cases hq : qx = f
    · have hqy := hfront hq
      rw [hq]
      nlinarith [mul_nonneg hf (sub_nonneg.mpr hcos), mul_nonneg hqy hsin]
    · exact le_of_lt (H2 d (by rw [habs]; exact hd2) (lt_of_le_of_ne hx2 hq))
  · exact le_of_lt (H3 d (by rw [habs]; exact hd3) hy1)
  · exact le_of_lt (H4 d (by rw [habs]; exact hd4) hy2)

/-- A point on the edge `x = a > 0` with `-w < y0 < 0` whose counterclockwise
rotation by `T < π` has `x ≤ 0` passes, on the way, through the rectangle
`[-B, a] × [-w, w]`. -/
theorem arc_enters_rect (a y0 B w T : ℝ) (ha : 0 < a) (hy0 : y0 < 0) (hyw : -w < y0)
    (hB : 0 ≤ B) (hT0 : 0 < T) (hTpi : T < Real.pi)
    (hX : a * Real.cos T - y0 * Real.sin T ≤ 0) :
    ∃ t, 0 < t ∧ t ≤ T ∧
      (-B ≤ a * Real.cos t - y0 * Real.sin t ∧ a * Real.cos t - y0 * Real.sin t ≤ a) ∧
      -w ≤ a * Real.sin t + y0 * Real.cos t ∧ a * Real.sin t + y0 * Real.cos t ≤ w := by
  have hXc : Continuous (fun t => a * Real.cos t - y0 * Real.sin t) := by fun_prop
  have hYc : Continuous (fun t => a * Real.sin t + y0 * Real.cos t) := by fun_prop
  have h0 : (0 : ℝ) ∈ Set.Icc ((fun t => a * Real.cos t - y0 * Real.sin t) T)
      ((fun t => a * Real.cos t - y0 * Real.sin t) 0) := by
    constructor
    · exact hX
    · simp only [Real.cos_zero, Real.sin_zero]; linarith
  obtain ⟨t1, ⟨ht1a, ht1b⟩, hXt1⟩ := intermediate_value_Icc' hT0.le hXc.continuousOn h0
  dsimp only at hXt1
  have ht1pos : 0 < t1 := by
    rcases eq_or_lt_of_le ht1a with h | h
    · rw [← h, Real.cos_zero, Real.sin_zero] at hXt1
      linarith
    · exact h
  have hs1 : 0 < Real.sin t1 := Real.sin_pos_of_pos_of_lt_pi ht1pos (lt_of_le_of_lt ht1b hTpi)
  have hYs : (a * Real.sin t1 + y0 * Real.cos t1) * Real.sin t1 = a := by
    linear_combination a * Real.sin_sq_add_cos_sq t1 - Real.cos t1 * hXt1
  have hYpos : 0 < a * Real.sin t1 + y0 * Real.cos t1 := by
    by_contra hneg
    push_neg at hneg
    nlinarith
  by_cases hYw : a * Real.sin t1 + y0 * Real.cos t1 ≤ w
  · exact ⟨t1, ht1pos, ht1b, ⟨by rw [hXt1]; linarith, by rw [hXt1]; linarith⟩,
      by linarith, hYw⟩
  · push_neg at hYw
    have hw : (w : ℝ) ∈ Set.Icc ((fun t => a * Real.sin t + y0 * Real.cos t) 0)
        ((fun t => a * Real.sin t + y0 * Real.cos t) t1) := by
      constructor
      · simp only [Real.cos_zero, Real.sin_zero]; linarith
      · exact le_of_lt hYw
    obtain ⟨t2, ⟨ht2a, ht2b⟩, hYt2⟩ := intermediate_value_Icc ht1a hYc.continuousOn hw
    dsimp only at hYt2
    have ht2pos : 0 < t2 := by
      rcases eq_or_lt_of_le ht2a with h | h
      · rw [← h, Real.cos_zero, Real.sin_zero] at hYt2
        linarith
      · exact h
    have hsd : 0 ≤ Real.sin (t1 - t2) :=
      Real.sin_nonneg_of_nonneg_of_le_pi (by linarith) (by linarith)
    have hXs : (a * Real.cos t2 - y0 * Real.sin t2) * Real.sin t1 = a * Real.sin (t1 - t2) := by
      rw [Real.sin_sub]
      linear_combination Real.sin t2 * hXt1
    have hX2 : 0 ≤ a * Real.cos t2 - y0 * Real.sin t2 := by
      by_contra hneg
      push_neg at hneg
      nlinarith [mul_nonneg ha.le hsd]
    have hnorm : (a * Real.cos t2 - y0 * Real.sin t2) * (a * Real.cos t2 - y0 * Real.sin t2) +
        (a * Real.sin t2 + y0 * Real.cos t2) * (a * Real.sin t2 + y0 * Real.cos t2) =
        a * a + y0 * y0 := by
      linear_combination (a * a + y0 * y0) * Real.sin_sq_add_cos_sq t2
    rw [hYt2] at hnorm
    have hXa : a * Real.cos t2 - y0 * Real.sin t2 ≤ a := by
      by_contra hneg
      push_neg at hneg
      nlinarith
    exact ⟨t2, ht2pos, le_trans ht2b ht1b, ⟨by linarith, hXa⟩, by rw [hYt2]; linarith,
      le_of_eq hYt2⟩

/-- The value of `theta_int` lies in `[-π, π]`. -/
theorem theta_int_range (x y xe ye : ℝ) :
    -Real.pi ≤ theta_int realMath (Complex.arg ⟨x, y⟩) xe ye ∧
      theta_int realMath (Complex.arg ⟨x, y⟩) xe ye ≤ Real.pi := by
  have h1 := Complex.neg_pi_lt_arg ⟨x, y⟩
  have h2 := Complex.arg_le_pi ⟨x, y⟩
  have h3 := Complex.neg_pi_lt_arg ⟨xe, ye⟩
  have h4 := Complex.arg_le_pi ⟨xe, ye⟩
  rcases theta_int_cases (Complex.arg ⟨x, y⟩) xe ye with ⟨h, e⟩ | ⟨h, e⟩ | ⟨h, e⟩
  · rw [e]; constructor <;> linarith
  · rw [e]; constructor <;> linarith
  · rw [e]; exact h

/-- For a point other than the origin and a turn `t` strictly between `0` and
`π`, `check_angle` computes exactly `t` as the turn that takes the point to its
position after the turn. -/
theorem theta_int_of_rotate (x y t : ℝ) (hp : 0 < x * x + y * y) (ht0 : 0 < t)
    (htpi : t < Real.pi) :
    theta_int realMath (Complex.arg ⟨x, y⟩) (x * Real.cos t + y * Real.sin t)
      (-x * Real.sin t + y * Real.cos t) = t := by
  have hc : (x * Real.cos t + y * Real.sin t) * (x * Real.cos t + y * Real.sin t) +
      (-x * Real.sin t + y * Real.cos t) * (-x * Real.sin t + y * Real.cos t) =
      x * x + y * y := by
    linear_combination (x * x + y * y) * Real.sin_sq_add_cos_sq t
  obtain ⟨e1, e2⟩ := rotate_theta_int x y _ _ hc
  obtain ⟨r1, r2⟩ := theta_int_range x y (x * Real.cos t + y * Real.sin t)
    (-x * Real.sin t + y * Real.cos t)
  generalize theta_int realMath (Complex.arg ⟨x, y⟩) (x * Real.cos t + y * Real.sin t)
    (-x * Real.sin t + y * Real.cos t) = ti at e1 e2 r1 r2
  have hC : (x * x + y * y) * (Real.cos ti - Real.cos t) = 0 := by
    linear_combination x * e1 + y * e2
  have hS : (x * x + y * y) * (Real.sin ti - Real.sin t) = 0 := by
    linear_combination y * e1 - x * e2
  have hcos : Real.cos ti = Real.cos t := by
    rcases mul_eq_zero.mp hC with h | h
    · linarith
    · linarith
  have hsin : Real.sin ti = Real.sin t := by
    rcases mul_eq_zero.mp hS with h | h
    · linarith
    · linarith
  have hst : 0 < Real.sin t := Real.sin_pos_of_pos_of_lt_pi ht0 htpi
  have hti0 : 0 ≤ ti := by
    by_contra hneg
    push_neg at hneg
    have := Real.sin_nonpos_of_nonnpos_of_neg_pi_le (le_of_lt hneg) r1
    linarith
  exact Real.injOn_cos ⟨hti0, r2⟩ ⟨le_of_lt ht0, le_of_lt htpi⟩ hcos

section Cand

variable {α : Type} [LinearOrderedField α]

/-- A left-turn check against a candidate with positive `theta_int` brings the
running minimum down to at most that value. -/
theorem check_angle_le_theta_int (fm : FloatMath α) (theta x y m : α)
    (h : 0 < theta_int fm theta x y) :
    check_angle fm theta x y true m ≤ theta_int fm theta x y := by
  rw [check_angle_left, if_pos h]
  exact min_le_right _ _

end Cand

/-- The side-edge block checks the point `(qx, ±w)` of the circle whenever it
lies on a side edge. -/
theorem side_edges_check_cand (cc : CollisionChecker ℝ) (theta r2 m qx qy : ℝ)
    (hqy : qy = cc.robot_width ∨ qy = -cc.robot_width) (hr : qx * qx + qy * qy = r2)
    (hx1 : -cc.robot_back_length ≤ qx) (hx2 : qx ≤ cc.robot_front_length)
    (hti : 0 < theta_int realMath theta qx qy) :
    side_edges_check realMath cc true theta r2 m ≤ theta_int realMath theta qx qy := by
  have hsq : qy * qy = cc.robot_width * cc.robot_width := by
    rcases hqy with h | h
    · rw [h]
    · rw [h]; ring
  have hwsq : cc.robot_width_sq = cc.robot_width * cc.robot_width := rfl
  have hle : cc.robot_width_sq ≤ r2 := by
    rw [hwsq, ← hr, hsq]; nlinarith [mul_self_nonneg qx]
  have hxi : realMath.sqrt (r2 - cc.robot_width_sq) = |qx| := by
    show Real.sqrt (r2 - cc.robot_width_sq) = |qx|
    rw [hwsq, ← hr, hsq, add_sub_cancel_right]
    exact Real.sqrt_mul_self_eq_abs qx
  unfold side_edges_check
  rw [if_pos hle]
  dsimp only
  rw [hxi]
  have hc1 : -cc.robot_back_length ≤ qx ∧ qx ≤ cc.robot_front_length := ⟨hx1, hx2⟩
  by_cases hpos : 0 ≤ qx
  · rw [abs_of_nonneg hpos, if_pos hc1]
    have ha : check_angle realMath theta qx (-cc.robot_width) true
        (check_angle realMath theta qx cc.robot_width true m) ≤
        theta_int realMath theta qx qy := by
      rcases hqy with h | h
      · rw [h] at hti ⊢
        exact le_trans (check_angle_le _ _ _ _ _ _) (check_angle_le_theta_int _ _ _ _ _ hti)
      · rw [h] at hti ⊢
        exact check_angle_le_theta_int _ _ _ _ _ hti
    split_ifs
    · exact le_trans (check_angle_le _ _ _ _ _ _) (le_trans (check_angle_le _ _ _ _ _ _) ha)
    · exact ha
  · push_neg at hpos
    rw [abs_of_neg hpos, neg_neg, if_pos hc1]
    rcases hqy with h | h
    · rw [h] at hti ⊢
      exact le_trans (check_angle_le _ _ _ _ _ _) (check_angle_le_theta_int _ _ _ _ _ hti)
    · rw [h] at hti ⊢
      exact check_angle_le_theta_int _ _ _ _ _ hti

/-- The back-edge block checks the point `(-b, qy)` of the circle whenever it
lies on the back edge and the obstacle point has `x < 0`. -/
theorem back_edge_check_cand (cc : CollisionChecker ℝ) (theta px r2 m qy : ℝ)
    (hpx : px < 0)
    (hr : cc.robot_back_length * cc.robot_back_length + qy * qy = r2)
    (hy1 : -cc.robot_width ≤ qy) (hy2 : qy ≤ cc.robot_width)
    (hti : 0 < theta_int realMath theta (-cc.robot_back_length) qy) :
    back_edge_check realMath cc true theta px r2 m ≤
      theta_int realMath theta (-cc.robot_back_length) qy := by
  have hbsq : cc.robot_back_length_sq = cc.robot_back_length * cc.robot_back_length := rfl
  have hle : cc.robot_back_length_sq ≤ r2 := by
    rw [hbsq, ← hr]; nlinarith [mul_self_nonneg qy]
  have hyi : realMath.sqrt (r2 - cc.robot_back_length_sq) = |qy| := by
    show Real.sqrt (r2 - cc.robot_back_length_sq) = |qy|
    rw [hbsq, ← hr, add_sub_cancel_left]
    exact Real.sqrt_mul_self_eq_abs qy
  unfold back_edge_check
  rw [if_pos ⟨hpx, hle⟩]
  dsimp only
  rw [hyi]
  have hc1 : -cc.robot_width ≤ qy ∧ qy ≤ cc.robot_width := ⟨hy1, hy2⟩
  by_cases hpos : 0 ≤ qy
  · rw [abs_of_nonneg hpos, if_pos hc1]
    have ha := check_angle_le_theta_int realMath theta (-cc.robot_back_length) qy m hti
    split_ifs
    · exact le_trans (check_angle_le _ _ _ _ _ _) ha
    · exact ha
  · push_neg at hpos
    rw [abs_of_neg hpos, neg_neg, if_pos hc1]
    exact check_angle_le_theta_int _ _ _ _ _ hti

/-- The front-edge block checks the point `(f, qy)` of the circle whenever it
lies on the front edge and the obstacle point has `x > 0`. -/
theorem front_edge_check_cand (cc : CollisionChecker ℝ) (theta px r2 m qy : ℝ)
    (hpx : 0 < px)
    (hr : cc.robot_front_length * cc.robot_front_length + qy * qy = r2)
    (hy1 : -cc.robot_width ≤ qy) (hy2 : qy ≤ cc.robot_width)
    (hti : 0 < theta_int realMath theta cc.robot_front_length qy) :
    front_edge_check realMath cc true theta px r2 m ≤
      theta_int realMath theta cc.robot_front_length qy := by
  have hfsq : cc.robot_front_length_sq = cc.robot_front_length * cc.robot_front_length := rfl
  have hfd : cc.front_diag =
      cc.robot_width * cc.robot_width + cc.robot_front_length * cc.robot_front_length := rfl
  have hle : cc.robot_front_length_sq ≤ r2 := by
    rw [hfsq, ← hr]; nlinarith [mul_self_nonneg qy]
  have hdiag : r2 ≤ cc.front_diag := by
    rw [hfd, ← hr]; nlinarith
  have hyi : realMath.sqrt (r2 - cc.robot_front_length_sq) = |qy| := by
    show Real.sqrt (r2 - cc.robot_front_length_sq) = |qy|
    rw [hfsq, ← hr, add_sub_cancel_left]
    exact Real.sqrt_mul_self_eq_abs qy
  unfold front_edge_check
  rw [if_pos ⟨hpx, hdiag, hle⟩]
  dsimp only
  rw [hyi]
  have hc1 : -cc.robot_width ≤ qy ∧ qy ≤ cc.robot_width := ⟨hy1, hy2⟩
  by_cases hpos : 0 ≤ qy
  · rw [abs_of_nonneg hpos, if_pos hc1]
    have ha := check_angle_le_theta_int realMath theta cc.robot_front_length qy m hti
    split_ifs
    · exact le_trans (check_angle_le _ _ _ _ _ _) ha
    · exact ha
  · push_neg at hpos
    rw [abs_of_neg hpos, neg_neg, if_pos hc1]
    exact check_angle_le_theta_int _ _ _ _ _ hti

/-- The footprint rectangle is symmetric about the x axis. -/
theorem inFootprint_neg (cc : CollisionChecker ℝ) (x y : ℝ) :
    InFootprint cc x (-y) ↔ InFootprint cc x y := by
  unfold InFootprint
  constructor
  · rintro ⟨h1, h2, h3, h4⟩
    exact ⟨h1, h2, by linarith, by linarith⟩
  · rintro ⟨h1, h2, h3, h4⟩
    exact ⟨h1, h2, by linarith, by linarith⟩

/-- The left-turn half of the clearance property: while the turn `phi` is below the value the
point loop of `obstacle_angle` computes for the point `p`, the point (seen
from the robot, that is rotated by `-phi`) is outside the closed footprint. -/
theorem left_turn_clear (cc : CollisionChecker ℝ) (p : Vector3 ℝ)
    (hw : 0 < cc.robot_width) (hf : 0 < cc.robot_front_length)
    (hbf : cc.robot_front_length ≤ cc.robot_back_length)
    (hout : ¬ InFootprint cc p.x p.y) (phi : ℝ) (h0 : 0 ≤ phi)
    (hlt : phi < angle_step realMath cc true Real.pi p) :
    ¬ InFootprint cc (p.x * Real.cos phi + p.y * Real.sin phi)
      (-p.x * Real.sin phi + p.y * Real.cos phi) := by
  intro hin
  have hb : 0 < cc.robot_back_length := lt_of_lt_of_le hf hbf
  have hMpi : angle_step realMath cc true Real.pi p ≤ Real.pi :=
    angle_step_le realMath cc true Real.pi p
  have hXc : Continuous (fun t => p.x * Real.cos t + p.y * Real.sin t) := by fun_prop
  have hYc : Continuous (fun t => -p.x * Real.sin t + p.y * Real.cos t) := by fun_prop
  have hclosed : IsClosed {t | InFootprint cc (p.x * Real.cos t + p.y * Real.sin t)
      (-p.x * Real.sin t + p.y * Real.cos t)} := by
    unfold InFootprint
    exact (isClosed_le continuous_const hXc).inter
      ((isClosed_le hXc continuous_const).inter
        ((isClosed_le continuous_const hYc).inter (isClosed_le hYc continuous_const)))
  obtain ⟨t0, ht0a, ht0b, hPt0, hfirst⟩ := first_hit
    (fun t => InFootprint cc (p.x * Real.cos t + p.y * Real.sin t)
      (-p.x * Real.sin t + p.y * Real.cos t)) hclosed phi h0 hin
  have ht0pos : 0 < t0 := by
    rcases eq_or_lt_of_le ht0a with h | h
    · rw [← h, Real.cos_zero, Real.sin_zero] at hPt0
      simp only [mul_one, mul_zero, add_zero, neg_zero, zero_add] at hPt0
      exact absurd hPt0 hout
    · exact h
  have ht0pi : t0 < Real.pi := by linarith
  have hp : 0 < p.x * p.x + p.y * p.y := by
    by_contra hneg
    push_neg at hneg
    have hx : p.x = 0 := by nlinarith [mul_self_nonneg p.x, mul_self_nonneg p.y]
    have hy : p.y = 0 := by nlinarith [mul_self_nonneg p.x, mul_self_nonneg p.y]
    apply hout
    rw [hx, hy]
    exact ⟨by linarith, by linarith, by linarith, by linarith⟩
  have hTI := theta_int_of_rotate p.x p.y t0 hp ht0pos ht0pi
  have hnorm : (p.x * Real.cos t0 + p.y * Real.sin t0) * (p.x * Real.cos t0 + p.y * Real.sin t0) +
      (-p.x * Real.sin t0 + p.y * Real.cos t0) * (-p.x * Real.sin t0 + p.y * Real.cos t0) =
      p.x * p.x + p.y * p.y := by
    linear_combination (p.x * p.x + p.y * p.y) * Real.sin_sq_add_cos_sq t0
  have hpx : p.x = (p.x * Real.cos t0 + p.y * Real.sin t0) * Real.cos t0 -
      (-p.x * Real.sin t0 + p.y * Real.cos t0) * Real.sin t0 := by
    linear_combination (-p.x) * Real.sin_sq_add_cos_sq t0
  have hback : ∀ d, 0 < d → d ≤ t0 →
      ¬ ((-cc.robot_back_length ≤ (p.x * Real.cos t0 + p.y * Real.sin t0) * Real.cos d -
            (-p.x * Real.sin t0 + p.y * Real.cos t0) * Real.sin d ∧
          (p.x * Real.cos t0 + p.y * Real.sin t0) * Real.cos d -
            (-p.x * Real.sin t0 + p.y * Real.cos t0) * Real.sin d ≤ cc.robot_front_length) ∧
        -cc.robot_width ≤ (p.x * Real.cos t0 + p.y * Real.sin t0) * Real.sin d +
            (-p.x * Real.sin t0 + p.y * Real.cos t0) * Real.cos d ∧
          (p.x * Real.cos t0 + p.y * Real.sin t0) * Real.sin d +
            (-p.x * Real.sin t0 + p.y * Real.cos t0) * Real.cos d ≤ cc.robot_width) := by
    rintro d hd0 hdt ⟨⟨h1, h2⟩, h3, h4⟩
    apply hfirst (t0 - d) (by linarith) (by linarith)
    have eX : p.x * Real.cos (t0 - d) + p.y * Real.sin (t0 - d) =
        (p.x * Real.cos t0 + p.y * Real.sin t0) * Real.cos d -
          (-p.x * Real.sin t0 + p.y * Real.cos t0) * Real.sin d := by
      rw [Real.cos_sub, Real.sin_sub]; ring
    have eY : -p.x * Real.sin (t0 - d) + p.y * Real.cos (t0 - d) =
        (p.x * Real.cos t0 + p.y * Real.sin t0) * Real.sin d +
          (-p.x * Real.sin t0 + p.y * Real.cos t0) * Real.cos d := by
      rw [Real.cos_sub, Real.sin_sub]; ring
    rw [eX, eY]
    exact ⟨h1, h2, h3, h4⟩
  generalize p.x * Real.cos t0 + p.y * Real.sin t0 = qx at hPt0 hTI hnorm hpx hback
  generalize -p.x * Real.sin t0 + p.y * Real.cos t0 = qy at hPt0 hTI hnorm hpx hback
  obtain ⟨hq1, hq2, hq3, hq4⟩ := hPt0
  have hdiag : p.x * p.x + p.y * p.y ≤ cc.back_diag := by
    have hd : cc.back_diag =
        cc.robot_width * cc.robot_width + cc.robot_back_length * cc.robot_back_length := rfl
    rw [hd, ← hnorm]
    nlinarith
  have hM : angle_step realMath cc true Real.pi p =
      front_edge_check realMath cc true (Complex.arg ⟨p.x, p.y⟩) p.x (p.x * p.x + p.y * p.y)
        (back_edge_check realMath cc true (Complex.arg ⟨p.x, p.y⟩) p.x (p.x * p.x + p.y * p.y)
          (side_edges_check realMath cc true (Complex.arg ⟨p.x, p.y⟩)
            (p.x * p.x + p.y * p.y) Real.pi)) := by
    unfold angle_step
    dsimp only
    rw [if_pos hdiag]
    rfl
  rw [hM] at hlt
  by_cases hside : qy = cc.robot_width ∨ qy = -cc.robot_width
  · have h1 := side_edges_check_cand cc (Complex.arg ⟨p.x, p.y⟩) (p.x * p.x + p.y * p.y)
      Real.pi qx qy hside hnorm hq1 hq2 (by rw [hTI]; exact ht0pos)
    rw [hTI] at h1
    have h2 := le_trans (front_edge_check_le realMath cc true (Complex.arg ⟨p.x, p.y⟩) p.x
      (p.x * p.x + p.y * p.y) _) (le_trans (back_edge_check_le realMath cc true
        (Complex.arg ⟨p.x, p.y⟩) p.x (p.x * p.x + p.y * p.y) _) h1)
    linarith
  · push_neg at hside
    have hy1 : -cc.robot_width < qy := lt_of_le_of_ne hq3 (Ne.symm hside.2)
    have hy2 : qy < cc.robot_width := lt_of_le_of_ne hq4 hside.1
    by_cases hbk : qx = -cc.robot_back_length ∧ 0 < qy
    · obtain ⟨hqx, hqy⟩ := hbk
      rw [hqx] at hTI hnorm hpx hback
      by_cases hpxneg : p.x < 0
      · have h1 := back_edge_check_cand cc (Complex.arg ⟨p.x, p.y⟩) p.x
          (p.x * p.x + p.y * p.y)
          (side_edges_check realMath cc true (Complex.arg ⟨p.x, p.y⟩)
            (p.x * p.x + p.y * p.y) Real.pi) qy hpxneg
          (by linear_combination hnorm) hq3 hq4 (by rw [hTI]; exact ht0pos)
        rw [hTI] at h1
        have h2 := le_trans (front_edge_check_le realMath cc true (Complex.arg ⟨p.x, p.y⟩) p.x
          (p.x * p.x + p.y * p.y) _) h1
        linarith
      · push_neg at hpxneg
        obtain ⟨t, ht0, htt, ⟨hx1, hx2⟩, hy3, hy4⟩ := arc_enters_rect cc.robot_back_length (-qy)
          cc.robot_front_length cc.robot_width t0 hb (by linarith) (by linarith) hf.le
          ht0pos ht0pi (by linarith)
        exact hback t ht0 htt ⟨⟨by linarith, by linarith⟩, by linarith, by linarith⟩
    · by_cases hfr : qx = cc.robot_front_length ∧ qy < 0
      · obtain ⟨hqx, hqy⟩ := hfr
        rw [hqx] at hTI hnorm hpx hback
        by_cases hpxpos : 0 < p.x
        · have h1 := front_edge_check_cand cc (Complex.arg ⟨p.x, p.y⟩) p.x
            (p.x * p.x + p.y * p.y)
            (back_edge_check realMath cc true (Complex.arg ⟨p.x, p.y⟩) p.x
              (p.x * p.x + p.y * p.y)
              (side_edges_check realMath cc true (Complex.arg ⟨p.x, p.y⟩)
                (p.x * p.x + p.y * p.y) Real.pi)) qy hpxpos
            hnorm hq3 hq4 (by rw [hTI]; exact ht0pos)
          rw [hTI] at h1
          linarith
        · push_neg at hpxpos
          obtain ⟨t, ht0, htt, hx, hy⟩ := arc_enters_rect cc.robot_front_length qy
            cc.robot_back_length cc.robot_width t0 hf hqy hy1 hb.le
            ht0pos ht0pi (by linarith)
          exact hback t ht0 htt ⟨hx, hy⟩
      · obtain ⟨d, hd0, hdt, hx, hy⟩ := stays_inside_nearby qx qy cc.robot_back_length
          cc.robot_front_length cc.robot_width t0 ht0pos hb.le hf.le hy1 hy2 hq1 hq2
          (fun h => by
            by_contra hneg
            push_neg at hneg
            exact hbk ⟨h, hneg⟩)
          (fun h => by
            by_contra hneg
            push_neg at hneg
            exact hfr ⟨h, hneg⟩)
        exact hback d hd0 hdt ⟨hx, hy⟩

/-- C26: for every footprint with `robot_back_length ≥ robot_front_length >
0` and `robot_width > 0`, and every single obstacle point `p` strictly outside
the footprint rectangle: for every angle `phi` with `0 ≤ phi <
obstacle_angle(left = true)` the point `p` rotated about the origin by `-phi`
is not in the closed footprint rectangle, and for every `phi` with `0 ≤ phi <
obstacle_angle(left = false)` the point rotated by `+phi` is not in it: no
collision occurs before the reported margin. -/
theorem C26_no_collision_before_margin (cc : CollisionChecker ℝ) (p : Vector3 ℝ)
    (hw : 0 < cc.robot_width) (hf : 0 < cc.robot_front_length)
    (hbf : cc.robot_front_length ≤ cc.robot_back_length)
    (hout : ¬ InFootprint cc p.x p.y) :
    (∀ phi, 0 ≤ phi → phi < obstacle_angle realMath cc true [p] →
      ¬ InFootprint cc (rotate (-phi) p).x (rotate (-phi) p).y) ∧
    (∀ phi, 0 ≤ phi → phi < obstacle_angle realMath cc false [p] →
      ¬ InFootprint cc (rotate phi p).x (rotate phi p).y) := by
  constructor
  · intro phi h0 hlt
    have e : obstacle_angle realMath cc true [p] = angle_step realMath cc true Real.pi p := rfl
    rw [e] at hlt
    have h := left_turn_clear cc p hw hf hbf hout phi h0 hlt
    have eX : (rotate (-phi) p).x = p.x * Real.cos phi + p.y * Real.sin phi := by
      show p.x * Real.cos (-phi) - p.y * Real.sin (-phi) = _
      rw [Real.cos_neg, Real.sin_neg]; ring
    have eY : (rotate (-phi) p).y = -p.x * Real.sin phi + p.y * Real.cos phi := by
      show p.x * Real.sin (-phi) + p.y * Real.cos (-phi) = _
      rw [Real.cos_neg, Real.sin_neg]; ring
    rw [eX, eY]
    exact h
  · intro phi h0 hlt
    have e : obstacle_angle realMath cc false [p] = angle_step realMath cc false Real.pi p := rfl
    have hm := angle_step_mirror cc Real.pi (mirror p) (le_refl _)
    have hc := angle_step_congr cc false Real.pi p (mirror (mirror p)) rfl (neg_neg p.y)
    rw [e, ← hc, ← hm] at hlt
    have hout2 : ¬ InFootprint cc (mirror p).x (mirror p).y := by
      intro h
      exact hout ((inFootprint_neg cc p.x p.y).mp h)
    have h := left_turn_clear cc (mirror p) hw hf hbf hout2 phi h0 hlt
    intro hin
    apply h
    have eX : (mirror p).x * Real.cos phi + (mirror p).y * Real.sin phi = (rotate phi p).x := by
      show p.x * Real.cos phi + -p.y * Real.sin phi = p.x * Real.cos phi - p.y * Real.sin phi
      ring
    have eY : -(mirror p).x * Real.sin phi + (mirror p).y * Real.cos phi =
        -(rotate phi p).y := by
      show -p.x * Real.sin phi + -p.y * Real.cos phi =
        -(p.x * Real.sin phi + p.y * Real.cos phi)
      ring
    rw [eX, eY]
    exact (inFootprint_neg cc _ _).mpr hin

/-- C26 at a concrete input: the square footprint with half-side `1` and the point
`(-1.2, 0)` behind the back edge. -/
theorem C26_no_collision_before_margin_witness :
    (∀ phi, 0 ≤ phi →
      phi < obstacle_angle realMath (⟨10, 1, 1, 1⟩ : CollisionChecker ℝ) true [⟨-(6 / 5), 0, 0⟩] →
      ¬ InFootprint (⟨10, 1, 1, 1⟩ : CollisionChecker ℝ) (rotate (-phi) ⟨-(6 / 5), 0, 0⟩).x
        (rotate (-phi) ⟨-(6 / 5), 0, 0⟩).y) ∧
    (∀ phi, 0 ≤ phi →
      phi < obstacle_angle realMath (⟨10, 1, 1, 1⟩ : CollisionChecker ℝ) false [⟨-(6 / 5), 0, 0⟩] →
      ¬ InFootprint (⟨10, 1, 1, 1⟩ : CollisionChecker ℝ) (rotate phi ⟨-(6 / 5), 0, 0⟩).x
        (rotate phi ⟨-(6 / 5), 0, 0⟩).y) :=
  C26_no_collision_before_margin (⟨10, 1, 1, 1⟩ : CollisionChecker ℝ) ⟨-(6 / 5), 0, 0⟩
    (by norm_num) (by norm_num) (by norm_num) (by unfold InFootprint; norm_num)

/-! ## Monotonicity in the obstacle set -/

section Mono

variable {α : Type} [LinearOrderedField α]

/-- A fold whose step only lowers the running value to the minimum with a
quantity of the visited element is the minimum of the start value and the fold
started at the cap `M`. -/
theorem foldl_min_update {β : Type} (f : α → β → α) (M : α)
    (hf : ∀ m b, m ≤ M → f m b = min m (f M b)) (l : List β) (m : α) (hm : m ≤ M) :
    l.foldl f m = min m (l.foldl f M) := by
  induction l generalizing m with
  | nil => exact (min_eq_left hm).symm
  | cons b l ih =>
    simp only [List.foldl_cons]
    have h1 : f m b ≤ M := by
      rw [hf m b hm]; exact le_trans (min_le_left _ _) hm
    have h2 : f M b ≤ M := by
      rw [hf M b (le_refl M)]; exact min_le_left _ _
    rw [ih (f m b) h1, ih (f M b) h2, hf m b hm, min_assoc]

/-- Such a fold is at most the step of any visited element. -/
theorem foldl_min_update_le_mem {β : Type} (f : α → β → α) (M : α)
    (hf : ∀ m b, m ≤ M → f m b = min m (f M b)) (l : List β) (b : β) (hb : b ∈ l) :
    l.foldl f M ≤ f M b := by
  induction l with
  | nil => exact absurd hb (List.not_mem_nil b)
  | cons c l ih =>
    simp only [List.foldl_cons]
    have h2 : f M c ≤ M := by
      rw [hf M c (le_refl M)]; exact min_le_left _ _
    rw [foldl_min_update f M hf l (f M c) h2]
    rcases List.mem_cons.mp hb with h | h
    · rw [h]; exact min_le_left _ _
    · exact le_trans (min_le_right _ _) (ih h)

/-- Such a fold does not grow when elements are added to the list or the start
value is lowered. -/
theorem foldl_min_update_subset {β : Type} (f : α → β → α) (M : α)
    (hf : ∀ m b, m ≤ M → f m b = min m (f M b)) (l l1 : List β) (h : l ⊆ l1)
    (m m1 : α) (hm : m ≤ M) (hmm : m1 ≤ m) : l1.foldl f m1 ≤ l.foldl f m := by
  have key : l1.foldl f M ≤ l.foldl f M := by
    induction l with
    | nil =>
      rw [foldl_min_update f M hf l1 M (le_refl M)]
      exact min_le_left _ _
    | cons b l ih =>
      simp only [List.foldl_cons]
      have h2 : f M b ≤ M := by
        rw [hf M b (le_refl M)]; exact min_le_left _ _
      rw [foldl_min_update f M hf l (f M b) h2]
      exact le_min (foldl_min_update_le_mem f M hf l1 b (h (List.mem_cons_self b l)))
        (ih (fun x hx => h (List.mem_cons_of_mem b hx)))
  rw [foldl_min_update f M hf l1 m1 (le_trans hmm hm), foldl_min_update f M hf l m hm]
  exact min_le_min hmm key

/-- Two such folds run one after the other, the first from the cap `M`. -/
theorem two_stage_subset {β γ : Type} (F : α → β → α) (h : α → γ → α) (M : α)
    (hF : ∀ m b, m ≤ M → F m b = min m (F M b))
    (hh : ∀ m b, m ≤ M → h m b = min m (h M b))
    (l l1 : List β) (p p1 : List γ) (hl : l ⊆ l1) (hp : p ⊆ p1) :
    p1.foldl h (l1.foldl F M) ≤ p.foldl h (l.foldl F M) := by
  have hA : l.foldl F M ≤ M := by
    rw [foldl_min_update F M hF l M (le_refl M)]
    exact min_le_left _ _
  exact foldl_min_update_subset h M hh p p1 hp _ _ hA
    (foldl_min_update_subset F M hF l l1 hl M M (le_refl M) (le_refl M))

theorem check_dist_min_update (cc : CollisionChecker α) (forward : Bool) (x m M : α)
    (hm : m ≤ M) : check_dist cc x forward m = min m (check_dist cc x forward M) := by
  cases forward
  · rw [check_dist_backward, check_dist_backward]
    by_cases h1 : cc.robot_back_length < -x
    · by_cases h2 : -x < m
      · rw [if_pos ⟨h1, h2⟩, if_pos ⟨h1, lt_of_lt_of_le h2 hm⟩, min_eq_right (le_of_lt h2)]
      · rw [if_neg (fun h => h2 h.2)]
        by_cases h3 : -x < M
        · rw [if_pos ⟨h1, h3⟩, min_eq_left (not_lt.mp h2)]
        · rw [if_neg (fun h => h3 h.2), min_eq_left hm]
    · rw [if_neg (fun h => h1 h.1), if_neg (fun h => h1 h.1), min_eq_left hm]
  · rw [check_dist_forward, check_dist_forward]
    by_cases h1 : cc.robot_front_length < x
    · by_cases h2 : x < m
      · rw [if_pos ⟨h1, h2⟩, if_pos ⟨h1, lt_of_lt_of_le h2 hm⟩, min_eq_right (le_of_lt h2)]
      · rw [if_neg (fun h => h2 h.2)]
        by_cases h3 : x < M
        · rw [if_pos ⟨h1, h3⟩, min_eq_left (not_lt.mp h2)]
        · rw [if_neg (fun h => h3 h.2), min_eq_left hm]
    · rw [if_neg (fun h => h1 h.1), if_neg (fun h => h1 h.1), min_eq_left hm]

/-- A guarded lowering `if c then min m v else m` is a minimum with a quantity
that does not depend on `m`. -/
theorem guarded_min_update (c : Prop) [Decidable c] (v m M : α) (hm : m ≤ M) :
    (if c then min m v else m) = min m (if c then min M v else M) := by
  by_cases h : c
  · rw [if_pos h, if_pos h, ← min_assoc, min_eq_left hm]
  · rw [if_neg h, if_neg h, min_eq_left hm]

/-- The left side test of the segment loop, seen on its own. -/
theorem side_check_min_update_left (y m M : α) (hm : m ≤ M) :
    (if y > 0 ∧ y < m then y else m) = min m (if y > 0 ∧ y < M then y else M) := by
  by_cases h1 : y > 0
  · by_cases h2 : y < m
    · rw [if_pos ⟨h1, h2⟩, if_pos ⟨h1, lt_of_lt_of_le h2 hm⟩, min_eq_right (le_of_lt h2)]
    · rw [if_neg (fun h => h2 h.2)]
      by_cases h3 : y < M
      · rw [if_pos ⟨h1, h3⟩, min_eq_left (not_lt.mp h2)]
      · rw [if_neg (fun h => h3 h.2), min_eq_left hm]
  · rw [if_neg (fun h => h1 h.1), if_neg (fun h => h1 h.1), min_eq_left hm]

/-- The right side test of the segment loop, seen on its own. -/
theorem side_check_min_update_right (y m M : α) (hm : m ≤ M) :
    (if y < 0 ∧ -y < m then -y else m) = min m (if y < 0 ∧ -y < M then -y else M) := by
  by_cases h1 : y < 0
  · by_cases h2 : -y < m
    · rw [if_pos ⟨h1, h2⟩, if_pos ⟨h1, lt_of_lt_of_le h2 hm⟩, min_eq_right (le_of_lt h2)]
    · rw [if_neg (fun h => h2 h.2)]
      by_cases h3 : -y < M
      · rw [if_pos ⟨h1, h3⟩, min_eq_left (not_lt.mp h2)]
      · rw [if_neg (fun h => h3 h.2), min_eq_left hm]
  · rw [if_neg (fun h => h1 h.1), if_neg (fun h => h1 h.1), min_eq_left hm]

/-- The two side minima of the segment loop evolve independently of each
other. -/
theorem foldl_side_check (ys : List α) (a b : α) :
    ys.foldl (fun lr y => side_check y lr) (a, b) =
      (ys.foldl (fun m y => if y > 0 ∧ y < m then y else m) a,
        ys.foldl (fun m y => if y < 0 ∧ -y < m then -y else m) b) := by
  induction ys generalizing a b with
  | nil => rfl
  | cons y ys ih =>
    simp only [List.foldl_cons]
    exact ih _ _

theorem foldl_line_step_left (cc : CollisionChecker α) (forward : Bool)
    (lines : List (Vector3 α × Vector3 α)) (s : DistState α) :
    (lines.foldl (line_step cc forward) s).min_dist_left =
      lines.foldl (fun m l => (side_candidates cc l.1.x l.1.y l.2.x l.2.y).foldl
        (fun m y => if y > 0 ∧ y < m then y else m) m) s.min_dist_left := by
  induction lines generalizing s with
  | nil => rfl
  | cons l ls ih =>
    simp only [List.foldl_cons]
    rw [ih]
    congr 1
    show ((side_candidates cc l.1.x l.1.y l.2.x l.2.y).foldl
      (fun lr y => side_check y lr) (s.min_dist_left, s.min_dist_right)).1 = _
    rw [foldl_side_check]

theorem foldl_line_step_right (cc : CollisionChecker α) (forward : Bool)
    (lines : List (Vector3 α × Vector3 α)) (s : DistState α) :
    (lines.foldl (line_step cc forward) s).min_dist_right =
      lines.foldl (fun m l => (side_candidates cc l.1.x l.1.y l.2.x l.2.y).foldl
        (fun m y => if y < 0 ∧ -y < m then -y else m) m) s.min_dist_right := by
  induction lines generalizing s with
  | nil => rfl
  | cons l ls ih =>
    simp only [List.foldl_cons]
    rw [ih]
    congr 1
    show ((side_candidates cc l.1.x l.1.y l.2.x l.2.y).foldl
      (fun lr y => side_check y lr) (s.min_dist_left, s.min_dist_right)).2 = _
    rw [foldl_side_check]

/-- C31: adding points or segments to the obstacle set never increases an
output of the collision engine: for every footprint, direction and obstacle
sets with every segment of `lines` among `lines1` and every point of `pts`
among `pts1`, each of the travel distance, the left clearance and the right
clearance of `obstacle_dist`, and the rotation margin of `obstacle_angle`,
computed on the larger set is at most the value computed on the smaller
one. -/
theorem C31_more_obstacles_never_more_room (fm : FloatMath α) (cc : CollisionChecker α)
    (forward left : Bool) (lines lines1 : List (Vector3 α × Vector3 α))
    (pts pts1 : List (Vector3 α)) (fl fr fl1 fr1 : Vector3 α)
    (hl : lines ⊆ lines1) (hp : pts ⊆ pts1) :
    (obstacle_dist cc forward lines1 pts1 fl1 fr1).dist ≤
        (obstacle_dist cc forward lines pts fl fr).dist ∧
    (obstacle_dist cc forward lines1 pts1 fl1 fr1).min_dist_left ≤
        (obstacle_dist cc forward lines pts fl fr).min_dist_left ∧
    (obstacle_dist cc forward lines1 pts1 fl1 fr1).min_dist_right ≤
        (obstacle_dist cc forward lines pts fl fr).min_dist_right ∧
    obstacle_angle fm cc left pts1 ≤ obstacle_angle fm cc left pts := by
  have hd : ∀ (ls : List (Vector3 α × Vector3 α)) (ps : List (Vector3 α)),
      (ps.foldl (point_step cc forward) (ls.foldl (line_step cc forward)
        ⟨cc.no_obstacle_dist, cc.no_obstacle_dist, cc.no_obstacle_dist⟩)).min_dist =
      ps.foldl (fun m p => if -cc.robot_width < p.y ∧ p.y < cc.robot_width then
          check_dist cc p.x forward m else m)
        (ls.foldl (fun m l => (front_rear_candidates cc l.1.x l.1.y l.2.x l.2.y).foldl
          (fun m x => check_dist cc x forward m) m) cc.no_obstacle_dist) := by
    intro ls ps
    rw [foldl_point_step_min_dist, foldl_line_step_min_dist]
  have hL : ∀ (ls : List (Vector3 α × Vector3 α)) (ps : List (Vector3 α)),
      (ps.foldl (point_step cc forward) (ls.foldl (line_step cc forward)
        ⟨cc.no_obstacle_dist, cc.no_obstacle_dist, cc.no_obstacle_dist⟩)).min_dist_left =
      ps.foldl (fun m p =>
          if (-cc.robot_back_length < p.x ∧ p.x < cc.robot_front_length) ∧ 0 < p.y then
            min m p.y else m)
        (ls.foldl (fun m l => (side_candidates cc l.1.x l.1.y l.2.x l.2.y).foldl
          (fun m y => if y > 0 ∧ y < m then y else m) m) cc.no_obstacle_dist) := by
    intro ls ps
    rw [foldl_point_step_left, foldl_line_step_left]
  have hR : ∀ (ls : List (Vector3 α × Vector3 α)) (ps : List (Vector3 α)),
      (ps.foldl (point_step cc forward) (ls.foldl (line_step cc forward)
        ⟨cc.no_obstacle_dist, cc.no_obstacle_dist, cc.no_obstacle_dist⟩)).min_dist_right =
      ps.foldl (fun m p =>
          if (-cc.robot_back_length < p.x ∧ p.x < cc.robot_front_length) ∧ p.y < 0 then
            min m (-p.y) else m)
        (ls.foldl (fun m l => (side_candidates cc l.1.x l.1.y l.2.x l.2.y).foldl
          (fun m y => if y < 0 ∧ -y < m then -y else m) m) cc.no_obstacle_dist) := by
    intro ls ps
    rw [foldl_point_step_right, foldl_line_step_right]
  have kd := two_stage_subset
    (fun m (l : Vector3 α × Vector3 α) =>
      (front_rear_candidates cc l.1.x l.1.y l.2.x l.2.y).foldl
        (fun m x => check_dist cc x forward m) m)
    (fun m (p : Vector3 α) => if -cc.robot_width < p.y ∧ p.y < cc.robot_width then
      check_dist cc p.x forward m else m)
    cc.no_obstacle_dist
    (fun m l hm => foldl_min_update (fun m x => check_dist cc x forward m) cc.no_obstacle_dist
      (fun m x hm => check_dist_min_update cc forward x m _ hm) _ m hm)
    (fun m p hm => by
      by_cases hb : -cc.robot_width < p.y ∧ p.y < cc.robot_width
      · simp only [if_pos hb]
        exact check_dist_min_update cc forward p.x m _ hm
      · simp only [if_neg hb]
        exact (min_eq_left hm).symm)
    lines lines1 pts pts1 hl hp
  have kL := two_stage_subset
    (fun m (l : Vector3 α × Vector3 α) =>
      (side_candidates cc l.1.x l.1.y l.2.x l.2.y).foldl
        (fun m y => if y > 0 ∧ y < m then y else m) m)
    (fun m (p : Vector3 α) =>
      if (-cc.robot_back_length < p.x ∧ p.x < cc.robot_front_length) ∧ 0 < p.y then
        min m p.y else m)
    cc.no_obstacle_dist
    (fun m l hm => foldl_min_update (fun m y => if y > 0 ∧ y < m then y else m)
      cc.no_obstacle_dist (fun m y hm => side_check_min_update_left y m _ hm) _ m hm)
    (fun m p hm => guarded_min_update _ p.y m _ hm)
    lines lines1 pts pts1 hl hp
  have kR := two_stage_subset
    (fun m (l : Vector3 α × Vector3 α) =>
      (side_candidates cc l.1.x l.1.y l.2.x l.2.y).foldl
        (fun m y => if y < 0 ∧ -y < m then -y else m) m)
    (fun m (p : Vector3 α) =>
      if (-cc.robot_back_length < p.x ∧ p.x < cc.robot_front_length) ∧ p.y < 0 then
        min m (-p.y) else m)
    cc.no_obstacle_dist
    (fun m l hm => foldl_min_update (fun m y => if y < 0 ∧ -y < m then -y else m)
      cc.no_obstacle_dist (fun m y hm => side_check_min_update_right y m _ hm) _ m hm)
    (fun m p hm => guarded_min_update _ (-p.y) m _ hm)
    lines lines1 pts pts1 hl hp
  rw [← hd, ← hd] at kd
  rw [← hL, ← hL] at kL
  rw [← hR, ← hR] at kR
  refine ⟨?_, ?_, ?_, ?_⟩
  · unfold obstacle_dist
    dsimp only
    cases forward
    · simp only [Bool.false_eq_true, if_false]
      exact sub_le_sub_right kd _
    · simp only [if_true]
      exact sub_le_sub_right kd _
  · unfold obstacle_dist
    dsimp only
    exact sub_le_sub_right kL _
  · unfold obstacle_dist
    dsimp only
    exact sub_le_sub_right kR _
  · exact foldl_min_update_subset (angle_step fm cc left) fm.pi
      (fun m p hm => angle_step_eq_min fm cc left m p hm) pts pts1 hp fm.pi fm.pi
      (le_refl _) (le_refl _)

end Mono

/-- C31 at a concrete input over the reals: width 1, front and back 1/2; the
point `(1, 0)` and the segment `(1,2)-(5,0)` are added to the single point
`(2, 0)`. -/
theorem C31_more_obstacles_never_more_room_witness :
    (([] : List (Vector3 ℝ × Vector3 ℝ)) ⊆ [(⟨1, 2, 0⟩, ⟨5, 0, 0⟩)] ∧
      ([⟨2, 0, 0⟩] : List (Vector3 ℝ)) ⊆ [⟨1, 0, 0⟩, ⟨2, 0, 0⟩]) ∧
    ((obstacle_dist (⟨10, 1, 1 / 2, 1 / 2⟩ : CollisionChecker ℝ) true
          [(⟨1, 2, 0⟩, ⟨5, 0, 0⟩)] [⟨1, 0, 0⟩, ⟨2, 0, 0⟩] ⟨0, 0, 0⟩ ⟨0, 0, 0⟩).dist ≤
        (obstacle_dist (⟨10, 1, 1 / 2, 1 / 2⟩ : CollisionChecker ℝ) true
          [] [⟨2, 0, 0⟩] ⟨0, 0, 0⟩ ⟨0, 0, 0⟩).dist ∧
      obstacle_angle realMath (⟨10, 1, 1 / 2, 1 / 2⟩ : CollisionChecker ℝ) true
          [⟨1, 0, 0⟩, ⟨2, 0, 0⟩] ≤
        obstacle_angle realMath (⟨10, 1, 1 / 2, 1 / 2⟩ : CollisionChecker ℝ) true
          [⟨2, 0, 0⟩]) := by
  have hl : ([] : List (Vector3 ℝ × Vector3 ℝ)) ⊆ [(⟨1, 2, 0⟩, ⟨5, 0, 0⟩)] :=
    List.nil_subset _
  have hp : ([⟨2, 0, 0⟩] : List (Vector3 ℝ)) ⊆ [⟨1, 0, 0⟩, ⟨2, 0, 0⟩] :=
    List.subset_cons_self _ _
  have h := C31_more_obstacles_never_more_room realMath
    (⟨10, 1, 1 / 2, 1 / 2⟩ : CollisionChecker ℝ) true true [] [(⟨1, 2, 0⟩, ⟨5, 0, 0⟩)]
    [⟨2, 0, 0⟩] [⟨1, 0, 0⟩, ⟨2, 0, 0⟩] ⟨0, 0, 0⟩ ⟨0, 0, 0⟩ ⟨0, 0, 0⟩ ⟨0, 0, 0⟩ hl hp
  exact ⟨⟨hl, hp⟩, h.1, h.2.2.2⟩
/-! ## Range of the rotation margin -/

section Margin

variable {α : Type} [LinearOrderedField α]

/-- A call of `check_angle` keeps a positive running minimum positive. -/
theorem check_angle_pos (fm : FloatMath α) (theta x y : α) (left : Bool) (m : α)
    (hm : 0 < m) : 0 < check_angle fm theta x y left m := by
  cases left
  · rw [check_angle_right]
    split_ifs with h
    · exact lt_min hm (by linarith)
    · exact hm
  · rw [check_angle_left]
    split_ifs with h
    · exact lt_min hm h
    · exact hm

theorem side_edges_check_pos (fm : FloatMath α) (cc : CollisionChecker α) (left : Bool)
    (theta r m : α) (hm : 0 < m) : 0 < side_edges_check fm cc left theta r m := by
  unfold side_edges_check
  dsimp only
  split_ifs <;>
    first
    | exact hm
    | exact check_angle_pos _ _ _ _ _ _ (check_angle_pos _ _ _ _ _ _ hm)
    | exact check_angle_pos _ _ _ _ _ _ (check_angle_pos _ _ _ _ _ _
        (check_angle_pos _ _ _ _ _ _ (check_angle_pos _ _ _ _ _ _ hm)))

theorem back_edge_check_pos (fm : FloatMath α) (cc : CollisionChecker α) (left : Bool)
    (theta x r m : α) (hm : 0 < m) : 0 < back_edge_check fm cc left theta x r m := by
  unfold back_edge_check
  dsimp only
  split_ifs <;>
    first
    | exact hm
    | exact check_angle_pos _ _ _ _ _ _ hm
    | exact check_angle_pos _ _ _ _ _ _ (check_angle_pos _ _ _ _ _ _ hm)

theorem front_edge_check_pos (fm : FloatMath α) (cc : CollisionChecker α) (left : Bool)
    (theta x r m : α) (hm : 0 < m) : 0 < front_edge_check fm cc left theta x r m := by
  unfold front_edge_check
  dsimp only
  split_ifs <;>
    first
    | exact hm
    | exact check_angle_pos _ _ _ _ _ _ hm
    | exact check_angle_pos _ _ _ _ _ _ (check_angle_pos _ _ _ _ _ _ hm)

/-- One iteration of the point loop of `obstacle_angle` keeps a positive
running minimum positive. -/
theorem angle_step_pos (fm : FloatMath α) (cc : CollisionChecker α) (left : Bool) (m : α)
    (p : Vector3 α) (hm : 0 < m) : 0 < angle_step fm cc left m p := by
  unfold angle_step
  simp only
  split_ifs
  · exact front_edge_check_pos _ _ _ _ _ _ _
      (back_edge_check_pos _ _ _ _ _ _ _ (side_edges_check_pos _ _ _ _ _ _ hm))
  · exact hm

/-- C32: for every footprint, rotation direction and obstacle point set, with
a positive value of `M_PI`, the value returned by `obstacle_angle` lies in the
interval `(0, π]`: it is never zero or negative, wherever the points lie. -/
theorem C32_margin_range (fm : FloatMath α) (cc : CollisionChecker α) (left : Bool)
    (pts : List (Vector3 α)) (hpi : 0 < fm.pi) :
    0 < obstacle_angle fm cc left pts ∧ obstacle_angle fm cc left pts ≤ fm.pi :=
  ⟨foldl_preserves (fun m => 0 < m) (angle_step fm cc left)
      (fun m p hm => angle_step_pos fm cc left m p hm) pts fm.pi hpi,
    foldl_angle_step_le fm cc left pts fm.pi⟩

end Margin

/-- C32 at a concrete input over the reals: the square footprint with
half-side `1`, a left turn, one point inside the footprint and one on its
boundary. -/
theorem C32_margin_range_witness :
    0 < realMath.pi ∧
    (0 < obstacle_angle realMath (⟨10, 1, 1, 1⟩ : CollisionChecker ℝ) true
        [⟨1 / 2, 1 / 4, 0⟩, ⟨1, 0, 0⟩] ∧
      obstacle_angle realMath (⟨10, 1, 1, 1⟩ : CollisionChecker ℝ) true
        [⟨1 / 2, 1 / 4, 0⟩, ⟨1, 0, 0⟩] ≤ realMath.pi) :=
  ⟨Real.pi_pos, C32_margin_range realMath (⟨10, 1, 1, 1⟩ : CollisionChecker ℝ) true
    [⟨1 / 2, 1 / 4, 0⟩, ⟨1, 0, 0⟩] Real.pi_pos⟩
/-! ## `normalizeAngle` on `[-3π, 3π]` and the reverse branch of `smoothFollow` -/

section Wrap

variable {α : Type} [LinearOrderedField α]

/-- C34: for every input angle `a` with `-3π ≤ a ≤ 3π`, the value
`normalizeAngle` leaves (its assertions set aside) lies in `[-π, π]` and is
`a`, `a + 2π` or `a - 2π`; every `a` in `[-π, π]` is left unchanged. -/
theorem C34_normalizeAngle_wrap (fm : FloatMath α) (a : α)
    (h1 : -(3 * fm.pi) ≤ a) (h2 : a ≤ 3 * fm.pi) :
    (-fm.pi ≤ normalizeAngle fm a ∧ normalizeAngle fm a ≤ fm.pi) ∧
    (normalizeAngle fm a = a ∨ normalizeAngle fm a = a + 2 * fm.pi ∨
      normalizeAngle fm a = a - 2 * fm.pi) ∧
    (-fm.pi ≤ a ∧ a ≤ fm.pi → normalizeAngle fm a = a) := by
  rcases normalizeAngle_cases fm a with ⟨h, e⟩ | ⟨h, e⟩ | ⟨h, e⟩
  · refine ⟨?_, Or.inr (Or.inl e), ?_⟩
    · rw [e]; constructor <;> linarith
    · intro hr; linarith [hr.1]
  · refine ⟨?_, Or.inr (Or.inr e), ?_⟩
    · rw [e]; constructor <;> linarith
    · intro hr; linarith [hr.2]
  · exact ⟨by rw [e]; exact h, Or.inl e, fun _ => e⟩

/-- C33: in every tick of `smoothFollow`, with a square root that returns no
negative value, `distRemaining` is not negative, so the branch guarded by
`distRemaining < 0` is not taken: the obstacle distance that gates the tick is
`forwardObstacleDist`, and the outcome of the tick does not depend on the
obstacle segments, which only the query `obstacle_dist(forward = false)` of
that branch would read. -/
theorem C33_reverse_branch_unreachable (mb : MoveSmooth α) (fm : FloatMath α) (cos : α → α)
    (cc : CollisionChecker α) (s : FollowState α) (t : FollowTick α)
    (hsqrt : ∀ x, 0 ≤ fm.sqrt x) :
    0 ≤ t.distRemaining fm ∧
    t.obstacleDist fm cc = t.forwardObstacleDist ∧
    ∀ lines1, mb.followBody fm cos cc s
        ⟨t.ok, t.poseOk, t.remaining, t.points, lines1, t.forwardObstacleDist, t.forwardLeft,
          t.forwardRight, t.preempt, t.now, t.newGoal, t.nextGoalOk, t.nextRemaining, t.stop⟩ =
      mb.followBody fm cos cc s t := by
  have hd : ∀ u : FollowTick α, ¬ (u.distRemaining fm < 0) := fun u => not_lt.mpr (hsqrt _)
  have ho : ∀ u : FollowTick α, u.obstacleDist fm cc = u.forwardObstacleDist := by
    intro u
    unfold FollowTick.obstacleDist
    rw [if_neg (hd u)]
  refine ⟨hsqrt _, ho t, ?_⟩
  intro lines1
  unfold MoveSmooth.followBody
  simp only [ho]
  rfl

end Wrap

/-- C34 at a concrete input over the reals: `4` lies between `π` and `3π` and
is taken to `4 - 2π`. -/
theorem C34_normalizeAngle_wrap_witness :
    (-(3 * realMath.pi) ≤ 4 ∧ (4 : ℝ) ≤ 3 * realMath.pi) ∧
    (-realMath.pi ≤ normalizeAngle realMath 4 ∧ normalizeAngle realMath 4 ≤ realMath.pi) := by
  have hp : realMath.pi = Real.pi := rfl
  have h3 := Real.pi_gt_three
  have h1 : -(3 * realMath.pi) ≤ 4 := by rw [hp]; linarith
  have h2 : (4 : ℝ) ≤ 3 * realMath.pi := by rw [hp]; linarith
  exact ⟨⟨h1, h2⟩, (C34_normalizeAngle_wrap realMath 4 h1 h2).1⟩

/-- C33 at a concrete tick over the reals: goal at `(3, 4)` in the base frame,
`forwardObstacleDist = 10`, one obstacle point and one obstacle segment behind
the robot. -/
theorem C33_reverse_branch_unreachable_witness :
    (0 : ℝ) ≤ FollowTick.distRemaining realMath
      ⟨true, true, ⟨3, 4, 0⟩, [⟨-1, 0, 0⟩], [(⟨-1, -1, 0⟩, ⟨-1, 1, 0⟩)], 10, ⟨0, 0, 0⟩,
        ⟨0, 0, 0⟩, false, 1 / 50, false, false, ⟨0, 0, 0⟩, false⟩ ∧
    FollowTick.obstacleDist realMath (⟨10, 8 / 100, 9 / 100, 19 / 100⟩ : CollisionChecker ℝ)
      ⟨true, true, ⟨3, 4, 0⟩, [⟨-1, 0, 0⟩], [(⟨-1, -1, 0⟩, ⟨-1, 1, 0⟩)], 10, ⟨0, 0, 0⟩,
        ⟨0, 0, 0⟩, false, 1 / 50, false, false, ⟨0, 0, 0⟩, false⟩ = 10 := by
  have h := C33_reverse_branch_unreachable (MoveSmooth.defaults : MoveSmooth ℝ) realMath
    Real.cos (⟨10, 8 / 100, 9 / 100, 19 / 100⟩ : CollisionChecker ℝ) ⟨0, 5, 0, 0, 0, 0⟩
    ⟨true, true, ⟨3, 4, 0⟩, [⟨-1, 0, 0⟩], [(⟨-1, -1, 0⟩, ⟨-1, 1, 0⟩)], 10, ⟨0, 0, 0⟩,
      ⟨0, 0, 0⟩, false, 1 / 50, false, false, ⟨0, 0, 0⟩, false⟩
    (fun x => Real.sqrt_nonneg x)
  exact ⟨h.1, h.2.1⟩

/-! ## The special values of `double` in `smoothFollow` -/

section Special

variable {α : Type} [LinearOrderedField α]

/-- When the stored angular speed makes the argument of the square root of the
"Lateral control" block negative, the NaN is dropped and the angular command
is the limited PID output. -/
theorem lateralControl_nan (mb : MoveSmooth α) (fm : FloatMath α) (p e pe li oa : α)
    (h : p + 2 * mb.maxAngularAcceleration * oa < 0) :
    mb.lateralControl fm p e pe li oa =
      mb.limitAngularVelocity
        (mb.lateralKp * e + mb.lateralKi * li + mb.lateralKd * (e - pe)) := by
  unfold MoveSmooth.lateralControl sqrtRoot
  dsimp only
  rw [if_pos h]
  rfl

/-- When the divisor `1 - cos (angleToNextGoal / 2)` is zero and the dividend
is positive, `maxTurnVelocity` is `+∞` and the linear command of the "Next
goal state" block is the limited distance to the next goal. -/
theorem nextGoalVelocity_inf (mb : MoveSmooth α) (fm : FloatMath α) (cos : α → α)
    (v : α) (nr : Vector3 α)
    (hD : 1 - cos (normalizeAngle fm (fm.atan2 nr.y nr.x) / 2) = 0)
    (hN : 0 < mb.gravityConstant * mb.maxIncline * mb.maxLateralDev) :
    mb.nextGoalVelocity fm cos v nr =
      mb.limitLinearVelocity (fm.sqrt (nr.x * nr.x + nr.y * nr.y)) := by
  unfold MoveSmooth.nextGoalVelocity sqrtQuot
  dsimp only
  rw [if_pos hD, if_pos hN]
  rfl

end Special

/-- A tick of `smoothFollow` over the reals that meets both special values:
default parameters, stored angular speed `-2`, previous lateral error `-1`,
goal `5` m straight ahead, free path and a queued goal `2` m straight ahead.
The square root of `-2` is dropped and the divisor `1 - cos 0` is zero; the
published command is `(2, 0.5)`. -/
theorem followBody_special_tick :
    MoveSmooth.followBody (MoveSmooth.defaults : MoveSmooth ℝ) realMath Real.cos
      ⟨10, 8 / 100, 9 / 100, 19 / 100⟩ ⟨0, 5, 0, -2, 0, -1⟩
      ⟨true, true, ⟨5, 0, 0⟩, [], [], 10, ⟨0, 0, 0⟩, ⟨0, 0, 0⟩, false, 1 / 50,
        true, true, ⟨2, 0, 0⟩, false⟩ =
      ([Event.cmd 2 (1 / 2)], Step.next ⟨1 / 50, 5, 1 / 2, 2, 0, 0⟩) := by
  have hthr : (MoveSmooth.defaults : MoveSmooth ℝ).forwardObstacleThreshold = 1 / 2 := rfl
  have hto : (MoveSmooth.defaults : MoveSmooth ℝ).runawayTimeoutSecs = 1 := rfl
  have hl : (MoveSmooth.defaults : MoveSmooth ℝ).maxLateralDev = 1 := rfl
  have hang := follow_angle_real
    (⟨true, true, ⟨5, 0, 0⟩, [], [], 10, ⟨0, 0, 0⟩, ⟨0, 0, 0⟩, false, 1 / 50,
      true, true, ⟨2, 0, 0⟩, false⟩ : FollowTick ℝ) (by norm_num)
  have harg5 : Complex.arg ⟨5, 0⟩ = 0 := Complex.arg_eq_zero_iff.mpr ⟨by norm_num, rfl⟩
  have harg2 : Complex.arg ⟨2, 0⟩ = 0 := Complex.arg_eq_zero_iff.mpr ⟨by norm_num, rfl⟩
  have hat2 : realMath.atan2 0 2 = 0 := harg2
  have hAR : FollowTick.angleRemaining realMath
      (⟨true, true, ⟨5, 0, 0⟩, [], [], 10, ⟨0, 0, 0⟩, ⟨0, 0, 0⟩, false, 1 / 50,
        true, true, ⟨2, 0, 0⟩, false⟩ : FollowTick ℝ) = 0 := by
    rw [hang.2]; exact harg5
  have hdist := dist_real
    (⟨true, true, ⟨5, 0, 0⟩, [], [], 10, ⟨0, 0, 0⟩, ⟨0, 0, 0⟩, false, 1 / 50,
      true, true, ⟨2, 0, 0⟩, false⟩ : FollowTick ℝ) 5 (by norm_num) (by norm_num)
  have hn0 := real_normalize_small 0 (by norm_num) (by norm_num)
  have hbody := followBody_drive_next (MoveSmooth.defaults : MoveSmooth ℝ) realMath Real.cos
    ⟨10, 8 / 100, 9 / 100, 19 / 100⟩ ⟨0, 5, 0, -2, 0, -1⟩
    ⟨true, true, ⟨5, 0, 0⟩, [], [], 10, ⟨0, 0, 0⟩, ⟨0, 0, 0⟩, false, 1 / 50,
      true, true, ⟨2, 0, 0⟩, false⟩ rfl hang.1
    (by rw [obstacleDist_real, hthr]; norm_num) rfl
    (by rw [hto]; rintro ⟨-, h⟩; norm_num at h)
    (by rw [hdist, hl]; norm_num) rfl rfl
    (by
      show normalizeAngle_asserts realMath (realMath.atan2 0 2) = true
      rw [hat2]; exact hn0.2)
  have hrun : runawayCondition realMath Real.cos (⟨0, 5, 0, -2, 0, -1⟩ : FollowState ℝ)
      ⟨true, true, ⟨5, 0, 0⟩, [], [], 10, ⟨0, 0, 0⟩, ⟨0, 0, 0⟩, false, 1 / 50,
        true, true, ⟨2, 0, 0⟩, false⟩ = false := by
    unfold runawayCondition
    rw [hAR, Real.cos_zero]
    simp
  have hlat : MoveSmooth.lateralControl (MoveSmooth.defaults : MoveSmooth ℝ) realMath
      (-2) 0 (-1) (0 + 0) (rotateObstacleAngle realMath ⟨10, 8 / 100, 9 / 100, 19 / 100⟩ 0 [])
      = 2 := by
    rw [rotateObstacleAngle_nil_small _ 0 (le_refl _) (by norm_num)]
    rw [lateralControl_nan _ _ _ _ _ _ _
      (by show (-2 : ℝ) + 2 * 5 * 0 < 0; norm_num)]
    show max (-(2 : ℝ)) (min 2 (1 / 2 * 0 + 0 * (0 + 0) + 3 * (0 - -1))) = 2
    norm_num
  have hlin : MoveSmooth.linearControl (MoveSmooth.defaults : MoveSmooth ℝ) realMath
      0 0 10 5 = 1 / 2 := by
    have hD := maxAngleDev_defaults_pos
    have hv : (MoveSmooth.defaults : MoveSmooth ℝ).maxLinearVelocity = 1 / 2 := rfl
    have ha : (MoveSmooth.defaults : MoveSmooth ℝ).maxLinearAcceleration = 11 / 10 := rfl
    have hs11 : (1 / 2 : ℝ) ≤ Real.sqrt 11 := by
      have h1 := Real.sq_sqrt (show (0 : ℝ) ≤ 11 by norm_num)
      have h2 := Real.sqrt_nonneg 11
      by_contra hneg
      push_neg at hneg
      nlinarith
    unfold MoveSmooth.linearControl MoveSmooth.limitLinearVelocity
    dsimp only
    rw [abs_zero, zero_div, sub_zero, div_self (ne_of_gt hD), hv, ha]
    have e1 : (0 : ℝ) + 2 * (11 / 10) * min 10 5 = 11 := by
      rw [min_eq_right (by norm_num : (5 : ℝ) ≤ 10)]; norm_num
    have e2 : realMath.sqrt 11 = Real.sqrt 11 := rfl
    rw [e1, e2, max_eq_left (by norm_num : (0 : ℝ) ≤ 1), one_mul,
      min_eq_left (le_min (by norm_num) hs11), min_self]
  have hnext : MoveSmooth.nextGoalVelocity (MoveSmooth.defaults : MoveSmooth ℝ) realMath
      Real.cos (1 / 2) ⟨2, 0, 0⟩ = 1 / 2 := by
    rw [nextGoalVelocity_inf _ _ _ _ _
      (by
        show 1 - Real.cos (normalizeAngle realMath (realMath.atan2 0 2) / 2) = 0
        rw [hat2, hn0.1, zero_div, Real.cos_zero, sub_self])
      (by show (0 : ℝ) < 981 / 100 * (1 / 100) * 1; norm_num)]
    have hd2 : realMath.sqrt ((2 : ℝ) * 2 + 0 * 0) = 2 :=
      real_sqrt_of_sq _ 2 (by norm_num) (by norm_num)
    show min (1 / 2 : ℝ) (realMath.sqrt ((2 : ℝ) * 2 + 0 * 0)) = 1 / 2
    rw [hd2]
    norm_num
  rw [hbody, hrun, hAR, hdist, obstacleDist_real]
  simp only [Bool.false_eq_true, if_false]
  show ([sendCmd false
      (MoveSmooth.lateralControl (MoveSmooth.defaults : MoveSmooth ℝ) realMath (-2) 0 (-1)
        (0 + 0) (rotateObstacleAngle realMath ⟨10, 8 / 100, 9 / 100, 19 / 100⟩ 0 []))
      (MoveSmooth.nextGoalVelocity (MoveSmooth.defaults : MoveSmooth ℝ) realMath Real.cos
        (MoveSmooth.linearControl (MoveSmooth.defaults : MoveSmooth ℝ) realMath 0 0 10 5)
        ⟨2, 0, 0⟩)],
    Step.next (⟨1 / 50, 5,
      MoveSmooth.nextGoalVelocity (MoveSmooth.defaults : MoveSmooth ℝ) realMath Real.cos
        (MoveSmooth.linearControl (MoveSmooth.defaults : MoveSmooth ℝ) realMath 0 0 10 5)
        ⟨2, 0, 0⟩,
      MoveSmooth.lateralControl (MoveSmooth.defaults : MoveSmooth ℝ) realMath (-2) 0 (-1)
        (0 + 0) (rotateObstacleAngle realMath ⟨10, 8 / 100, 9 / 100, 19 / 100⟩ 0 []),
      0 + 0, 0⟩ : FollowState ℝ)) = _
  rw [hlat, hlin, hnext, add_zero]
  rfl

/-- C11 at a concrete tick over the reals: the tick above, in which the
square root of a negative stored angular speed and the division by
`1 - cos 0 = 0` occur; the published command `(2, 0.5)` obeys both limits. -/
theorem C11_follow_tick_velocity_bounds_witness :
    Event.cmd 2 (1 / 2) ∈ (MoveSmooth.followBody (MoveSmooth.defaults : MoveSmooth ℝ) realMath
      Real.cos ⟨10, 8 / 100, 9 / 100, 19 / 100⟩ ⟨0, 5, 0, -2, 0, -1⟩
      ⟨true, true, ⟨5, 0, 0⟩, [], [], 10, ⟨0, 0, 0⟩, ⟨0, 0, 0⟩, false, 1 / 50,
        true, true, ⟨2, 0, 0⟩, false⟩).1 ∧
    |(1 / 2 : ℝ)| ≤ (MoveSmooth.defaults : MoveSmooth ℝ).maxLinearVelocity ∧
    |(2 : ℝ)| ≤ (MoveSmooth.defaults : MoveSmooth ℝ).maxAngularVelocity := by
  have hmem : Event.cmd 2 (1 / 2) ∈ (MoveSmooth.followBody (MoveSmooth.defaults : MoveSmooth ℝ)
      realMath Real.cos ⟨10, 8 / 100, 9 / 100, 19 / 100⟩ ⟨0, 5, 0, -2, 0, -1⟩
      ⟨true, true, ⟨5, 0, 0⟩, [], [], 10, ⟨0, 0, 0⟩, ⟨0, 0, 0⟩, false, 1 / 50,
        true, true, ⟨2, 0, 0⟩, false⟩).1 := by
    rw [followBody_special_tick]
    exact List.mem_singleton.mpr rfl
  exact ⟨hmem, (C11_follow_tick_velocity_bounds (MoveSmooth.defaults : MoveSmooth ℝ) realMath
    Real.cos ⟨10, 8 / 100, 9 / 100, 19 / 100⟩
    (by show (0 : ℝ) ≤ 1 / 2; norm_num) (by show (0 : ℝ) ≤ 2; norm_num)
    (by show (0 : ℝ) ≤ 11 / 10; norm_num) (by show (0 : ℝ) ≤ 1 / 2; norm_num)
    (ne_of_gt maxAngleDev_defaults_pos)
    (fun x _ => Real.sqrt_nonneg x)).1 ⟨0, 5, 0, -2, 0, -1⟩ _ 2 (1 / 2) (le_refl _) hmem⟩

end MoveBasic
